import Mathlib

/-!
Verification of the gala Raveler label-remapping engine (`gala/imio.py`).

The shallow embedding below models label volumes as nested lists of
naturals, axis order (plane, row, col), with 0 the reserved background
sentinel.  Functions from `imio.py` keep their source names.  The helper
functions `evaluate.relabel_from_one`, `morpho.remove_small_connected_components`
and `scipy.ndimage.label` are not part of the packaged sources; they are
modelled from the specification, and each such definition is marked in its
doc comment.
-/

namespace Gala

/-! ## Data model -/

abbrev Plane := List (List Nat)
abbrev Vol := List Plane

/-- Value of a plane at (row, col); out-of-range reads give background 0.
This is only a convenience accessor for stating theorems, not part of the
translated code. -/
def pget (a : Plane) (r c : Nat) : Nat := (a.getD r []).getD c 0

/-- Value of a volume at (plane, row, col); out-of-range reads give 0. -/
def vget (v : Vol) (p r c : Nat) : Nat := pget (v.getD p []) r c

/-- Row-major flattening of a plane (numpy `ravel` on one plane). -/
def ravel (a : Plane) : List Nat := a.flatten

/-- Row-major flattening of a volume (numpy `ravel`). -/
def ravel3 (v : Vol) : List Nat := (v.map ravel).flatten

/-- The number of planes, rows per plane and cols per row are as given:
the volume is a rectangular numpy-style array of that shape. -/
def HasShape (v : Vol) (n r c : Nat) : Prop :=
  v.length = n ∧ ∀ pl ∈ v, pl.length = r ∧ ∀ row ∈ pl, row.length = c

/-! ## Sorted distinct tuples (old-numpy `unique` on a list of tuples):
`numpy.unique` applied to a Python list of tuples returns the sorted list
of the distinct tuples. -/

def sorted_insert {α : Type} (lt : α → α → Bool) (x : α) : List α → List α
  | [] => [x]
  | y :: ys =>
    if lt x y then x :: y :: ys
    else if lt y x then y :: sorted_insert lt x ys
    else y :: ys

def sorted_unique {α : Type} (lt : α → α → Bool) (l : List α) : List α :=
  l.foldl (fun acc x => sorted_insert lt x acc) []

def lex_lt_pair (a b : Nat × Nat) : Bool :=
  a.1 < b.1 || (a.1 == b.1 && a.2 < b.2)

def lex_lt_triple (a b : Nat × Nat × Nat) : Bool :=
  a.1 < b.1 || (a.1 == b.1 && lex_lt_pair a.2 b.2)

def unique_pairs (l : List (Nat × Nat)) : List (Nat × Nat) :=
  sorted_unique lex_lt_pair l

def unique_triples (l : List (Nat × Nat × Nat)) : List (Nat × Nat × Nat) :=
  sorted_unique lex_lt_triple l

/-! ## Connectivity on a plane.

Needed by the spec-modelled helpers `remove_small_connected_components`
and `scipy.ndimage.label`.  Components are computed by iterating a
one-step growth of a position set; `pos.length` iterations suffice to
reach the closure. -/

/-- All (row, col) positions of a plane, in row-major order. -/
def positions (a : Plane) : List (Nat × Nat) :=
  (a.enum.map (fun rrow => rrow.2.enum.map (fun cx => (rrow.1, cx.1)))).flatten

/-- 4-connectivity adjacency of grid positions. -/
def adjacent (u v : Nat × Nat) : Bool :=
  (u.1 == v.1 && (u.2 + 1 == v.2 || v.2 + 1 == u.2)) ||
  (u.2 == v.2 && (u.1 + 1 == v.1 || v.1 + 1 == u.1))

/-- One growth step: add every position satisfying `ok` that is adjacent to
the current set and not yet in it. -/
def grow (ok : Nat × Nat → Bool) (pos : List (Nat × Nat)) (s : List (Nat × Nat)) :
    List (Nat × Nat) :=
  s ++ pos.filter (fun u => !s.contains u && ok u && s.any (fun w => adjacent w u))

/-- Positions reachable from `v` through `ok` positions (including `v`). -/
def closure (ok : Nat × Nat → Bool) (pos : List (Nat × Nat)) (v : Nat × Nat) :
    List (Nat × Nat) :=
  (grow ok pos)^[pos.length] [v]

/-- The connected component of equal-valued positions containing `v`. -/
def comp_of (a : Plane) (v : Nat × Nat) : List (Nat × Nat) :=
  closure (fun u => pget a u.1 u.2 == pget a v.1 v.2) (positions a) v

def comp_size (a : Plane) (v : Nat × Nat) : Nat := (comp_of a v).length

/-- The connected component of nonzero positions containing `v`. -/
def mask_comp (a : Plane) (v : Nat × Nat) : List (Nat × Nat) :=
  closure (fun u => pget a u.1 u.2 != 0) (positions a) v

/-- One step of connectivity: `b` is adjacent to `a`, lies on the plane
and satisfies `ok`.  `Reach` is its reflexive-transitive closure; the
executable `closure` computes exactly the `Reach`-image (proved below). -/
def ReachStep (ok : Nat × Nat → Bool) (pos : List (Nat × Nat)) (a b : Nat × Nat) : Prop :=
  adjacent a b = true ∧ b ∈ pos ∧ ok b = true

def Reach (ok : Nat × Nat → Bool) (pos : List (Nat × Nat)) (a b : Nat × Nat) : Prop :=
  Relation.ReflTransGen (ReachStep ok pos) a b

/-! ## Spec-modelled helpers -/

/-- Apply a position-indexed voxel map to a plane, preserving its shape. -/
def plane_map_idx (g : Nat → Nat → Nat → Nat) (a : Plane) : Plane :=
  a.enum.map (fun rrow => rrow.2.enum.map (fun cx => g rrow.1 cx.1 cx.2))

/-- Modelled from the spec: `morpho.remove_small_connected_components` is
not under the packaged sources.  Spec 4.1: for each plane, if
`min_size > 0`, zero out any connected component (4-connectivity per
plane) smaller than `min_size`; the voxels become background. -/
def remove_small_connected_components (a : Plane) (min_size : Nat) : Plane :=
  plane_map_idx (fun r c x =>
    if x ≠ 0 ∧ comp_size a (r, c) < min_size then 0 else x) a

/-- Distinct nonzero values of a list in order of first appearance. -/
def first_appearance (l : List Nat) : List Nat :=
  l.foldl (fun acc x => if x ≠ 0 ∧ x ∉ acc then acc ++ [x] else acc) []

/-- The compaction map of `relabel_from_one`: 0 stays 0, a value `x` goes
to one plus its index in the first-appearance list `ids`. -/
def rfo_map (ids : List Nat) (x : Nat) : Nat :=
  if x = 0 then 0 else ids.indexOf x + 1

/-- Modelled from the spec: `evaluate.relabel_from_one` is not under the
packaged sources.  Spec 4.1: compact the existing distinct nonzero values
of the plane to a contiguous range starting at 1, preserving their
relative order of first appearance; record the count of distinct nonzero
ids; background 0 stays 0. -/
def relabel_from_one (a : Plane) : Plane × Nat :=
  let ids := first_appearance a.flatten
  (a.map (fun row => row.map (rfo_map ids)), ids.length)

/-- Raw connected-component representative plane: each nonzero voxel is
tagged with 1 + the row-major index of the first position of its
nonzero-connected component. -/
def cc_raw (a : Plane) : Plane :=
  plane_map_idx (fun r c x =>
    if x = 0 then 0
    else (positions a).findIdx (fun u => (mask_comp a (r, c)).contains u) + 1) a

/-- Modelled from the spec: `scipy.ndimage.label` is an external library
function.  Spec 4.1: recompute plane labels via connected-component
labeling of the plane (any nonzero voxel is foreground), with labels
contiguous from 1 and background 0, returning the label count. -/
def cc_label (a : Plane) : Plane × Nat :=
  relabel_from_one (cc_raw a)

/-! ## Plane Relabeler: `serial_section_map` (imio.py lines 629-645) -/

/-- `label_fct` from `serial_section_map`: scipy `label` when
`do_conn_comp`, else `relabel_from_one` with the id count. -/
def label_fct (do_conn_comp : Bool) (a : Plane) : Plane × Nat :=
  if do_conn_comp then cc_label a else relabel_from_one a

/-- Exclusive prefix sums: `concatenate(([0], cumsum(nids)[:-1]))`. -/
def excl_scan : List Nat → List Nat
  | [] => []
  | c :: cs => 0 :: (excl_scan cs).map (c + ·)

/-- Per-plane `(relabeled_plane, nids)` pairs:
`zip(*map(label_fct, map(remove_small, nd_map)))`. -/
def ssm_plane_pairs (nd_map : Vol) (min_size : Nat) (do_conn_comp : Bool) :
    List (Plane × Nat) :=
  nd_map.map (fun pl => label_fct do_conn_comp (remove_small_connected_components pl min_size))

def ssm_counts (nd_map : Vol) (min_size : Nat) (do_conn_comp : Bool) : List Nat :=
  (ssm_plane_pairs nd_map min_size do_conn_comp).map (·.2)

/-- `start_ids`: exclusive prefix sums of the per-plane id counts when
`globally_unique_ids`, else all zeros. -/
def ssm_start_ids (nd_map : Vol) (min_size : Nat) (do_conn_comp globally_unique_ids : Bool) :
    List Nat :=
  if globally_unique_ids then excl_scan (ssm_counts nd_map min_size do_conn_comp)
  else (ssm_counts nd_map min_size do_conn_comp).map (fun _ => 0)

/-- `serial_section_map` (imio.py 629-645).  Note the source adds
`start_id` to the whole plane: `relabeled_plane + start_id` is a numpy
broadcast over every voxel of the plane, background included. -/
def serial_section_map (nd_map : Vol) (min_size : Nat)
    (do_conn_comp globally_unique_ids : Bool) : Vol :=
  List.zipWith (fun pr s => pr.1.map (fun row => row.map (· + s)))
    (ssm_plane_pairs nd_map min_size do_conn_comp)
    (ssm_start_ids nd_map min_size do_conn_comp globally_unique_ids)

/-! ## Background Sentinel Enforcer: `raveler_serial_section_map`
(imio.py lines 621-627) -/

/-- Write `x` at (row 0, col 0) of a plane (`nd_map[:,0,0] = x` slice). -/
def set_corner (a : Plane) (x : Nat) : Plane :=
  match a with
  | [] => []
  | r :: rs => r.set 0 x :: rs

/-- `(nd_map == 0).any()`. -/
def any_zero (v : Vol) : Bool := (ravel3 v).contains 0

/-- `raveler_serial_section_map` (imio.py 621-627): relabel, then if the
whole volume has no background voxel, force (0,0) of every plane to 0. -/
def raveler_serial_section_map (nd_map : Vol) (min_size : Nat)
    (do_conn_comp globally_unique_ids : Bool) : Vol :=
  let m := serial_section_map nd_map min_size do_conn_comp globally_unique_ids
  if any_zero m then m else m.map (fun pl => set_corner pl 0)

/-! ## Hierarchy Builder: `segs_to_raveler` (imio.py lines 567-619) -/

/-- `segment_map_i *= sp_map_i.astype(bool)`: zero the segment plane
wherever the superpixel plane is 0. -/
def mask_plane (sp seg : Plane) : Plane :=
  List.zipWith (fun sr gr => List.zipWith (fun s g => if s = 0 then 0 else g) sr gr) sp seg

/-- One plane of the `sp_to_segment` table:
`unique(zip(it.repeat(i), sp_map_i[valid], segment_map_i[valid]))` with
`valid = (sp_map_i != 0) + (segment_map_i == 0)` (after masking). -/
def plane_triples (i : Nat) (sp seg : Plane) : List (Nat × Nat × Nat) :=
  let m := mask_plane sp seg
  let prs := (ravel sp).zip (ravel m)
  unique_triples ((prs.filter (fun fg => fg.1 ≠ 0 ∨ fg.2 = 0)).map (fun fg => (i, fg.1, fg.2)))

/-- The effective superpixel output of the builder: the `sps_out`
argument when given, else the fine relabeling with
`globally_unique_ids=False`. -/
def segs_to_raveler_sps_out (sps : Vol) (min_size : Nat) (do_conn_comp : Bool)
    (sps_out : Option Vol) : Vol :=
  match sps_out with
  | some s => s
  | none => raveler_serial_section_map sps min_size do_conn_comp false

/-- The builder's intermediate (segment) volume:
`raveler_serial_section_map(bodies, min_size, do_conn_comp)` with the
default `globally_unique_ids=True`. -/
def segs_to_raveler_segment_map (bodies : Vol) (min_size : Nat) (do_conn_comp : Bool) : Vol :=
  raveler_serial_section_map bodies min_size do_conn_comp true

/-- `segs_to_raveler` (imio.py 567-619): returns
(superpixels, sp_to_segment, segment_to_body). -/
def segs_to_raveler (sps bodies : Vol) (min_size : Nat) (do_conn_comp : Bool)
    (sps_out : Option Vol) : Vol × List (Nat × Nat × Nat) × List (Nat × Nat) :=
  let spsOut := segs_to_raveler_sps_out sps min_size do_conn_comp sps_out
  let segment_map := segs_to_raveler_segment_map bodies min_size do_conn_comp
  let s2b0 := unique_pairs ((ravel3 segment_map).zip (ravel3 bodies))
  let segment_to_body := (0, 0) :: s2b0.filter (fun pr => pr.1 ≠ 0)
  let sp_to_segment :=
    ((spsOut.zip (segment_map.zip bodies)).enum.map
      (fun ipr => plane_triples ipr.1 ipr.2.1 ipr.2.2.1)).flatten
  (spsOut, sp_to_segment, segment_to_body)

/-! ## Forward-Map Decoder: `apply_segmentation_map` (imio.py lines 437-456) -/

/-- Vectorized scatter `arr[keys] = values` (duplicate keys: last wins);
`List.set` is a no-op out of range, but every use below first sizes the
array to `max key + 1`, matching numpy's always-in-range scatter. -/
def scatter (arr : List Nat) (prs : List (Nat × Nat)) : List Nat :=
  prs.foldl (fun a pr => a.set pr.1 pr.2) arr

/-- `l.max()` of a nonempty list; numpy raises on an empty one, which
callers model separately. -/
def list_max (l : List Nat) : Nat := l.foldl Nat.max 0

def list_min (l : List Nat) : Nat :=
  match l with
  | [] => 0
  | x :: xs => xs.foldl Nat.min x

/-- Option-valued gather of `f` over a list (`none` propagates, modelling
a raised IndexError/KeyError). -/
def omap {α β : Type} : List α → (α → Option β) → Option (List β)
  | [], _ => some []
  | x :: xs, f =>
    match f x, omap xs f with
    | some y, some ys => some (y :: ys)
    | _, _ => none

/-- `apply_segmentation_map` (imio.py 437-456).  `none` models a raised
numpy error: `max()` of an empty table raises ValueError, and the gather
`forward_map[superpixels]` raises IndexError when a label is out of the
dense map's range. -/
def apply_segmentation_map (superpixels : List Nat) (sp_to_body_map : List (Nat × Nat)) :
    Option (List Nat) :=
  match sp_to_body_map with
  | [] => none
  | _ =>
    let forward_map :=
      scatter (List.replicate (list_max (sp_to_body_map.map (·.1)) + 1) 0) sp_to_body_map
    omap superpixels (fun l => forward_map.get? l)

/-! ## Hierarchy Reader: `raveler_to_labeled_volume` (imio.py lines 759-796).

File I/O is stripped: the function consumes the superpixel plane stack
and the two tables directly.  The `use_watershed` refinement and
`get_glia` annotation extraction are omitted (the round-trip claims use
`use_watershed=False`, `get_glia=False`). -/

def dict_find (d : List (Nat × List Nat)) (z : Nat) : Option (List Nat) :=
  match d with
  | [] => none
  | (k, a) :: rest => if k = z then some a else dict_find rest z

def dict_set (d : List (Nat × List Nat)) (z : Nat) (arr : List Nat) :
    List (Nat × List Nat) :=
  match d with
  | [] => [(z, arr)]
  | (k, a) :: rest =>
    if k = z then (k, arr) :: rest else (k, a) :: dict_set rest z arr

/-- The `sp2seg` per-plane dense maps: for each table row `(z, sp, seg)`,
create `zeros(max_sp+1)` for plane `z` on first sight, then
`sp2seg[z][sp] = seg`. -/
def build_sp2seg (max_sp : Nat) (rows : List (Nat × Nat × Nat)) : List (Nat × List Nat) :=
  rows.foldl (fun d r =>
    let arr := (dict_find d r.1).getD (List.replicate (max_sp + 1) 0)
    dict_set d r.1 (arr.set r.2.1 r.2.2)) []

/-- The step function of the `build_sp2seg` fold, named for reasoning. -/
def sp2seg_step (max_sp : Nat) (d : List (Nat × List Nat)) (r : Nat × Nat × Nat) :
    List (Nat × List Nat) :=
  dict_set d r.1 (((dict_find d r.1).getD (List.replicate (max_sp + 1) 0)).set r.2.1 r.2.2)

def count_zeros (v : Vol) : Nat := (ravel3 v).count 0

/-- `raveler_to_labeled_volume` (imio.py 759-796), `use_watershed=False`,
`get_glia=False`.  `none` models a raised numpy/dict error (empty-table
`max`, a plane missing from `sp2seg`, or an out-of-range gather). -/
def raveler_to_labeled_volume (spmap : Vol) (sp2seg_list : List (Nat × Nat × Nat))
    (seg2bod_list : List (Nat × Nat)) : Option Vol :=
  match sp2seg_list, seg2bod_list with
  | [], _ => none
  | _, [] => none
  | _ :: _, _ :: _ =>
    let max_sp := list_max (sp2seg_list.map (fun r => r.2.1))
    let start_plane := list_min (sp2seg_list.map (fun r => r.1))
    let sp2seg := build_sp2seg max_sp sp2seg_list
    let max_seg := list_max (seg2bod_list.map (·.1))
    let seg2bod := scatter (List.replicate (max_seg + 1) 0) seg2bod_list
    match omap spmap.enum (fun ipl =>
        match dict_find sp2seg (start_plane + ipl.1) with
        | none => none
        | some arr => omap ipl.2 (fun row => omap row (fun m =>
            match arr.get? m with
            | none => none
            | some s => seg2bod.get? s))) with
    | none => none
    | some out =>
      match omap out (fun pl => (pl.get? 0).bind (fun r => r.get? 0)) with
      | none => none
      | some corners =>
        if corners.all (· = 0) then
          if count_zeros out = out.length then
            match omap out (fun pl => (pl.get? 0).bind (fun r => r.get? 1)) with
            | none => none
            | some repl => some (List.zipWith set_corner out repl)
          else some out
        else some out

/-! ## Auxiliary predicates used in theorem statements -/

/-- The documented builder precondition: a superpixel id maps to a single
body id (voxelwise, over the whole volumes). -/
def sp_body_consistent (sps bodies : Vol) : Bool :=
  let prs := (ravel3 sps).zip (ravel3 bodies)
  prs.all (fun a => prs.all (fun b => a.1 != b.1 || a.2 == b.2))

/-- The nonzero ids occurring in plane `p` of a volume. -/
def plane_nonzero_ids (v : Vol) (p : Nat) : List Nat :=
  (ravel (v.getD p [])).filter (· ≠ 0)

/-- Plane `p` of the per-plane relabeling computed inside
`serial_section_map`, before the start offset is added. -/
def ssm_plane_label (nd_map : Vol) (min_size : Nat) (do_conn_comp : Bool) (p : Nat) : Plane :=
  ((ssm_plane_pairs nd_map min_size do_conn_comp).getD p ([], 0)).1

/-- Every voxel of the volume is nonzero. -/
def all_nonzero (v : Vol) : Bool := (ravel3 v).all (fun x => x != 0)

/-- Two volumes have identical (possibly ragged) shapes. -/
def SameShape (A B : Vol) : Prop :=
  A.length = B.length ∧
  ∀ p, p < A.length → (A.getD p []).length = (B.getD p []).length ∧
    ∀ r, r < (A.getD p []).length →
      ((A.getD p []).getD r []).length = ((B.getD p []).getD r []).length

end Gala

namespace Gala

/-! ## Concrete evaluations refuting claims as stated -/

/-- C1 counterexample: `serial_section_map` with `globally_unique_ids=True`
on the two-plane volume `[[[1]],[[0]]]` maps the background voxel at
plane 1, (0,0) to the nonzero value 1: the plane offset is added to every
voxel, background included. -/
theorem c1_counterexample :
    vget [[[1]],[[0]]] 1 0 0 = 0 ∧
    serial_section_map [[[1]],[[0]]] 0 false true = [[[1]],[[1]]] ∧
    vget (serial_section_map [[[1]],[[0]]] 0 false true) 1 0 0 ≠ 0 := by
  refine ⟨rfl, by decide, by decide⟩

/-- C2 counterexample: after `serial_section_map` with
`globally_unique_ids=True` on `[[[1]],[[0]]]`, the nonzero id 1 occurs in
both plane 0 and plane 1, so the per-plane nonzero id sets are not
disjoint. -/
theorem c2_counterexample :
    1 ∈ plane_nonzero_ids (serial_section_map [[[1]],[[0]]] 0 false true) 0 ∧
    1 ∈ plane_nonzero_ids (serial_section_map [[[1]],[[0]]] 0 false true) 1 := by
  exact ⟨by decide, by decide⟩

/-- C4 counterexample: `apply_segmentation_map` with pair table
`{(1,5),(2,7)}` applied to `[1,2,3]` does not yield `[5,7,0]`: the dense
forward map has length `max source id + 1 = 3`, so the gather at label 3
is an out-of-bounds numpy IndexError (modelled as `none`). -/
theorem c4_counterexample :
    apply_segmentation_map [1,2,3] [(1,5),(2,7)] = none := by
  decide

/-- C9 counterexample: `apply_segmentation_map` with an empty pair table
raises (numpy `max` of a zero-size array), modelled as `none`; it does not
produce an all-background volume. -/
theorem c9_counterexample :
    apply_segmentation_map [0] [] = none ∧ apply_segmentation_map [0] [] ≠ some [0] := by
  exact ⟨rfl, by decide⟩

/-- C9 amended: `apply_segmentation_map` with an empty pair table fails
(the numpy reduction `sp_to_body_map[:, 0].max()` raises ValueError on a
zero-size array) for every label input; it never returns a result. -/
theorem c9_theorem (labels : List Nat) :
    apply_segmentation_map labels [] = none := rfl

end Gala

namespace Gala

/-- C3 counterexample: for `sps = [[[1,1]],[[2,2]]]` and
`bodies = [[[1,1]],[[0,0]]]` (which satisfy the documented
superpixel-to-body consistency precondition), decoding the triple
produced by `segs_to_raveler` yields body 1 at plane 1, voxel (0,1) -
not the reserved corner - where the original body volume has background
0.  The round trip fails away from the corner. -/
theorem c3_counterexample :
    sp_body_consistent [[[1,1]],[[2,2]]] [[[1,1]],[[0,0]]] = true ∧
    (let t := segs_to_raveler [[[1,1]],[[2,2]]] [[[1,1]],[[0,0]]] 0 false none
     raveler_to_labeled_volume t.1 t.2.1 t.2.2 = some [[[1,1]],[[1,1]]]) ∧
    vget [[[1,1]],[[0,0]]] 1 0 1 = 0 := by
  refine ⟨by decide, by decide, rfl⟩

/-- C5 counterexample: on `sps = [[[1,1]],[[2,2]]]`,
`bodies = [[[1,1]],[[0,0]]]` (superpixel-to-body consistency holds), the
intermediate-to-body table is `[(0,0),(1,0),(1,1)]`: the mid id 1 appears
with the two distinct body ids 0 and 1, because the plane-1 offset is
added to plane 1's background voxels and collides with plane 0's segment
id 1. -/
theorem c5_counterexample :
    sp_body_consistent [[[1,1]],[[2,2]]] [[[1,1]],[[0,0]]] = true ∧
    (segs_to_raveler [[[1,1]],[[2,2]]] [[[1,1]],[[0,0]]] 0 false none).2.2 =
      [(0,0),(1,0),(1,1)] ∧
    (1,0) ∈ (segs_to_raveler [[[1,1]],[[2,2]]] [[[1,1]],[[0,0]]] 0 false none).2.2 ∧
    (1,1) ∈ (segs_to_raveler [[[1,1]],[[2,2]]] [[[1,1]],[[0,0]]] 0 false none).2.2 := by
  refine ⟨by decide, by decide, by decide, by decide⟩

/-- C7 counterexample: on `[[[0,1]],[[1,1]]]` the relabeled volume
contains a background voxel (plane 0), so the corner force does not fire,
and plane 1 of the output, `[[2,2]]`, contains no background voxel at
all: the enforcer does not guarantee a background voxel in every plane. -/
theorem c7_counterexample :
    raveler_serial_section_map [[[0,1]],[[1,1]]] 0 false true = [[[0,1]],[[2,2]]] ∧
    plane_nonzero_ids (raveler_serial_section_map [[[0,1]],[[1,1]]] 0 false true) 1 = [2,2] ∧
    (0 ∈ ravel ((raveler_serial_section_map [[[0,1]],[[1,1]]] 0 false true).getD 1 []) → False) := by
  refine ⟨by decide, by decide, by decide⟩

/-- C8 counterexample: re-running `serial_section_map` with identical
parameters (`min_size=0`, `connected=False`, `global_unique=True`) on its
own output of `[[[1]],[[0]]]` changes the result: the first run turns the
plane-1 background voxel into id 1, which the second run treats as a
region and offsets to 2. -/
theorem c8_counterexample :
    serial_section_map [[[1]],[[0]]] 0 false true = [[[1]],[[1]]] ∧
    serial_section_map (serial_section_map [[[1]],[[0]]] 0 false true) 0 false true =
      [[[1]],[[2]]] ∧
    serial_section_map (serial_section_map [[[1]],[[0]]] 0 false true) 0 false true ≠
      serial_section_map [[[1]],[[0]]] 0 false true := by
  refine ⟨by decide, by decide, by decide⟩

/-- C10 counterexample: in the Hierarchy Builder on
`bodies = [[[1,1]],[[0,0]]]`, the intermediate (segment) volume is
`[[[0,1]],[[0,1]]]`: the nonzero intermediate id 1 occurs in both planes,
so intermediate ids are not volume-unique across planes (plane 1's
background voxels received the plane offset 1 and its corner was then
zero-forced). -/
theorem c10_counterexample :
    segs_to_raveler_segment_map [[[1,1]],[[0,0]]] 0 false = [[[0,1]],[[0,1]]] ∧
    1 ∈ plane_nonzero_ids (segs_to_raveler_segment_map [[[1,1]],[[0,0]]] 0 false) 0 ∧
    1 ∈ plane_nonzero_ids (segs_to_raveler_segment_map [[[1,1]],[[0,0]]] 0 false) 1 := by
  refine ⟨by decide, by decide, by decide⟩

end Gala

namespace Gala

/-! ### Access lemmas for planes and pointwise maps -/

theorem pget_eq_getElem? (a : Plane) (r c : Nat) :
    pget a r c = ((a[r]?.getD [])[c]?).getD 0 := by
  unfold pget
  rw [List.getD_eq_getElem?_getD, List.getD_eq_getElem?_getD]

theorem pget_plane_map_idx (g : Nat → Nat → Nat → Nat) (hg : ∀ r c, g r c 0 = 0)
    (a : Plane) (r c : Nat) :
    pget (plane_map_idx g a) r c = g r c (pget a r c) := by
  rw [pget_eq_getElem?, pget_eq_getElem?]
  unfold plane_map_idx
  rw [List.getElem?_map, List.getElem?_enum]
  cases h : a[r]? with
  | none => simp [hg]
  | some row =>
    simp only [Option.map_some', Option.getD_some]
    rw [List.getElem?_map, List.getElem?_enum]
    cases h2 : row[c]? with
    | none => simp [hg]
    | some x => simp

theorem pget_map_rows (f : Nat → Nat) (hf : f 0 = 0) (a : Plane) (r c : Nat) :
    pget (a.map (List.map f)) r c = f (pget a r c) := by
  rw [pget_eq_getElem?, pget_eq_getElem?, List.getElem?_map]
  cases h : a[r]? with
  | none => simp [hf]
  | some row =>
    simp only [Option.map_some', Option.getD_some]
    rw [List.getElem?_map]
    cases h2 : row[c]? with
    | none => simp [hf]
    | some x => simp

theorem length_plane_map_idx (g : Nat → Nat → Nat → Nat) (a : Plane) :
    (plane_map_idx g a).length = a.length := by
  simp [plane_map_idx]

theorem row_length_plane_map_idx (g : Nat → Nat → Nat → Nat) (a : Plane) (r : Nat) :
    ((plane_map_idx g a).getD r []).length = (a.getD r []).length := by
  rw [List.getD_eq_getElem?_getD, List.getD_eq_getElem?_getD]
  unfold plane_map_idx
  rw [List.getElem?_map, List.getElem?_enum]
  cases h : a[r]? with
  | none => simp
  | some row => simp

theorem pget_mem_ravel (a : Plane) (r c : Nat) (h : pget a r c ≠ 0) :
    pget a r c ∈ ravel a := by
  rw [pget_eq_getElem?] at h ⊢
  cases hr : a[r]? with
  | none => rw [hr] at h; simp at h
  | some row =>
    rw [hr] at h
    rw [Option.getD_some] at h ⊢
    cases hc : row[c]? with
    | none => rw [hc] at h; simp at h
    | some x =>
      rw [hc] at h
      rw [Option.getD_some] at h ⊢
      have hrow : row ∈ a := by
        obtain ⟨hlt, he⟩ := List.getElem?_eq_some.1 hr
        exact he ▸ List.getElem_mem hlt
      have hx : x ∈ row := by
        obtain ⟨hlt, he⟩ := List.getElem?_eq_some.1 hc
        exact he ▸ List.getElem_mem hlt
      show x ∈ ravel a
      unfold ravel
      exact List.mem_flatten.2 ⟨row, hrow, hx⟩

/-! ### first_appearance and rfo_map -/

theorem mem_first_appearance_aux (l : List Nat) :
    ∀ acc y, (y ∈ l.foldl (fun acc x => if x ≠ 0 ∧ x ∉ acc then acc ++ [x] else acc) acc ↔
      y ∈ acc ∨ (y ∈ l ∧ y ≠ 0)) := by
  induction l with
  | nil => intro acc y; simp
  | cons x xs ih =>
    intro acc y
    simp only [List.foldl_cons]
    rw [ih]
    by_cases hx : x ≠ 0 ∧ x ∉ acc
    · rw [if_pos hx]
      obtain ⟨hx1, hx2⟩ := hx
      simp only [List.mem_append, List.mem_cons, List.not_mem_nil, or_false]
      constructor
      · rintro ((h | h) | h)
        · exact Or.inl h
        · exact Or.inr ⟨Or.inl h, h ▸ hx1⟩
        · exact Or.inr ⟨Or.inr h.1, h.2⟩
      · rintro (h | ⟨(h | h), hy⟩)
        · exact Or.inl (Or.inl h)
        · exact Or.inl (Or.inr h)
        · exact Or.inr ⟨h, hy⟩
    · rw [if_neg hx]
      push_neg at hx
      simp only [List.mem_cons]
      constructor
      · rintro (h | h)
        · exact Or.inl h
        · exact Or.inr ⟨Or.inr h.1, h.2⟩
      · rintro (h | ⟨(h | h), hy⟩)
        · exact Or.inl h
        · subst h
          exact Or.inl (hx hy)
        · exact Or.inr ⟨h, hy⟩

theorem mem_first_appearance (l : List Nat) (y : Nat) :
    y ∈ first_appearance l ↔ y ∈ l ∧ y ≠ 0 := by
  unfold first_appearance
  rw [mem_first_appearance_aux]
  simp

theorem rfo_map_zero (ids : List Nat) : rfo_map ids 0 = 0 := rfl

theorem rfo_map_eq_zero_iff (ids : List Nat) (x : Nat) : rfo_map ids x = 0 ↔ x = 0 := by
  unfold rfo_map
  by_cases h : x = 0 <;> simp [h]

theorem rfo_map_le (ids : List Nat) (x : Nat) (hx : x ∈ ids) :
    rfo_map ids x ≤ ids.length := by
  unfold rfo_map
  by_cases h : x = 0
  · simp [h]
  · rw [if_neg h]
    exact Nat.succ_le_of_lt (List.indexOf_lt_length.2 hx)

theorem rfo_map_pos (ids : List Nat) (x : Nat) (hx : x ≠ 0) :
    1 ≤ rfo_map ids x := by
  unfold rfo_map
  rw [if_neg hx]
  exact Nat.succ_le_succ (Nat.zero_le _)

theorem rfo_map_inj (ids : List Nat) (x y : Nat)
    (hx : x = 0 ∨ x ∈ ids) (hy : y = 0 ∨ y ∈ ids)
    (h : rfo_map ids x = rfo_map ids y) : x = y := by
  unfold rfo_map at h
  by_cases h0 : x = 0
  · subst h0
    rw [if_pos rfl] at h
    by_cases h1 : y = 0
    · exact h1.symm
    · rw [if_neg h1] at h; omega
  · rw [if_neg h0] at h
    by_cases h1 : y = 0
    · subst h1; rw [if_pos rfl] at h; omega
    · rw [if_neg h1] at h
      have hx2 : x ∈ ids := hx.resolve_left h0
      have hy2 : y ∈ ids := hy.resolve_left h1
      have : ids.indexOf x = ids.indexOf y := by omega
      exact (List.indexOf_inj hx2 hy2).1 this

end Gala


namespace Gala

/-! ### Structure of serial_section_map -/

theorem length_excl_scan (l : List Nat) : (excl_scan l).length = l.length := by
  induction l with
  | nil => rfl
  | cons c cs ih => simp [excl_scan, ih]

theorem excl_scan_getElem? (l : List Nat) (p : Nat) :
    (excl_scan l)[p]? = if p < l.length then some ((l.take p).sum) else none := by
  induction l generalizing p with
  | nil => simp [excl_scan]
  | cons c cs ih =>
    cases p with
    | zero => simp [excl_scan]
    | succ q =>
      simp only [excl_scan, List.getElem?_cons_succ, List.getElem?_map, ih]
      by_cases h : q < cs.length
      · simp [h, Nat.succ_lt_succ h, Nat.add_comm]
      · have : ¬ (q + 1 < cs.length + 1) := by omega
        simp [h, List.length_cons, this]

theorem length_ssm_plane_pairs (nd : Vol) (ms : Nat) (cc : Bool) :
    (ssm_plane_pairs nd ms cc).length = nd.length := by
  simp [ssm_plane_pairs]

theorem length_ssm_counts (nd : Vol) (ms : Nat) (cc : Bool) :
    (ssm_counts nd ms cc).length = nd.length := by
  simp [ssm_counts, length_ssm_plane_pairs]

theorem length_ssm_start_ids (nd : Vol) (ms : Nat) (cc gu : Bool) :
    (ssm_start_ids nd ms cc gu).length = nd.length := by
  unfold ssm_start_ids
  cases gu
  · simp [length_ssm_counts]
  · simp [length_excl_scan, length_ssm_counts]

theorem ssm_start_ids_false (nd : Vol) (ms : Nat) (cc : Bool) (p : Nat) :
    (ssm_start_ids nd ms cc false).getD p 0 = 0 := by
  unfold ssm_start_ids
  rw [List.getD_eq_getElem?_getD, if_neg (by simp), List.getElem?_map]
  cases h : (ssm_counts nd ms cc)[p]? <;> simp

theorem ssm_start_ids_true (nd : Vol) (ms : Nat) (cc : Bool) (p : Nat)
    (hp : p < nd.length) :
    (ssm_start_ids nd ms cc true).getD p 0 = (((ssm_counts nd ms cc).take p).sum) := by
  unfold ssm_start_ids
  rw [if_pos rfl, List.getD_eq_getElem?_getD, excl_scan_getElem?,
    if_pos (by rw [length_ssm_counts]; exact hp)]
  rfl

theorem length_serial_section_map (nd : Vol) (ms : Nat) (cc gu : Bool) :
    (serial_section_map nd ms cc gu).length = nd.length := by
  unfold serial_section_map
  rw [List.length_zipWith, length_ssm_plane_pairs, length_ssm_start_ids, Nat.min_self]

theorem ssm_plane_pairs_getElem? (nd : Vol) (ms : Nat) (cc : Bool) (p : Nat)
    (hp : p < nd.length) :
    (ssm_plane_pairs nd ms cc)[p]? =
      some (label_fct cc (remove_small_connected_components (nd.getD p []) ms)) := by
  unfold ssm_plane_pairs
  rw [List.getElem?_map]
  rw [List.getD_eq_getElem?_getD]
  cases h : nd[p]? with
  | none => exact absurd (List.getElem?_eq_none_iff.1 h) (by omega)
  | some pl => simp

theorem ssm_plane_label_eq (nd : Vol) (ms : Nat) (cc : Bool) (p : Nat)
    (hp : p < nd.length) :
    ssm_plane_label nd ms cc p =
      (label_fct cc (remove_small_connected_components (nd.getD p []) ms)).1 := by
  unfold ssm_plane_label
  rw [List.getD_eq_getElem?_getD, ssm_plane_pairs_getElem? nd ms cc p hp]
  rfl

theorem serial_section_map_getElem? (nd : Vol) (ms : Nat) (cc gu : Bool) (p : Nat)
    (hp : p < nd.length) :
    (serial_section_map nd ms cc gu)[p]? =
      some ((ssm_plane_label nd ms cc p).map
        (List.map (· + (ssm_start_ids nd ms cc gu).getD p 0))) := by
  unfold serial_section_map
  rw [List.getElem?_zipWith']
  rw [ssm_plane_pairs_getElem? nd ms cc p hp]
  have hs : (ssm_start_ids nd ms cc gu)[p]? =
      some ((ssm_start_ids nd ms cc gu).getD p 0) := by
    rw [List.getD_eq_getElem?_getD]
    cases h : (ssm_start_ids nd ms cc gu)[p]? with
    | none =>
      have := List.getElem?_eq_none_iff.1 h
      rw [length_ssm_start_ids] at this
      omega
    | some s => simp
  rw [hs]
  rw [ssm_plane_label_eq nd ms cc p hp]
  rfl

end Gala

namespace Gala

/-! ### Pointwise behavior of the per-plane relabeling -/

theorem pget_remove_small (a : Plane) (ms r c : Nat) :
    pget (remove_small_connected_components a ms) r c =
      if pget a r c ≠ 0 ∧ comp_size a (r, c) < ms then 0 else pget a r c := by
  unfold remove_small_connected_components
  exact pget_plane_map_idx _ (by intro r c; simp) a r c

theorem pget_remove_small_of_zero (a : Plane) (ms r c : Nat) (h : pget a r c = 0) :
    pget (remove_small_connected_components a ms) r c = 0 := by
  rw [pget_remove_small, if_neg (by simp [h]), h]

theorem pget_relabel_from_one (a : Plane) (r c : Nat) :
    pget (relabel_from_one a).1 r c = rfo_map (first_appearance a.flatten) (pget a r c) := by
  show pget (a.map (List.map (rfo_map (first_appearance a.flatten)))) r c = _
  exact pget_map_rows _ rfl a r c

theorem pget_cc_raw (a : Plane) (r c : Nat) :
    pget (cc_raw a) r c = if pget a r c = 0 then 0
      else (positions a).findIdx (fun u => (mask_comp a (r, c)).contains u) + 1 := by
  unfold cc_raw
  exact pget_plane_map_idx _ (by intro r c; simp) a r c

theorem pget_cc_raw_eq_zero_iff (a : Plane) (r c : Nat) :
    pget (cc_raw a) r c = 0 ↔ pget a r c = 0 := by
  rw [pget_cc_raw]
  by_cases h : pget a r c = 0 <;> simp [h]

theorem pget_label_fct_eq_zero_iff (cc : Bool) (a : Plane) (r c : Nat) :
    pget (label_fct cc a).1 r c = 0 ↔ pget a r c = 0 := by
  unfold label_fct
  cases cc
  · rw [if_neg (by simp), pget_relabel_from_one, rfo_map_eq_zero_iff]
  · rw [if_pos rfl]
    unfold cc_label
    rw [pget_relabel_from_one, rfo_map_eq_zero_iff, pget_cc_raw_eq_zero_iff]

theorem relabel_from_one_snd (a : Plane) :
    (relabel_from_one a).2 = (first_appearance a.flatten).length := rfl

theorem pget_relabel_from_one_le (a : Plane) (r c : Nat) :
    pget (relabel_from_one a).1 r c ≤ (relabel_from_one a).2 := by
  rw [pget_relabel_from_one, relabel_from_one_snd]
  by_cases h : pget a r c = 0
  · rw [h, rfo_map_zero]; exact Nat.zero_le _
  · exact rfo_map_le _ _ ((mem_first_appearance _ _).2 ⟨pget_mem_ravel a r c h, h⟩)

theorem pget_label_fct_le (cc : Bool) (a : Plane) (r c : Nat) :
    pget (label_fct cc a).1 r c ≤ (label_fct cc a).2 := by
  unfold label_fct
  cases cc
  · rw [if_neg (by simp)]
    exact pget_relabel_from_one_le a r c
  · rw [if_pos rfl]
    unfold cc_label
    exact pget_relabel_from_one_le (cc_raw a) r c

/-! ### Shape preservation -/

theorem row_length_map_rows (f : Nat → Nat) (a : Plane) (r : Nat) :
    ((a.map (List.map f)).getD r []).length = (a.getD r []).length := by
  rw [List.getD_eq_getElem?_getD, List.getD_eq_getElem?_getD, List.getElem?_map]
  cases h : a[r]? <;> simp

theorem length_relabel_from_one (a : Plane) :
    ((relabel_from_one a).1).length = a.length := by
  show (a.map (List.map (rfo_map (first_appearance a.flatten)))).length = a.length
  simp

theorem row_length_relabel_from_one (a : Plane) (r : Nat) :
    (((relabel_from_one a).1).getD r []).length = (a.getD r []).length := by
  show ((a.map (List.map (rfo_map (first_appearance a.flatten)))).getD r []).length = _
  exact row_length_map_rows _ a r

theorem length_label_fct (cc : Bool) (a : Plane) :
    ((label_fct cc a).1).length = a.length := by
  unfold label_fct
  cases cc
  · rw [if_neg (by simp), length_relabel_from_one]
  · rw [if_pos rfl]
    unfold cc_label
    rw [length_relabel_from_one]
    unfold cc_raw
    exact length_plane_map_idx _ a

theorem row_length_label_fct (cc : Bool) (a : Plane) (r : Nat) :
    (((label_fct cc a).1).getD r []).length = (a.getD r []).length := by
  unfold label_fct
  cases cc
  · rw [if_neg (by simp), row_length_relabel_from_one]
  · rw [if_pos rfl]
    unfold cc_label
    rw [row_length_relabel_from_one]
    unfold cc_raw
    exact row_length_plane_map_idx _ a r

theorem length_remove_small (a : Plane) (ms : Nat) :
    (remove_small_connected_components a ms).length = a.length := by
  unfold remove_small_connected_components
  exact length_plane_map_idx _ a

theorem row_length_remove_small (a : Plane) (ms : Nat) (r : Nat) :
    ((remove_small_connected_components a ms).getD r []).length = (a.getD r []).length := by
  unfold remove_small_connected_components
  exact row_length_plane_map_idx _ a r

theorem length_ssm_plane_label (nd : Vol) (ms : Nat) (cc : Bool) (p : Nat)
    (hp : p < nd.length) :
    (ssm_plane_label nd ms cc p).length = (nd.getD p []).length := by
  rw [ssm_plane_label_eq nd ms cc p hp, length_label_fct, length_remove_small]

theorem row_length_ssm_plane_label (nd : Vol) (ms : Nat) (cc : Bool) (p r : Nat)
    (hp : p < nd.length) :
    ((ssm_plane_label nd ms cc p).getD r []).length = ((nd.getD p []).getD r []).length := by
  rw [ssm_plane_label_eq nd ms cc p hp, row_length_label_fct, row_length_remove_small]

theorem pget_map_rows_in (f : Nat → Nat) (a : Plane) (r c : Nat)
    (hr : r < a.length) (hc : c < (a.getD r []).length) :
    pget (a.map (List.map f)) r c = f (pget a r c) := by
  unfold pget
  rw [List.getD_eq_getElem?_getD (a.map (List.map f)), List.getElem?_map,
    List.getD_eq_getElem?_getD a]
  cases h : a[r]? with
  | none => exact absurd (List.getElem?_eq_none_iff.1 h) (by omega)
  | some row =>
    rw [Option.map_some', Option.getD_some, Option.getD_some]
    have hrow_eq : a.getD r [] = row := by
      rw [List.getD_eq_getElem?_getD, h, Option.getD_some]
    rw [List.getD_eq_getElem?_getD (row.map f), List.getElem?_map,
      List.getD_eq_getElem?_getD row]
    cases h2 : row[c]? with
    | none =>
      have h3 := List.getElem?_eq_none_iff.1 h2
      rw [hrow_eq] at hc
      omega
    | some x => simp

theorem pget_ssm_plane_label (nd : Vol) (ms : Nat) (cc : Bool) (p r c : Nat)
    (hp : p < nd.length) :
    pget (ssm_plane_label nd ms cc p) r c =
      pget (label_fct cc (remove_small_connected_components (nd.getD p []) ms)).1 r c := by
  rw [ssm_plane_label_eq nd ms cc p hp]

/-- The pointwise value of `serial_section_map` inside the volume's shape:
per-plane relabeled value plus the plane's start offset (added to every
voxel, background included). -/
theorem vget_serial_section_map (nd : Vol) (ms : Nat) (cc gu : Bool) (p r c : Nat)
    (hp : p < nd.length) (hr : r < (nd.getD p []).length)
    (hc : c < ((nd.getD p []).getD r []).length) :
    vget (serial_section_map nd ms cc gu) p r c =
      pget (ssm_plane_label nd ms cc p) r c +
        (ssm_start_ids nd ms cc gu).getD p 0 := by
  unfold vget
  rw [List.getD_eq_getElem?_getD, serial_section_map_getElem? nd ms cc gu p hp,
    Option.getD_some]
  rw [pget_map_rows_in _ _ _ _
    (by rw [length_ssm_plane_label nd ms cc p hp]; exact hr)
    (by rw [row_length_ssm_plane_label nd ms cc p r hp]; exact hc)]

/-- C1 amended: `serial_section_map` adds the plane's start offset to
every voxel of the plane, background included: an originally-background
voxel ends up holding the plane's start id, which is 0 exactly when
`global_unique=False` or the prior planes contribute no ids. -/
theorem c1_theorem (nd : Vol) (ms : Nat) (cc gu : Bool) (p r c : Nat)
    (hp : p < nd.length) (hr : r < (nd.getD p []).length)
    (hc : c < ((nd.getD p []).getD r []).length) (h0 : vget nd p r c = 0) :
    vget (serial_section_map nd ms cc gu) p r c =
      (ssm_start_ids nd ms cc gu).getD p 0 := by
  rw [vget_serial_section_map nd ms cc gu p r c hp hr hc]
  have hz : pget (ssm_plane_label nd ms cc p) r c = 0 := by
    rw [pget_ssm_plane_label nd ms cc p r c hp, pget_label_fct_eq_zero_iff,
      pget_remove_small_of_zero]
    exact h0
  rw [hz, Nat.zero_add]

/-- Witness for C1 amended: on the two-plane volume `[[[1]],[[0]]]` with
`global_unique=True`, the background voxel of plane 1 receives the plane
offset 1. -/
theorem c1_witness :
    vget (serial_section_map [[[1]],[[0]]] 0 false true) 1 0 0 =
      (ssm_start_ids [[[1]],[[0]]] 0 false true).getD 1 0 ∧
    (ssm_start_ids [[[1]],[[0]]] 0 false true).getD 1 0 = 1 := by
  refine ⟨c1_theorem [[[1]],[[0]]] 0 false true 1 0 0 (by decide) (by decide) (by decide)
    (by decide), by decide⟩

end Gala

namespace Gala

/-! ### Offsets are monotone; surviving ids of distinct planes are disjoint -/

theorem take_sum_succ (l : List Nat) (p : Nat) (hp : p < l.length) :
    (l.take (p+1)).sum = (l.take p).sum + l.getD p 0 := by
  induction l generalizing p with
  | nil => simp at hp
  | cons x xs ih =>
    cases p with
    | zero => simp
    | succ q =>
      simp only [List.take_succ_cons, List.sum_cons, List.getD_cons_succ]
      rw [ih q (by simpa using hp)]
      omega

theorem take_sum_le (l : List Nat) (p q : Nat) (h : p ≤ q) :
    (l.take p).sum ≤ (l.take q).sum := by
  induction l generalizing p q with
  | nil => simp
  | cons x xs ih =>
    cases p with
    | zero => simp
    | succ p2 =>
      cases q with
      | zero => omega
      | succ q2 =>
        simp only [List.take_succ_cons, List.sum_cons]
        have := ih p2 q2 (by omega)
        omega

theorem ssm_counts_getD (nd : Vol) (ms : Nat) (cc : Bool) (p : Nat)
    (hp : p < nd.length) :
    (ssm_counts nd ms cc).getD p 0 =
      (label_fct cc (remove_small_connected_components (nd.getD p []) ms)).2 := by
  unfold ssm_counts
  rw [List.getD_eq_getElem?_getD, List.getElem?_map, ssm_plane_pairs_getElem? nd ms cc p hp]
  rfl

theorem ssm_offset_succ_le (nd : Vol) (ms : Nat) (cc : Bool) (p q : Nat)
    (hpq : p < q) (hq : q < nd.length) :
    (ssm_start_ids nd ms cc true).getD p 0 + (ssm_counts nd ms cc).getD p 0 ≤
      (ssm_start_ids nd ms cc true).getD q 0 := by
  rw [ssm_start_ids_true nd ms cc p (lt_trans hpq hq), ssm_start_ids_true nd ms cc q hq]
  have hlt : p < (ssm_counts nd ms cc).length := by
    rw [length_ssm_counts]; omega
  rw [← take_sum_succ _ _ hlt]
  exact take_sum_le _ _ _ (by omega)

/-- The value of the plane-label at a surviving voxel is between 1 and the
plane's id count. -/
theorem ssm_plane_label_bounds (nd : Vol) (ms : Nat) (cc : Bool) (p r c : Nat)
    (hp : p < nd.length) (hnz : pget (ssm_plane_label nd ms cc p) r c ≠ 0) :
    1 ≤ pget (ssm_plane_label nd ms cc p) r c ∧
      pget (ssm_plane_label nd ms cc p) r c ≤ (ssm_counts nd ms cc).getD p 0 := by
  rw [ssm_counts_getD nd ms cc p hp]
  rw [pget_ssm_plane_label nd ms cc p r c hp] at hnz ⊢
  exact ⟨Nat.one_le_iff_ne_zero.2 hnz, pget_label_fct_le _ _ r c⟩

/-- C2 amended: with `global_unique=True`, the output ids at voxels that
survive the per-plane relabeling (nonzero before the offset is added) are
disjoint between distinct planes - the per-plane ranges
`(offset, offset + count]` are pairwise disjoint.  (At voxels zeroed by
the per-plane step the output instead holds the plane's offset, which can
coincide with the previous plane's top id, as the counterexample shows.) -/
theorem c2_theorem (nd : Vol) (ms : Nat) (cc : Bool) (p q r c r2 c2 : Nat)
    (hpq : p ≠ q) (hp : p < nd.length) (hq : q < nd.length)
    (hr : r < (nd.getD p []).length) (hc : c < ((nd.getD p []).getD r []).length)
    (hr2 : r2 < (nd.getD q []).length) (hc2 : c2 < ((nd.getD q []).getD r2 []).length)
    (hnz1 : pget (ssm_plane_label nd ms cc p) r c ≠ 0)
    (hnz2 : pget (ssm_plane_label nd ms cc q) r2 c2 ≠ 0) :
    vget (serial_section_map nd ms cc true) p r c ≠
      vget (serial_section_map nd ms cc true) q r2 c2 := by
  rw [vget_serial_section_map nd ms cc true p r c hp hr hc,
    vget_serial_section_map nd ms cc true q r2 c2 hq hr2 hc2]
  have hb1 := ssm_plane_label_bounds nd ms cc p r c hp hnz1
  have hb2 := ssm_plane_label_bounds nd ms cc q r2 c2 hq hnz2
  rcases Nat.lt_or_ge p q with hlt | hge
  · have hoff := ssm_offset_succ_le nd ms cc p q hlt hq
    omega
  · have hlt2 : q < p := by omega
    have hoff := ssm_offset_succ_le nd ms cc q p hlt2 hp
    omega

/-- Witness for C2 amended: on `[[[1,2]],[[3]]]` with
`global_unique=True`, the surviving voxel (0,0,1) (id 2) and the
surviving voxel (1,0,0) (id 3) receive distinct output ids. -/
theorem c2_witness :
    vget (serial_section_map [[[1,2]],[[3]]] 0 false true) 0 0 1 ≠
      vget (serial_section_map [[[1,2]],[[3]]] 0 false true) 1 0 0 :=
  c2_theorem [[[1,2]],[[3]]] 0 false 0 1 0 1 0 0 (by decide) (by decide) (by decide)
    (by decide) (by decide) (by decide) (by decide) (by decide) (by decide)

end Gala

namespace Gala

/-! ### The Background Sentinel Enforcer -/

theorem pget_set_corner (pl : Plane) (x : Nat)
    (hr : 0 < pl.length) (hc : 0 < (pl.getD 0 []).length) :
    pget (set_corner pl x) 0 0 = x := by
  cases pl with
  | nil => simp at hr
  | cons row rest =>
    unfold set_corner pget
    simp only [List.getD_cons_zero] at hc ⊢
    rw [List.getD_eq_getElem?_getD, List.getElem?_set_eq_of_lt x hc]
    rfl

theorem pget_mem_ravel_of_lt (a : Plane) (r c : Nat)
    (hr : r < a.length) (hc : c < (a.getD r []).length) :
    pget a r c ∈ ravel a := by
  have hrow : a.getD r [] ∈ a := by
    rw [List.getD_eq_getElem?_getD]
    cases h : a[r]? with
    | none => exact absurd (List.getElem?_eq_none_iff.1 h) (by omega)
    | some row =>
      rw [Option.getD_some]
      obtain ⟨hlt, he⟩ := List.getElem?_eq_some.1 h
      exact he ▸ List.getElem_mem hlt
  have hcell : pget a r c ∈ a.getD r [] := by
    unfold pget
    rw [List.getD_eq_getElem?_getD (a.getD r [])]
    cases h : (a.getD r [])[c]? with
    | none => exact absurd (List.getElem?_eq_none_iff.1 h) (by omega)
    | some x =>
      rw [Option.getD_some]
      obtain ⟨hlt, he⟩ := List.getElem?_eq_some.1 h
      exact he ▸ List.getElem_mem hlt
  exact List.mem_flatten.2 ⟨a.getD r [], hrow, hcell⟩

theorem length_set_corner (pl : Plane) (x : Nat) :
    (set_corner pl x).length = pl.length := by
  cases pl <;> simp [set_corner]

theorem row_length_set_corner (pl : Plane) (x : Nat) (r : Nat) :
    ((set_corner pl x).getD r []).length = ((pl.getD r []).length) := by
  cases pl with
  | nil => simp [set_corner]
  | cons row rest =>
    cases r with
    | zero => simp [set_corner]
    | succ r2 => simp [set_corner]

/-- C7 amended: when the relabeled volume contains no background voxel at
all, `raveler_serial_section_map` forces the voxel at (row 0, col 0) of
every plane to 0, so every nonempty plane of the output then contains a
background voxel.  (When the relabeled volume does contain a background
voxel somewhere, nothing is forced, and a plane may lack background
entirely, as the counterexample shows.) -/
theorem c7_theorem (nd : Vol) (ms : Nat) (cc gu : Bool) (p : Nat)
    (hp : p < nd.length)
    (hr : 0 < (nd.getD p []).length) (hc : 0 < ((nd.getD p []).getD 0 []).length)
    (hnz : any_zero (serial_section_map nd ms cc gu) = false) :
    vget (raveler_serial_section_map nd ms cc gu) p 0 0 = 0 ∧
      0 ∈ ravel ((raveler_serial_section_map nd ms cc gu).getD p []) := by
  have hm : raveler_serial_section_map nd ms cc gu =
      (serial_section_map nd ms cc gu).map (fun pl => set_corner pl 0) := by
    rw [show raveler_serial_section_map nd ms cc gu =
      (if any_zero (serial_section_map nd ms cc gu) = true then serial_section_map nd ms cc gu
       else (serial_section_map nd ms cc gu).map (fun pl => set_corner pl 0)) from rfl, hnz]
    simp
  set m := serial_section_map nd ms cc gu with hmdef
  have hpm : p < m.length := by rw [hmdef, length_serial_section_map]; exact hp
  have hplane : (raveler_serial_section_map nd ms cc gu).getD p [] =
      set_corner (m.getD p []) 0 := by
    rw [hm, List.getD_eq_getElem?_getD, List.getElem?_map]
    rw [List.getD_eq_getElem?_getD m]
    cases h : m[p]? with
    | none => exact absurd (List.getElem?_eq_none_iff.1 h) (by omega)
    | some pl => simp
  have hlen : 0 < (m.getD p []).length := by
    rw [hmdef]
    have h1 : (serial_section_map nd ms cc gu).getD p [] =
        (ssm_plane_label nd ms cc p).map
          (List.map (· + (ssm_start_ids nd ms cc gu).getD p 0)) := by
      rw [List.getD_eq_getElem?_getD, serial_section_map_getElem? nd ms cc gu p hp]
      rfl
    rw [h1, List.length_map, length_ssm_plane_label nd ms cc p hp]
    exact hr
  have hrowlen : 0 < ((m.getD p []).getD 0 []).length := by
    rw [hmdef]
    have h1 : (serial_section_map nd ms cc gu).getD p [] =
        (ssm_plane_label nd ms cc p).map
          (List.map (· + (ssm_start_ids nd ms cc gu).getD p 0)) := by
      rw [List.getD_eq_getElem?_getD, serial_section_map_getElem? nd ms cc gu p hp]
      rfl
    rw [h1, row_length_map_rows, row_length_ssm_plane_label nd ms cc p 0 hp]
    exact hc
  constructor
  · unfold vget
    rw [hplane]
    exact pget_set_corner _ 0 hlen hrowlen
  · rw [hplane]
    have h0 : pget (set_corner (m.getD p []) 0) 0 0 = 0 :=
      pget_set_corner _ 0 hlen hrowlen
    have h1 := pget_mem_ravel_of_lt (set_corner (m.getD p []) 0) 0 0
      (by rw [length_set_corner]; exact hlen)
      (by rw [row_length_set_corner]; exact hrowlen)
    rwa [h0] at h1

/-- Witness for C7 amended: the all-nonzero volume `[[[1,1]],[[1,1]]]`
relabels with no background anywhere, so the enforcer zero-forces the
corner of both planes. -/
theorem c7_witness :
    vget (raveler_serial_section_map [[[1,1]],[[1,1]]] 0 false true) 1 0 0 = 0 ∧
      0 ∈ ravel ((raveler_serial_section_map [[[1,1]],[[1,1]]] 0 false true).getD 1 []) :=
  c7_theorem [[[1,1]],[[1,1]]] 0 false true 1 (by decide) (by decide) (by decide) (by decide)

end Gala

namespace Gala

/-! ### Offsets vanish when global uniqueness is disabled -/

theorem ssm_false_plane (nd : Vol) (ms : Nat) (cc : Bool) (p : Nat)
    (hp : p < nd.length) :
    (serial_section_map nd ms cc false).getD p [] = ssm_plane_label nd ms cc p := by
  rw [List.getD_eq_getElem?_getD, serial_section_map_getElem? nd ms cc false p hp,
    Option.getD_some, ssm_start_ids_false]
  simp

/-- C10 amended: in the Hierarchy Builder (no precomputed map), the fine
volume is relabeled with `globally_unique_ids=False` - the offsets
vanish, each output plane is exactly its independent per-plane relabeling
and ids restart from 1 in every plane - while the intermediate volume is
relabeled with `globally_unique_ids=True`, which makes the ids of voxels
that survive the per-plane relabeling disjoint between distinct planes.
(Background voxels of the intermediate volume also receive the plane
offset, so full volume-uniqueness fails, as the counterexample shows.) -/
theorem c10_theorem (sps bodies : Vol) (ms : Nat) (cc : Bool)
    (p q r c r2 c2 : Nat) (hpq : p ≠ q)
    (hp : p < bodies.length) (hq : q < bodies.length)
    (hr : r < (bodies.getD p []).length) (hc : c < ((bodies.getD p []).getD r []).length)
    (hr2 : r2 < (bodies.getD q []).length)
    (hc2 : c2 < ((bodies.getD q []).getD r2 []).length)
    (hnz1 : pget (ssm_plane_label bodies ms cc p) r c ≠ 0)
    (hnz2 : pget (ssm_plane_label bodies ms cc q) r2 c2 ≠ 0) :
    (segs_to_raveler sps bodies ms cc none).1 =
      raveler_serial_section_map sps ms cc false ∧
    segs_to_raveler_segment_map bodies ms cc =
      raveler_serial_section_map bodies ms cc true ∧
    (∀ p2, p2 < sps.length →
      (serial_section_map sps ms cc false).getD p2 [] = ssm_plane_label sps ms cc p2) ∧
    vget (serial_section_map bodies ms cc true) p r c ≠
      vget (serial_section_map bodies ms cc true) q r2 c2 := by
  refine ⟨rfl, rfl, fun p2 hp2 => ssm_false_plane sps ms cc p2 hp2, ?_⟩
  rw [vget_serial_section_map bodies ms cc true p r c hp hr hc,
    vget_serial_section_map bodies ms cc true q r2 c2 hq hr2 hc2]
  have hb1 := ssm_plane_label_bounds bodies ms cc p r c hp hnz1
  have hb2 := ssm_plane_label_bounds bodies ms cc q r2 c2 hq hnz2
  rcases Nat.lt_or_ge p q with hlt | hge
  · have hoff := ssm_offset_succ_le bodies ms cc p q hlt hq
    omega
  · have hlt2 : q < p := by omega
    have hoff := ssm_offset_succ_le bodies ms cc q p hlt2 hp
    omega

/-- Witness for C10 amended, at `sps = [[[1,2]],[[3]]]`,
`bodies = [[[1,2]],[[4]]]`, surviving voxels (0,0,1) and (1,0,0). -/
theorem c10_witness :
    (segs_to_raveler [[[1,2]],[[3]]] [[[1,2]],[[4]]] 0 false none).1 =
      raveler_serial_section_map [[[1,2]],[[3]]] 0 false false ∧
    segs_to_raveler_segment_map [[[1,2]],[[4]]] 0 false =
      raveler_serial_section_map [[[1,2]],[[4]]] 0 false true ∧
    (∀ p2, p2 < ([[[1,2]],[[3]]] : Vol).length →
      (serial_section_map [[[1,2]],[[3]]] 0 false false).getD p2 [] =
        ssm_plane_label [[[1,2]],[[3]]] 0 false p2) ∧
    vget (serial_section_map [[[1,2]],[[4]]] 0 false true) 0 0 1 ≠
      vget (serial_section_map [[[1,2]],[[4]]] 0 false true) 1 0 0 :=
  c10_theorem [[[1,2]],[[3]]] [[[1,2]],[[4]]] 0 false 0 1 0 1 0 0 (by decide) (by decide)
    (by decide) (by decide) (by decide) (by decide) (by decide) (by decide) (by decide)

end Gala

namespace Gala

/-! ### Scatter/gather lemmas for the Forward-Map Decoder -/

theorem scatter_length (prs : List (Nat × Nat)) (arr : List Nat) :
    (scatter arr prs).length = arr.length := by
  induction prs generalizing arr with
  | nil => rfl
  | cons pr rest ih =>
    unfold scatter at ih ⊢
    rw [List.foldl_cons, ih]
    exact List.length_set arr pr.1 pr.2

theorem scatter_getD_not_mem (prs : List (Nat × Nat)) (arr : List Nat) (k : Nat)
    (hk : k ∉ prs.map (·.1)) :
    (scatter arr prs).getD k 0 = arr.getD k 0 := by
  induction prs generalizing arr with
  | nil => rfl
  | cons pr rest ih =>
    simp only [List.map_cons, List.mem_cons] at hk
    push_neg at hk
    unfold scatter at ih ⊢
    rw [List.foldl_cons, ih _ hk.2]
    rw [List.getD_eq_getElem?_getD, List.getD_eq_getElem?_getD,
      List.getElem?_set_ne (fun h => hk.1 h.symm)]

theorem scatter_getD_mem (prs : List (Nat × Nat)) (arr : List Nat) (k vv : Nat)
    (hmem : (k, vv) ∈ prs) (huniq : ∀ v2, (k, v2) ∈ prs → v2 = vv)
    (hk : k < arr.length) :
    (scatter arr prs).getD k 0 = vv := by
  induction prs generalizing arr with
  | nil => simp at hmem
  | cons pr rest ih =>
    unfold scatter at ih ⊢
    rw [List.foldl_cons]
    by_cases hrest : k ∈ rest.map (·.1)
    · obtain ⟨pr2, hpr2, hfst⟩ := List.mem_map.1 hrest
      have hv2 : pr2 = (k, pr2.2) := by
        cases pr2; simp at hfst; simp [hfst]
      have : (k, pr2.2) ∈ rest := hv2 ▸ hpr2
      have hval : pr2.2 = vv := huniq _ (List.mem_cons_of_mem _ this)
      exact ih (arr.set pr.1 pr.2) (hval ▸ this)
        (fun v2 hv => huniq v2 (List.mem_cons_of_mem _ hv))
        (by rw [List.length_set]; exact hk)
    · show (scatter (arr.set pr.1 pr.2) rest).getD k 0 = vv
      rw [scatter_getD_not_mem rest _ k hrest]
      rcases List.mem_cons.1 hmem with hhead | htail
      · have hpr : pr = (k, vv) := hhead.symm
        subst hpr
        rw [List.getD_eq_getElem?_getD, List.getElem?_set_eq_of_lt vv hk]
        rfl
      · exact absurd (List.mem_map.2 ⟨(k, vv), htail, rfl⟩) hrest

theorem foldl_max_init (l : List Nat) (b : Nat) : b ≤ l.foldl Nat.max b := by
  induction l generalizing b with
  | nil => exact Nat.le_refl b
  | cons x xs ih =>
    rw [List.foldl_cons]
    exact le_trans (Nat.le_max_left b x) (ih _)

theorem mem_le_foldl_max (l : List Nat) (x : Nat) :
    ∀ b, x ∈ l → x ≤ l.foldl Nat.max b := by
  induction l with
  | nil => intro b h; simp at h
  | cons y ys ih =>
    intro b h
    rw [List.foldl_cons]
    rcases List.mem_cons.1 h with h | h
    · subst h
      exact le_trans (Nat.le_max_right b x) (foldl_max_init ys _)
    · exact ih _ h

theorem le_list_max (l : List Nat) (x : Nat) (hx : x ∈ l) : x ≤ list_max l :=
  mem_le_foldl_max l x 0 hx

theorem omap_eq_some_of_forall {α β : Type} (l : List α) (f : α → Option β) (g : α → β)
    (h : ∀ x ∈ l, f x = some (g x)) : omap l f = some (l.map g) := by
  induction l with
  | nil => rfl
  | cons x xs ih =>
    unfold omap
    rw [h x (List.mem_cons_self x xs), ih (fun y hy => h y (List.mem_cons_of_mem _ hy))]
    rfl

theorem map_getD_zero (l : List Nat) (g : Nat → Nat) (i : Nat) (hi : i < l.length) :
    (l.map g).getD i 0 = g (l.getD i 0) := by
  rw [List.getD_eq_getElem?_getD, List.getD_eq_getElem?_getD, List.getElem?_map]
  cases h : l[i]? with
  | none => exact absurd (List.getElem?_eq_none_iff.1 h) (by omega)
  | some x => simp

/-- C4 amended: `apply_map` builds a dense array of length
`max(source id)+1` default-filled with 0, scatters each pair and gathers
per voxel; a source id absent from the table but no larger than the
maximum source id decodes to 0, while a label larger than the maximum
source id makes the gather an out-of-bounds IndexError (so the claim's
example `[1,2,3]` raises instead of yielding `[5,7,0]`). -/
theorem c4_theorem (labels : List Nat) (table : List (Nat × Nat))
    (hne : table ≠ [])
    (hbound : ∀ l ∈ labels, l ≤ list_max (table.map (·.1))) :
    ∃ out, apply_segmentation_map labels table = some out ∧
      out.length = labels.length ∧
      ∀ i, i < labels.length → labels.getD i 0 ∉ table.map (·.1) →
        out.getD i 0 = 0 := by
  match table, hne with
  | t :: ts, _ =>
    set tab := t :: ts with htab
    set fm := scatter (List.replicate (list_max (tab.map (·.1)) + 1) 0) tab with hfm
    have hfmlen : fm.length = list_max (tab.map (·.1)) + 1 := by
      rw [hfm, scatter_length, List.length_replicate]
    have hgather : ∀ x ∈ labels, fm.get? x = some (fm.getD x 0) := by
      intro x hx
      rw [List.get?_eq_getElem?, List.getD_eq_getElem?_getD]
      cases h : fm[x]? with
      | none =>
        have := List.getElem?_eq_none_iff.1 h
        have hb := hbound x hx
        omega
      | some y => simp
    refine ⟨labels.map (fun x => fm.getD x 0), ?_, by simp, ?_⟩
    · show omap labels (fun l => fm.get? l) = _
      exact omap_eq_some_of_forall labels _ _ hgather
    · intro i hi hnot
      rw [map_getD_zero labels _ i hi]
      rw [hfm, scatter_getD_not_mem _ _ _ hnot]
      rw [List.getD_eq_getElem?_getD]
      cases h : (List.replicate (list_max (tab.map (·.1)) + 1) 0)[labels.getD i 0]? with
      | none => rfl
      | some y =>
        have := List.getElem?_replicate.symm.trans h
        by_cases hlt : labels.getD i 0 < list_max (tab.map (·.1)) + 1
        · rw [if_pos hlt] at this
          simp only [Option.some_inj] at this
          simp [← this]
        · rw [if_neg hlt] at this
          simp at this

/-- Witness for C4 amended: the table `{(1,5),(2,7)}` with in-range
labels `[1,2,0]` decodes to `[5,7,0]`; label 0 is unmapped and decodes to
background. -/
theorem c4_witness :
    (∃ out, apply_segmentation_map [1,2,0] [(1,5),(2,7)] = some out ∧
      out.length = ([1,2,0] : List Nat).length ∧
      ∀ i, i < ([1,2,0] : List Nat).length →
        ([1,2,0] : List Nat).getD i 0 ∉ ([(1,5),(2,7)] : List (Nat × Nat)).map (·.1) →
        out.getD i 0 = 0) ∧
    apply_segmentation_map [1,2,0] [(1,5),(2,7)] = some [5,7,0] :=
  ⟨c4_theorem [1,2,0] [(1,5),(2,7)] (by decide) (by decide), by decide⟩

end Gala

namespace Gala

/-! ### Membership in sorted distinct tuple lists -/

theorem mem_sorted_insert {α : Type} (lt : α → α → Bool)
    (anti : ∀ a b : α, lt a b = false → lt b a = false → a = b)
    (x : α) (l : List α) (z : α) :
    z ∈ sorted_insert lt x l ↔ z = x ∨ z ∈ l := by
  induction l with
  | nil => simp [sorted_insert]
  | cons y ys ih =>
    unfold sorted_insert
    by_cases h1 : lt x y
    · rw [if_pos h1]
      simp [List.mem_cons]
    · rw [if_neg h1]
      by_cases h2 : lt y x
      · rw [if_pos h2]
        simp only [List.mem_cons, ih]
        tauto
      · rw [if_neg h2]
        have hxy : x = y := anti x y (by revert h1; cases lt x y <;> simp)
          (by revert h2; cases lt y x <;> simp)
        subst hxy
        simp only [List.mem_cons]
        tauto

theorem mem_sorted_unique {α : Type} (lt : α → α → Bool)
    (anti : ∀ a b : α, lt a b = false → lt b a = false → a = b)
    (l : List α) (z : α) :
    z ∈ sorted_unique lt l ↔ z ∈ l := by
  suffices h : ∀ acc, z ∈ l.foldl (fun acc x => sorted_insert lt x acc) acc ↔
      z ∈ acc ∨ z ∈ l by
    have h2 := h []
    unfold sorted_unique
    simp only [List.not_mem_nil, false_or] at h2
    exact h2
  induction l with
  | nil => intro acc; simp
  | cons x xs ih =>
    intro acc
    rw [List.foldl_cons, ih, mem_sorted_insert lt anti]
    simp only [List.mem_cons]
    tauto

theorem lex_lt_pair_anti (a b : Nat × Nat)
    (h1 : lex_lt_pair a b = false) (h2 : lex_lt_pair b a = false) : a = b := by
  obtain ⟨a1, a2⟩ := a
  obtain ⟨b1, b2⟩ := b
  unfold lex_lt_pair at h1 h2
  simp only [Bool.or_eq_false_iff, Bool.and_eq_false_iff, decide_eq_false_iff_not,
    beq_eq_false_iff_ne, ne_eq] at h1 h2
  have e1 : a1 = b1 := by omega
  have e2 : a2 = b2 := by omega
  rw [e1, e2]

theorem lex_lt_triple_anti (a b : Nat × Nat × Nat)
    (h1 : lex_lt_triple a b = false) (h2 : lex_lt_triple b a = false) : a = b := by
  obtain ⟨a1, a2, a3⟩ := a
  obtain ⟨b1, b2, b3⟩ := b
  unfold lex_lt_triple lex_lt_pair at h1 h2
  simp only [Bool.or_eq_false_iff, Bool.and_eq_false_iff, decide_eq_false_iff_not,
    beq_eq_false_iff_ne, ne_eq] at h1 h2
  have e1 : a1 = b1 := by omega
  have e2 : a2 = b2 := by omega
  have e3 : a3 = b3 := by omega
  rw [e1, e2, e3]

theorem mem_unique_pairs (l : List (Nat × Nat)) (z : Nat × Nat) :
    z ∈ unique_pairs l ↔ z ∈ l :=
  mem_sorted_unique lex_lt_pair lex_lt_pair_anti l z

theorem mem_unique_triples (l : List (Nat × Nat × Nat)) (z : Nat × Nat × Nat) :
    z ∈ unique_triples l ↔ z ∈ l :=
  mem_sorted_unique lex_lt_triple lex_lt_triple_anti l z

/-! ### Zip-of-ravel membership characterization -/

theorem pget_cons_zero (row : List Nat) (rest : Plane) (c : Nat) :
    pget (row :: rest) 0 c = row.getD c 0 := rfl

theorem pget_cons_succ (row : List Nat) (rest : Plane) (r c : Nat) :
    pget (row :: rest) (r + 1) c = pget rest r c := rfl

theorem vget_cons_zero (pl : Plane) (rest : Vol) (r c : Nat) :
    vget (pl :: rest) 0 r c = pget pl r c := rfl

theorem vget_cons_succ (pl : Plane) (rest : Vol) (p r c : Nat) :
    vget (pl :: rest) (p + 1) r c = vget rest p r c := rfl

theorem zip_append_of_length {α β : Type} (a c : List α) (b d : List β)
    (h : a.length = b.length) :
    (a ++ c).zip (b ++ d) = a.zip b ++ c.zip d := by
  induction a generalizing b with
  | nil =>
    cases b with
    | nil => rfl
    | cons y ys => simp at h
  | cons x xs ih =>
    cases b with
    | nil => simp at h
    | cons y ys =>
      simp only [List.cons_append, List.zip_cons_cons]
      rw [ih ys (by simpa using h)]

theorem mem_zip_row (u v : List Nat) (h : u.length = v.length) (x y : Nat) :
    (x, y) ∈ u.zip v ↔ ∃ c, c < u.length ∧ u.getD c 0 = x ∧ v.getD c 0 = y := by
  induction u generalizing v with
  | nil => simp
  | cons a as ih =>
    cases v with
    | nil => simp at h
    | cons b bs =>
      rw [List.zip_cons_cons, List.mem_cons, ih bs (by simpa using h)]
      constructor
      · rintro (heq | ⟨c, hc, hx, hy⟩)
        · injection heq with h1 h2
          subst h1
          subst h2
          exact ⟨0, by simp, by simp, by simp⟩
        · refine ⟨c + 1, by simpa using hc, ?_, ?_⟩
          · rw [List.getD_cons_succ]
            exact hx
          · rw [List.getD_cons_succ]
            exact hy
      · rintro ⟨c, hc, hx, hy⟩
        cases c with
        | zero =>
          rw [List.getD_cons_zero] at hx hy
          subst hx
          subst hy
          exact Or.inl rfl
        | succ c2 =>
          rw [List.getD_cons_succ] at hx hy
          exact Or.inr ⟨c2, by simpa using hc, hx, hy⟩

theorem mem_zip_ravel_plane (a b : Plane) (hlen : a.length = b.length)
    (hrows : ∀ r, r < a.length → (a.getD r []).length = (b.getD r []).length)
    (x y : Nat) :
    (x, y) ∈ (ravel a).zip (ravel b) ↔
      ∃ r c, r < a.length ∧ c < (a.getD r []).length ∧
        pget a r c = x ∧ pget b r c = y := by
  induction a generalizing b with
  | nil => simp [ravel]
  | cons row rest ih =>
    cases b with
    | nil => simp at hlen
    | cons row2 rest2 =>
      have hrow0 : row.length = row2.length := by
        have h0 := hrows 0 (by simp)
        simpa using h0
      show (x, y) ∈ ((row ++ rest.flatten).zip (row2 ++ rest2.flatten)) ↔ _
      rw [zip_append_of_length _ _ _ _ hrow0, List.mem_append,
        mem_zip_row row row2 hrow0]
      have ihh := ih rest2 (by simpa using hlen)
        (fun r hr => by
          have h1 := hrows (r + 1) (by simpa using hr)
          simpa using h1)
      rw [show (rest.flatten.zip rest2.flatten) = ((ravel rest).zip (ravel rest2)) from rfl,
        ihh]
      constructor
      · rintro (⟨c, hc, hx, hy⟩ | ⟨r, c, hr, hc, hx, hy⟩)
        · refine ⟨0, c, by simp, by simpa using hc, ?_, ?_⟩
          · rw [pget_cons_zero]
            exact hx
          · rw [pget_cons_zero]
            exact hy
        · refine ⟨r + 1, c, by simpa using hr, by simpa using hc, ?_, ?_⟩
          · rw [pget_cons_succ]
            exact hx
          · rw [pget_cons_succ]
            exact hy
      · rintro ⟨r, c, hr, hc, hx, hy⟩
        cases r with
        | zero =>
          rw [pget_cons_zero] at hx hy
          exact Or.inl ⟨c, by simpa using hc, hx, hy⟩
        | succ r2 =>
          rw [pget_cons_succ] at hx hy
          exact Or.inr ⟨r2, c, by simpa using hr, by simpa using hc, hx, hy⟩

theorem map_length_eq_of_shape (u v : Plane) (h1 : u.length = v.length)
    (h2 : ∀ r, r < u.length → (u.getD r []).length = (v.getD r []).length) :
    u.map List.length = v.map List.length := by
  apply List.ext_getElem (by simpa using h1)
  intro i hi1 hi2
  simp only [List.getElem_map]
  have h3 := h2 i (by simpa using hi1)
  rw [List.getD_eq_getElem?_getD, List.getD_eq_getElem?_getD,
    List.getElem?_eq_getElem (by simpa using hi1),
    List.getElem?_eq_getElem (by simpa using hi2)] at h3
  simpa using h3

theorem ravel_length_eq_of_shape (u v : Plane) (h1 : u.length = v.length)
    (h2 : ∀ r, r < u.length → (u.getD r []).length = (v.getD r []).length) :
    (ravel u).length = (ravel v).length := by
  unfold ravel
  rw [List.length_flatten, List.length_flatten, map_length_eq_of_shape u v h1 h2]

theorem mem_zip_ravel3 (A B : Vol) (hlen : A.length = B.length)
    (hplanes : ∀ p, p < A.length → (A.getD p []).length = (B.getD p []).length ∧
        ∀ r, r < (A.getD p []).length →
          ((A.getD p []).getD r []).length = ((B.getD p []).getD r []).length)
    (x y : Nat) :
    (x, y) ∈ (ravel3 A).zip (ravel3 B) ↔
      ∃ p r c, p < A.length ∧ r < (A.getD p []).length ∧
        c < ((A.getD p []).getD r []).length ∧
        vget A p r c = x ∧ vget B p r c = y := by
  induction A generalizing B with
  | nil => simp [ravel3]
  | cons pl rest ih =>
    cases B with
    | nil => simp at hlen
    | cons pl2 rest2 =>
      have h0 := hplanes 0 (by simp)
      have hlen0 : pl.length = pl2.length := by simpa using h0.1
      have hrows0 : ∀ r, r < pl.length → (pl.getD r []).length = (pl2.getD r []).length :=
        fun r hr => by
          have h1 := h0.2 r (by simpa using hr)
          simpa using h1
      show (x, y) ∈ ((ravel pl ++ ravel3 rest).zip (ravel pl2 ++ ravel3 rest2)) ↔ _
      rw [zip_append_of_length _ _ _ _ (ravel_length_eq_of_shape pl pl2 hlen0 hrows0),
        List.mem_append, mem_zip_ravel_plane pl pl2 hlen0 hrows0]
      have ihh := ih rest2 (by simpa using hlen)
        (fun p hp => by
          have h1 := hplanes (p + 1) (by simpa using hp)
          simpa using h1)
      rw [ihh]
      constructor
      · rintro (⟨r, c, hr, hc, hx, hy⟩ | ⟨p, r, c, hp, hr, hc, hx, hy⟩)
        · refine ⟨0, r, c, by simp, by simpa using hr, by simpa using hc, ?_, ?_⟩
          · rw [vget_cons_zero]
            exact hx
          · rw [vget_cons_zero]
            exact hy
        · refine ⟨p + 1, r, c, by simpa using hp, by simpa using hr, by simpa using hc,
            ?_, ?_⟩
          · rw [vget_cons_succ]
            exact hx
          · rw [vget_cons_succ]
            exact hy
      · rintro ⟨p, r, c, hp, hr, hc, hx, hy⟩
        cases p with
        | zero =>
          rw [vget_cons_zero] at hx hy
          exact Or.inl ⟨r, c, by simpa using hr, by simpa using hc, hx, hy⟩
        | succ p2 =>
          rw [vget_cons_succ] at hx hy
          exact Or.inr ⟨p2, r, c, by simpa using hp, by simpa using hr, by simpa using hc,
            hx, hy⟩

end Gala

namespace Gala

/-! ### Shape lemmas at volume level -/

theorem sameShape_refl (A : Vol) : SameShape A A :=
  ⟨rfl, fun _ _ => ⟨rfl, fun _ _ => rfl⟩⟩

theorem sameShape_symm {A B : Vol} (h : SameShape A B) : SameShape B A := by
  obtain ⟨h1, h2⟩ := h
  refine ⟨h1.symm, fun p hp => ?_⟩
  have hpA : p < A.length := by omega
  obtain ⟨hl, hr⟩ := h2 p hpA
  refine ⟨hl.symm, fun r hrB => ?_⟩
  have hrA : r < (A.getD p []).length := by omega
  exact (hr r hrA).symm

theorem sameShape_trans {A B C : Vol} (h1 : SameShape A B) (h2 : SameShape B C) :
    SameShape A C := by
  obtain ⟨h1a, h1b⟩ := h1
  obtain ⟨h2a, h2b⟩ := h2
  refine ⟨h1a.trans h2a, fun p hp => ?_⟩
  obtain ⟨hl1, hr1⟩ := h1b p hp
  obtain ⟨hl2, hr2⟩ := h2b p (by omega)
  refine ⟨hl1.trans hl2, fun r hr => ?_⟩
  exact (hr1 r hr).trans (hr2 r (by omega))

theorem getD_map_plane (f : Plane → Plane) (A : Vol) (p : Nat) (hp : p < A.length) :
    (A.map f).getD p [] = f (A.getD p []) := by
  rw [List.getD_eq_getElem?_getD, List.getD_eq_getElem?_getD, List.getElem?_map]
  cases h : A[p]? with
  | none => exact absurd (List.getElem?_eq_none_iff.1 h) (by omega)
  | some pl => simp

theorem sameShape_serial_section_map (nd : Vol) (ms : Nat) (cc gu : Bool) :
    SameShape (serial_section_map nd ms cc gu) nd := by
  refine ⟨length_serial_section_map nd ms cc gu, fun p hp => ?_⟩
  rw [length_serial_section_map] at hp
  have hpl : (serial_section_map nd ms cc gu).getD p [] =
      (ssm_plane_label nd ms cc p).map
        (List.map (· + (ssm_start_ids nd ms cc gu).getD p 0)) := by
    rw [List.getD_eq_getElem?_getD, serial_section_map_getElem? nd ms cc gu p hp]
    rfl
  constructor
  · rw [hpl, List.length_map, length_ssm_plane_label nd ms cc p hp]
  · intro r hr
    rw [hpl, row_length_map_rows, row_length_ssm_plane_label nd ms cc p r hp]

theorem sameShape_map_set_corner (A : Vol) :
    SameShape (A.map (fun pl => set_corner pl 0)) A := by
  refine ⟨by simp, fun p hp => ?_⟩
  rw [List.length_map] at hp
  rw [getD_map_plane _ A p hp]
  exact ⟨length_set_corner _ 0, fun r hr => row_length_set_corner _ 0 r⟩

theorem sameShape_raveler_serial_section_map (nd : Vol) (ms : Nat) (cc gu : Bool) :
    SameShape (raveler_serial_section_map nd ms cc gu) nd := by
  rw [show raveler_serial_section_map nd ms cc gu =
    (if any_zero (serial_section_map nd ms cc gu) = true then serial_section_map nd ms cc gu
     else (serial_section_map nd ms cc gu).map (fun pl => set_corner pl 0)) from rfl]
  by_cases h : any_zero (serial_section_map nd ms cc gu) = true
  · rw [if_pos h]
    exact sameShape_serial_section_map nd ms cc gu
  · rw [if_neg h]
    exact sameShape_trans (sameShape_map_set_corner _)
      (sameShape_serial_section_map nd ms cc gu)

theorem sameShape_exists_iff (A B : Vol) (h : SameShape A B)
    (P : Nat → Nat → Nat → Prop) :
    (∃ p r c, p < A.length ∧ r < (A.getD p []).length ∧
      c < ((A.getD p []).getD r []).length ∧ P p r c) ↔
    (∃ p r c, p < B.length ∧ r < (B.getD p []).length ∧
      c < ((B.getD p []).getD r []).length ∧ P p r c) := by
  obtain ⟨h1, h2⟩ := h
  constructor
  · rintro ⟨p, r, c, hp, hr, hc, hP⟩
    obtain ⟨hl, hrow⟩ := h2 p hp
    exact ⟨p, r, c, by omega, by omega, by rw [← hrow r hr]; omega, hP⟩
  · rintro ⟨p, r, c, hp, hr, hc, hP⟩
    have hpA : p < A.length := by omega
    obtain ⟨hl, hrow⟩ := h2 p hpA
    have hrA : r < (A.getD p []).length := by omega
    exact ⟨p, r, c, hpA, hrA, by rw [hrow r hrA]; omega, hP⟩

/-- C5 amended: the intermediate-to-body table is exactly the sorted
distinct (mid id, body id) voxel pairs with the mid-id-0 pairs removed
and (0,0) prepended as first entry; but a mid id need not determine a
single body id even under the superpixel-to-body precondition, because
background voxels of a later plane carry that plane's offset, which can
collide with an earlier plane's segment id (see the counterexample). -/
theorem c5_theorem (sps bodies : Vol) (ms : Nat) (cc : Bool) (so : Option Vol)
    (s b : Nat) :
    ((segs_to_raveler sps bodies ms cc so).2.2).head? = some (0, 0) ∧
    ((s, b) ∈ (segs_to_raveler sps bodies ms cc so).2.2 ↔
      (s = 0 ∧ b = 0) ∨
      (s ≠ 0 ∧ ∃ p r c,
        p < bodies.length ∧ r < (bodies.getD p []).length ∧
        c < ((bodies.getD p []).getD r []).length ∧
        vget (segs_to_raveler_segment_map bodies ms cc) p r c = s ∧
        vget bodies p r c = b)) := by
  constructor
  · rfl
  · set A := segs_to_raveler_segment_map bodies ms cc with hA
    have hsh : SameShape A bodies := sameShape_raveler_serial_section_map bodies ms cc true
    have hmem : (s, b) ∈ (segs_to_raveler sps bodies ms cc so).2.2 ↔
        (s, b) = ((0 : Nat), (0 : Nat)) ∨
        ((s, b) ∈ unique_pairs ((ravel3 A).zip (ravel3 bodies)) ∧ s ≠ 0) := by
      show (s, b) ∈ (0, 0) ::
        (unique_pairs ((ravel3 A).zip (ravel3 bodies))).filter (fun pr => pr.1 ≠ 0) ↔ _
      rw [List.mem_cons, List.mem_filter]
      simp only [decide_eq_true_eq]
    rw [hmem, mem_unique_pairs,
      mem_zip_ravel3 A bodies hsh.1 (fun p hp => hsh.2 p hp)]
    rw [sameShape_exists_iff A bodies hsh]
    constructor
    · rintro (heq | ⟨hzip, hs⟩)
      · injection heq with e1 e2
        exact Or.inl ⟨e1, e2⟩
      · exact Or.inr ⟨hs, hzip⟩
    · rintro (⟨e1, e2⟩ | ⟨hs, hzip⟩)
      · subst e1
        subst e2
        exact Or.inl rfl
      · exact Or.inr ⟨hzip, hs⟩

end Gala

namespace Gala

/-! ### The fine-to-mid table -/

theorem mem_plane_triples (i : Nat) (sp seg : Plane) (p f m : Nat) :
    (p, f, m) ∈ plane_triples i sp seg ↔
      p = i ∧ (f, m) ∈ ((ravel sp).zip (ravel (mask_plane sp seg))).filter
        (fun fg => fg.1 ≠ 0 ∨ fg.2 = 0) := by
  unfold plane_triples
  rw [mem_unique_triples, List.mem_map]
  constructor
  · rintro ⟨fg, hfg, heq⟩
    obtain ⟨f1, m1⟩ := fg
    injection heq with e1 e2
    injection e2 with e2a e2b
    subst e1
    subst e2a
    subst e2b
    exact ⟨rfl, hfg⟩
  · rintro ⟨hpi, hmem⟩
    exact ⟨(f, m), hmem, by rw [hpi]⟩

theorem getElem?_zip_pair {α β : Type} (a : List α) (b : List β) (i : Nat) :
    (a.zip b)[i]? =
      match a[i]?, b[i]? with
      | some x, some y => some (x, y)
      | _, _ => none := by
  show (List.zipWith Prod.mk a b)[i]? = _
  rw [List.getElem?_zipWith']
  cases a[i]? <;> cases b[i]? <;> rfl

theorem getD_getElem?_of_lt {α : Type} (l : List α) (i : Nat) (d : α) (h : i < l.length) :
    l[i]? = some (l.getD i d) := by
  rw [List.getD_eq_getElem?_getD]
  cases h2 : l[i]? with
  | none => exact absurd (List.getElem?_eq_none_iff.1 h2) (by omega)
  | some x => simp

/-- For planes of equal shape, the masked plane has the shape of the
fine plane. -/
theorem mask_plane_len (sp seg : Plane) (hl : sp.length = seg.length) :
    sp.length = (mask_plane sp seg).length := by
  show _ = (List.zipWith _ _ _).length
  rw [List.length_zipWith]
  omega

theorem mask_plane_getD (sp seg : Plane) (r : Nat) (hr : r < sp.length)
    (hl : sp.length = seg.length) :
    (mask_plane sp seg).getD r [] =
      List.zipWith (fun s g => if s = 0 then 0 else g)
        (sp.getD r []) (seg.getD r []) := by
  show (List.zipWith (fun sr gr => List.zipWith _ sr gr) _ _).getD r [] = _
  rw [List.getD_eq_getElem?_getD, List.getElem?_zipWith',
    getD_getElem?_of_lt sp r [] hr, getD_getElem?_of_lt seg r [] (by omega)]
  rfl

theorem mask_plane_rows (sp seg : Plane) (hl : sp.length = seg.length)
    (hrows : ∀ r, r < sp.length → (sp.getD r []).length = (seg.getD r []).length) :
    ∀ r, r < sp.length →
      (sp.getD r []).length = ((mask_plane sp seg).getD r []).length := by
  intro r hr
  rw [mask_plane_getD sp seg r hr hl, List.length_zipWith]
  have := hrows r hr
  omega

/-- Membership characterization of the builder's fine-to-mid table. -/
theorem mem_sp_to_segment (sps bodies : Vol) (ms : Nat) (cc : Bool) (so : Option Vol)
    (hsh : SameShape (segs_to_raveler_sps_out sps ms cc so) bodies)
    (p f m : Nat) :
    (p, f, m) ∈ (segs_to_raveler sps bodies ms cc so).2.1 ↔
      p < bodies.length ∧
      ∃ r c, r < ((segs_to_raveler_sps_out sps ms cc so).getD p []).length ∧
        c < (((segs_to_raveler_sps_out sps ms cc so).getD p []).getD r []).length ∧
        pget ((segs_to_raveler_sps_out sps ms cc so).getD p []) r c = f ∧
        pget (mask_plane ((segs_to_raveler_sps_out sps ms cc so).getD p [])
          ((segs_to_raveler_segment_map bodies ms cc).getD p [])) r c = m ∧
        (f ≠ 0 ∨ m = 0) := by
  have hsh2 : SameShape (segs_to_raveler_segment_map bodies ms cc) bodies :=
    sameShape_raveler_serial_section_map bodies ms cc true
  have hmem0 : (p, f, m) ∈ (segs_to_raveler sps bodies ms cc so).2.1 ↔
      ∃ i sp0 seg0 bod0,
        (i, (sp0, (seg0, bod0))) ∈ ((segs_to_raveler_sps_out sps ms cc so).zip
          ((segs_to_raveler_segment_map bodies ms cc).zip bodies)).enum ∧
        (p, f, m) ∈ plane_triples i sp0 seg0 := by
    show (p, f, m) ∈ (((segs_to_raveler_sps_out sps ms cc so).zip
        ((segs_to_raveler_segment_map bodies ms cc).zip bodies)).enum.map
      (fun ipr => plane_triples ipr.1 ipr.2.1 ipr.2.2.1)).flatten ↔ _
    rw [List.mem_flatten]
    constructor
    · rintro ⟨blk, hblk, hmem⟩
      obtain ⟨e, he, hge⟩ := List.mem_map.1 hblk
      obtain ⟨i, sp0, seg0, bod0⟩ := e
      exact ⟨i, sp0, seg0, bod0, he, hge ▸ hmem⟩
    · rintro ⟨i, sp0, seg0, bod0, he, hmem⟩
      exact ⟨plane_triples i sp0 seg0,
        List.mem_map.2 ⟨(i, (sp0, (seg0, bod0))), he, rfl⟩, hmem⟩
  rw [hmem0]
  have hlen1 : (segs_to_raveler_sps_out sps ms cc so).length = bodies.length := hsh.1
  have hlen2 : (segs_to_raveler_segment_map bodies ms cc).length = bodies.length := hsh2.1
  have hshapes : ∀ q, q < bodies.length →
      ((segs_to_raveler_sps_out sps ms cc so).getD q []).length =
        ((segs_to_raveler_segment_map bodies ms cc).getD q []).length ∧
      (∀ r, r < ((segs_to_raveler_sps_out sps ms cc so).getD q []).length →
        (((segs_to_raveler_sps_out sps ms cc so).getD q []).getD r []).length =
        (((segs_to_raveler_segment_map bodies ms cc).getD q []).getD r []).length) := by
    intro q hq
    obtain ⟨ha1, ha2⟩ := hsh.2 q (by omega)
    obtain ⟨hb1, hb2⟩ := hsh2.2 q (by omega)
    refine ⟨by omega, fun r hr => ?_⟩
    have h1 := ha2 r hr
    have h2 := hb2 r (by omega)
    omega
  constructor
  · rintro ⟨i, sp0, seg0, bod0, he, hmem⟩
    rw [List.mem_enum_iff_getElem?] at he
    rw [mem_plane_triples] at hmem
    obtain ⟨hpi, hfm⟩ := hmem
    rw [show ((i, (sp0, (seg0, bod0))) : Nat × Plane × Plane × Plane).2 =
      (sp0, (seg0, bod0)) from rfl,
      show ((i, (sp0, (seg0, bod0))) : Nat × Plane × Plane × Plane).1 = i from rfl,
      getElem?_zip_pair] at he
    cases h1 : (segs_to_raveler_sps_out sps ms cc so)[i]? with
    | none => rw [h1] at he; simp at he
    | some sp1 =>
      rw [h1, getElem?_zip_pair] at he
      cases h2 : (segs_to_raveler_segment_map bodies ms cc)[i]? with
      | none => rw [h2] at he; simp at he
      | some seg1 =>
        rw [h2] at he
        cases h3 : bodies[i]? with
        | none => rw [h3] at he; simp at he
        | some bod1 =>
          rw [h3] at he
          simp only [Option.some_inj, Prod.mk.injEq] at he
          obtain ⟨hesp, heseg, hebod⟩ := he
          have hp : i < bodies.length := (List.getElem?_eq_some.1 h3).1
          have hsp0 : sp0 = (segs_to_raveler_sps_out sps ms cc so).getD i [] := by
            rw [List.getD_eq_getElem?_getD, h1, ← hesp]
            rfl
          have hseg0 : seg0 = (segs_to_raveler_segment_map bodies ms cc).getD i [] := by
            rw [List.getD_eq_getElem?_getD, h2, ← heseg]
            rfl
          obtain ⟨hms1, hms2⟩ := hshapes i hp
          rw [hsp0, hseg0] at hfm
          rw [List.mem_filter,
            mem_zip_ravel_plane _ _ (mask_plane_len _ _ hms1)
              (mask_plane_rows _ _ hms1 hms2)] at hfm
          obtain ⟨⟨r, c, hr, hc, hx, hy⟩, hcond⟩ := hfm
          subst hpi
          refine ⟨hp, r, c, hr, hc, hx, hy, ?_⟩
          have hdec := of_decide_eq_true hcond
          simpa using hdec
  · rintro ⟨hp, r, c, hr, hc, hx, hy, hcond⟩
    obtain ⟨hms1, hms2⟩ := hshapes p hp
    refine ⟨p, (segs_to_raveler_sps_out sps ms cc so).getD p [],
      (segs_to_raveler_segment_map bodies ms cc).getD p [], bodies.getD p [], ?_, ?_⟩
    · rw [List.mem_enum_iff_getElem?]
      show ((segs_to_raveler_sps_out sps ms cc so).zip
        ((segs_to_raveler_segment_map bodies ms cc).zip bodies))[p]? = _
      rw [getElem?_zip_pair, getD_getElem?_of_lt _ p [] (by omega),
        getElem?_zip_pair, getD_getElem?_of_lt _ p [] (by omega),
        getD_getElem?_of_lt bodies p [] (by omega)]
    · rw [mem_plane_triples]
      refine ⟨rfl, ?_⟩
      rw [List.mem_filter,
        mem_zip_ravel_plane _ _ (mask_plane_len _ _ hms1)
          (mask_plane_rows _ _ hms1 hms2)]
      exact ⟨⟨r, c, hr, hc, hx, hy⟩, decide_eq_true (by simpa using hcond)⟩

/-- C6 confirmed: the fine-to-mid table is built per plane by masking the
mid plane to zero wherever the fine plane is zero, then collecting the
distinct (plane index, fine id, mid id) triples over exactly the voxels
where the fine id is nonzero or the masked mid id is zero, across planes
in order. -/
theorem c6_theorem (sps bodies : Vol) (ms : Nat) (cc : Bool) (so : Option Vol)
    (hsh : SameShape (segs_to_raveler_sps_out sps ms cc so) bodies)
    (p f m : Nat) :
    (p, f, m) ∈ (segs_to_raveler sps bodies ms cc so).2.1 ↔
      p < bodies.length ∧
      ∃ r c, r < ((segs_to_raveler_sps_out sps ms cc so).getD p []).length ∧
        c < (((segs_to_raveler_sps_out sps ms cc so).getD p []).getD r []).length ∧
        pget ((segs_to_raveler_sps_out sps ms cc so).getD p []) r c = f ∧
        pget (mask_plane ((segs_to_raveler_sps_out sps ms cc so).getD p [])
          ((segs_to_raveler_segment_map bodies ms cc).getD p [])) r c = m ∧
        (f ≠ 0 ∨ m = 0) :=
  mem_sp_to_segment sps bodies ms cc so hsh p f m

end Gala

namespace Gala

/-- Witness for C6: the characterization instantiated on the concrete
builder run of the counterexample volumes, at the table entry (0,1,1). -/
theorem c6_witness :
    ((0, 1, 1) ∈ (segs_to_raveler [[[1,1]],[[2,2]]] [[[1,1]],[[0,0]]] 0 false none).2.1 ↔
      0 < ([[[1,1]],[[0,0]]] : Vol).length ∧
      ∃ r c, r < ((segs_to_raveler_sps_out [[[1,1]],[[2,2]]] 0 false none).getD 0 []).length ∧
        c < (((segs_to_raveler_sps_out [[[1,1]],[[2,2]]] 0 false none).getD 0 []).getD r []).length ∧
        pget ((segs_to_raveler_sps_out [[[1,1]],[[2,2]]] 0 false none).getD 0 []) r c = 1 ∧
        pget (mask_plane ((segs_to_raveler_sps_out [[[1,1]],[[2,2]]] 0 false none).getD 0 [])
          ((segs_to_raveler_segment_map [[[1,1]],[[0,0]]] 0 false).getD 0 [])) r c = 1 ∧
        ((1 : Nat) ≠ 0 ∨ (1 : Nat) = 0)) ∧
    (0, 1, 1) ∈ (segs_to_raveler [[[1,1]],[[2,2]]] [[[1,1]],[[0,0]]] 0 false none).2.1 :=
  ⟨c6_theorem [[[1,1]],[[2,2]]] [[[1,1]],[[0,0]]] 0 false none
    (by unfold SameShape; decide) 0 1 1, by decide⟩

end Gala

namespace Gala

/-! ### Closure computation: soundness, fixpoint, completeness -/

theorem contains_iff (l : List (Nat × Nat)) (a : Nat × Nat) :
    l.contains a = true ↔ a ∈ l := by
  simp [List.contains_eq_any_beq, List.any_eq_true]

theorem contains_false_iff (l : List (Nat × Nat)) (a : Nat × Nat) :
    l.contains a = false ↔ a ∉ l := by
  rw [← contains_iff]
  cases l.contains a <;> simp

theorem mem_grow_self (ok : Nat × Nat → Bool) (pos s : List (Nat × Nat))
    (x : Nat × Nat) (hx : x ∈ s) : x ∈ grow ok pos s := by
  unfold grow
  exact List.mem_append_left _ hx

theorem mem_grow_elim (ok : Nat × Nat → Bool) (pos s : List (Nat × Nat))
    (x : Nat × Nat) (hx : x ∈ grow ok pos s) :
    x ∈ s ∨ (x ∈ pos ∧ ok x = true ∧ ∃ w ∈ s, adjacent w x = true) := by
  unfold grow at hx
  rcases List.mem_append.1 hx with h | h
  · exact Or.inl h
  · obtain ⟨hmem, hcond⟩ := List.mem_filter.1 h
    simp only [Bool.and_eq_true] at hcond
    obtain ⟨⟨hnotin, hok⟩, hadj⟩ := hcond
    obtain ⟨w, hw, hwadj⟩ := List.any_eq_true.1 hadj
    exact Or.inr ⟨hmem, hok, w, hw, hwadj⟩

theorem mem_grow_intro (ok : Nat × Nat → Bool) (pos s : List (Nat × Nat))
    (x : Nat × Nat) (hpos : x ∈ pos) (hok : ok x = true)
    (w : Nat × Nat) (hw : w ∈ s) (hadj : adjacent w x = true) :
    x ∈ grow ok pos s := by
  unfold grow
  by_cases hin : x ∈ s
  · exact List.mem_append_left _ hin
  · refine List.mem_append_right _ (List.mem_filter.2 ⟨hpos, ?_⟩)
    simp only [Bool.and_eq_true]
    refine ⟨⟨?_, hok⟩, List.any_eq_true.2 ⟨w, hw, hadj⟩⟩
    rw [(contains_false_iff s x).2 hin]
    rfl

theorem mem_iterate_grow_self (ok : Nat × Nat → Bool) (pos : List (Nat × Nat))
    (k : Nat) (s : List (Nat × Nat)) (x : Nat × Nat) (hx : x ∈ s) :
    x ∈ (grow ok pos)^[k] s := by
  induction k generalizing s with
  | zero => exact hx
  | succ n ih =>
    rw [Function.iterate_succ_apply]
    exact ih _ (mem_grow_self ok pos s x hx)

theorem closure_sound (ok : Nat × Nat → Bool) (pos : List (Nat × Nat))
    (v : Nat × Nat) (k : Nat) (x : Nat × Nat)
    (hx : x ∈ (grow ok pos)^[k] [v]) : Reach ok pos v x := by
  induction k generalizing x with
  | zero =>
    simp only [Function.iterate_zero, id_eq, List.mem_singleton] at hx
    exact hx ▸ Relation.ReflTransGen.refl
  | succ n ih =>
    rw [Function.iterate_succ_apply'] at hx
    rcases mem_grow_elim ok pos _ x hx with h | ⟨hpos, hok, w, hw, hadj⟩
    · exact ih x h
    · exact Relation.ReflTransGen.tail (ih w hw) ⟨hadj, hpos, hok⟩

theorem countP_lt_of_witness {α : Type} (l : List α) (p q : α → Bool)
    (hmono : ∀ a ∈ l, q a = true → p a = true)
    (u : α) (hu : u ∈ l) (hp : p u = true) (hq : q u = false) :
    l.countP q < l.countP p := by
  induction l with
  | nil => simp at hu
  | cons a as ih =>
    rw [List.countP_cons, List.countP_cons]
    rcases List.mem_cons.1 hu with h | h
    · subst h
      have hle : as.countP q ≤ as.countP p :=
        List.countP_mono_left (fun b hb => hmono b (List.mem_cons_of_mem _ hb))
      rw [hp, hq]
      simp only [if_true, Bool.false_eq_true, if_false]
      omega
    · have h1 : as.countP q < as.countP p :=
        ih (fun b hb => hmono b (List.mem_cons_of_mem _ hb)) h
      by_cases hqa : q a = true
      · have hpa := hmono a (List.mem_cons_self _ _) hqa
        rw [hqa, hpa]
        simp only [if_true]
        omega
      · have hqa2 : q a = false := by revert hqa; cases q a <;> simp
        rw [hqa2]
        simp only [Bool.false_eq_true, if_false]
        by_cases hpa : p a = true
        · rw [hpa]
          simp only [if_true]
          omega
        · have hpa2 : p a = false := by revert hpa; cases p a <;> simp
          rw [hpa2]
          simp only [Bool.false_eq_true, if_false]
          omega

/-- A strict growth step removes at least one distinct position from the
missing set. -/
theorem grow_measure (ok : Nat × Nat → Bool) (pos s : List (Nat × Nat))
    (hne : grow ok pos s ≠ s) :
    pos.dedup.countP (fun u => !(grow ok pos s).contains u) <
      pos.dedup.countP (fun u => !s.contains u) := by
  have hsub : ∀ x ∈ s, x ∈ grow ok pos s := mem_grow_self ok pos s
  have hmono : ∀ a ∈ pos.dedup, (!(grow ok pos s).contains a) = true →
      (!s.contains a) = true := by
    intro a _ h
    rw [Bool.not_eq_true'] at h ⊢
    rw [contains_false_iff] at h ⊢
    intro hc
    exact h (hsub a hc)
  have hnew : ∃ u, u ∈ grow ok pos s ∧ u ∉ s ∧ u ∈ pos := by
    have hfe : pos.filter
        (fun u => !s.contains u && ok u && s.any (fun w => adjacent w u)) ≠ [] := by
      intro hemp
      exact hne (by unfold grow; rw [hemp]; simp)
    cases hf : pos.filter
        (fun u => !s.contains u && ok u && s.any (fun w => adjacent w u)) with
    | nil => exact absurd hf hfe
    | cons u rest =>
      have hu : u ∈ pos.filter
          (fun u => !s.contains u && ok u && s.any (fun w => adjacent w u)) := by
        rw [hf]
        exact List.mem_cons_self _ _
      obtain ⟨hmem, hcond⟩ := List.mem_filter.1 hu
      simp only [Bool.and_eq_true] at hcond
      refine ⟨u, by unfold grow; exact List.mem_append_right _ hu, ?_, hmem⟩
      have hcf : s.contains u = false := by
        have h1 := hcond.1.1
        rw [Bool.not_eq_true'] at h1
        exact h1
      exact (contains_false_iff s u).1 hcf
  obtain ⟨u, hu1, hu2, hu3⟩ := hnew
  refine countP_lt_of_witness _ _ _ hmono u (List.mem_dedup.2 hu3) ?_ ?_
  · rw [Bool.not_eq_true', contains_false_iff]
    exact hu2
  · rw [Bool.not_eq_false']
    exact (contains_iff _ _).2 hu1

theorem grow_fix_persists (ok : Nat × Nat → Bool) (pos : List (Nat × Nat))
    (s : List (Nat × Nat)) (hfix : grow ok pos s = s) (j : Nat) :
    (grow ok pos)^[j] s = s := by
  induction j with
  | zero => rfl
  | succ n ih => rw [Function.iterate_succ_apply', ih, hfix]

/-- After enough iterations (bounded by the remaining measure), the
closure computation reaches a fixpoint. -/
theorem iterate_grow_fix (ok : Nat × Nat → Bool) (pos : List (Nat × Nat)) :
    ∀ (n : Nat) (s : List (Nat × Nat)),
      pos.dedup.countP (fun u => !s.contains u) ≤ n →
      grow ok pos ((grow ok pos)^[n] s) = (grow ok pos)^[n] s := by
  intro n
  induction n with
  | zero =>
    intro s hm
    by_cases hfix : grow ok pos s = s
    · simpa using hfix
    · exact absurd (grow_measure ok pos s hfix) (by omega)
  | succ n ih =>
    intro s hm
    by_cases hfix : grow ok pos s = s
    · rw [grow_fix_persists ok pos s hfix ((n : Nat) + 1), hfix]
    · have hlt := grow_measure ok pos s hfix
      rw [Function.iterate_succ_apply]
      exact ih (grow ok pos s) (by omega)

theorem closure_fix (ok : Nat × Nat → Bool) (pos : List (Nat × Nat)) (v : Nat × Nat) :
    grow ok pos (closure ok pos v) = closure ok pos v := by
  unfold closure
  apply iterate_grow_fix
  calc pos.dedup.countP (fun u => !([v] : List (Nat × Nat)).contains u)
      ≤ pos.dedup.length := List.countP_le_length _
    _ ≤ pos.length := List.Sublist.length_le (List.dedup_sublist pos)

theorem closure_complete (ok : Nat × Nat → Bool) (pos : List (Nat × Nat))
    (v x : Nat × Nat) (hx : Reach ok pos v x) : x ∈ closure ok pos v := by
  induction hx with
  | refl =>
    exact mem_iterate_grow_self ok pos _ [v] v (List.mem_singleton.2 rfl)
  | tail hreach hstep ih =>
    obtain ⟨hadj, hpos, hok⟩ := hstep
    rw [← closure_fix ok pos v]
    exact mem_grow_intro ok pos _ _ hpos hok _ ih hadj

theorem mem_closure_iff (ok : Nat × Nat → Bool) (pos : List (Nat × Nat))
    (v x : Nat × Nat) : x ∈ closure ok pos v ↔ Reach ok pos v x :=
  ⟨closure_sound ok pos v pos.length x, closure_complete ok pos v x⟩

end Gala

namespace Gala

/-! ### Reach utilities and distinctness of the computed closures -/

theorem adjacent_symm (u v : Nat × Nat) (h : adjacent u v = true) :
    adjacent v u = true := by
  unfold adjacent at h ⊢
  simp only [Bool.or_eq_true, Bool.and_eq_true, beq_iff_eq] at h ⊢
  omega

theorem reach_endpoint (ok : Nat × Nat → Bool) (pos : List (Nat × Nat))
    (v x : Nat × Nat) (h : Reach ok pos v x) :
    x = v ∨ (x ∈ pos ∧ ok x = true) := by
  induction h with
  | refl => exact Or.inl rfl
  | tail hr hstep ih => exact Or.inr ⟨hstep.2.1, hstep.2.2⟩

theorem reach_symm (ok : Nat × Nat → Bool) (pos : List (Nat × Nat))
    (v x : Nat × Nat) (hv : v ∈ pos) (hokv : ok v = true)
    (h : Reach ok pos v x) : Reach ok pos x v := by
  induction h with
  | refl => exact Relation.ReflTransGen.refl
  | @tail b c hr hstep ih =>
    obtain ⟨hadj, hcpos, hokc⟩ := hstep
    have hb : b ∈ pos ∧ ok b = true := by
      rcases reach_endpoint ok pos v b hr with heq | hgood
      · exact heq ▸ ⟨hv, hokv⟩
      · exact hgood
    exact Relation.ReflTransGen.trans
      (Relation.ReflTransGen.single ⟨adjacent_symm b c hadj, hb.1, hb.2⟩) ih

theorem mem_closure_of_reach_mem (ok : Nat × Nat → Bool) (pos : List (Nat × Nat))
    (v u x : Nat × Nat) (hv : v ∈ pos) (hokv : ok v = true)
    (hu : Reach ok pos v u) :
    (x ∈ closure ok pos u ↔ x ∈ closure ok pos v) := by
  rw [mem_closure_iff, mem_closure_iff]
  constructor
  · intro hx
    exact Relation.ReflTransGen.trans hu hx
  · intro hx
    exact Relation.ReflTransGen.trans (reach_symm ok pos v u hv hokv hu) hx

theorem pairwise_enum_fst_lt {α : Type} (l : List α) :
    l.enum.Pairwise (fun x y => x.1 < y.1) := by
  rw [List.pairwise_iff_getElem]
  intro i j hi hj hij
  rw [List.getElem_enum, List.getElem_enum]
  exact hij

theorem nodup_positions (a : Plane) : (positions a).Nodup := by
  unfold positions
  rw [List.nodup_flatten]
  constructor
  · intro l hl
    obtain ⟨rrow, hrr, hleq⟩ := List.mem_map.1 hl
    rw [← hleq]
    have heq : rrow.2.enum.map (fun cx => (rrow.1, cx.1)) =
        (rrow.2.enum.map Prod.fst).map (fun c => (rrow.1, c)) := by
      rw [List.map_map]
      rfl
    rw [heq]
    refine List.Nodup.map ?_ (List.nodup_enum_map_fst _)
    intro x y hxy
    injection hxy
  · rw [List.pairwise_map]
    refine List.Pairwise.imp ?_ (pairwise_enum_fst_lt a)
    intro x y hlt
    intro z hz1 hz2
    obtain ⟨cx1, hc1, he1⟩ := List.mem_map.1 hz1
    obtain ⟨cx2, hc2, he2⟩ := List.mem_map.1 hz2
    have e1 : z.1 = x.1 := by rw [← he1]
    have e2 : z.1 = y.1 := by rw [← he2]
    omega

theorem nodup_grow (ok : Nat × Nat → Bool) (pos s : List (Nat × Nat))
    (hpos : pos.Nodup) (hs : s.Nodup) : (grow ok pos s).Nodup := by
  unfold grow
  refine List.Nodup.append hs (hpos.filter _) ?_
  intro x hx1 hx2
  obtain ⟨hmem, hcond⟩ := List.mem_filter.1 hx2
  simp only [Bool.and_eq_true] at hcond
  have h1 := hcond.1.1
  rw [Bool.not_eq_true', contains_false_iff] at h1
  exact h1 hx1

theorem nodup_iterate_grow (ok : Nat × Nat → Bool) (pos : List (Nat × Nat))
    (hpos : pos.Nodup) (k : Nat) (s : List (Nat × Nat)) (hs : s.Nodup) :
    ((grow ok pos)^[k] s).Nodup := by
  induction k generalizing s with
  | zero => exact hs
  | succ n ih =>
    rw [Function.iterate_succ_apply]
    exact ih _ (nodup_grow ok pos s hpos hs)

theorem nodup_closure (ok : Nat × Nat → Bool) (pos : List (Nat × Nat))
    (v : Nat × Nat) (hpos : pos.Nodup) : (closure ok pos v).Nodup :=
  nodup_iterate_grow ok pos hpos _ [v] (List.nodup_singleton v)

theorem length_eq_of_nodup_mem_iff {α : Type} [DecidableEq α] (l1 l2 : List α)
    (h1 : l1.Nodup) (h2 : l2.Nodup) (hiff : ∀ x, x ∈ l1 ↔ x ∈ l2) :
    l1.length = l2.length :=
  ((List.perm_ext_iff_of_nodup h1 h2).2 hiff).length_eq

theorem length_le_of_nodup_subset {α : Type} [DecidableEq α] (l1 l2 : List α)
    (h1 : l1.Nodup) (hsub : ∀ x ∈ l1, x ∈ l2) :
    l1.length ≤ l2.length := by
  calc l1.length = l1.toFinset.card := (List.toFinset_card_of_nodup h1).symm
    _ ≤ l2.toFinset.card := by
        apply Finset.card_le_card
        intro x hx
        rw [List.mem_toFinset] at hx ⊢
        exact hsub x hx
    _ ≤ l2.length := List.toFinset_card_le l2

end Gala

namespace Gala

/-! ### Positions depend only on the shape; closures only on the ok pattern -/

theorem positions_blocks (a : Plane) :
    a.enum.map (fun rrow => rrow.2.enum.map (fun cx => (rrow.1, cx.1))) =
      a.enum.map (fun rrow => (List.range rrow.2.length).map (fun c => (rrow.1, c))) := by
  apply List.map_congr_left
  intro rrow _
  have h1 : rrow.2.enum.map (fun cx => (rrow.1, cx.1)) =
      (rrow.2.enum.map Prod.fst).map (fun c => (rrow.1, c)) := by
    rw [List.map_map]
    rfl
  rw [h1, List.enum_map_fst]

theorem positions_eq_of_shape (p1 p2 : Plane) (hlen : p1.length = p2.length)
    (hrows : ∀ r, (p1.getD r []).length = (p2.getD r []).length) :
    positions p1 = positions p2 := by
  unfold positions
  rw [positions_blocks p1, positions_blocks p2]
  congr 1
  apply List.ext_getElem?
  intro r
  rw [List.getElem?_map, List.getElem?_map, List.getElem?_enum, List.getElem?_enum]
  cases h1 : p1[r]? with
  | none =>
    cases h2 : p2[r]? with
    | none => rfl
    | some row2 =>
      have := List.getElem?_eq_none_iff.1 h1
      have := (List.getElem?_eq_some.1 h2).1
      omega
  | some row1 =>
    cases h2 : p2[r]? with
    | none =>
      have := (List.getElem?_eq_some.1 h1).1
      have := List.getElem?_eq_none_iff.1 h2
      omega
    | some row2 =>
      simp only [Option.map_some', Option.some_inj]
      have hl : row1.length = row2.length := by
        have h3 := hrows r
        rw [List.getD_eq_getElem?_getD, List.getD_eq_getElem?_getD, h1, h2] at h3
        exact h3
      rw [hl]

theorem positions_map_rows (f : Nat → Nat) (a : Plane) :
    positions (a.map (List.map f)) = positions a :=
  positions_eq_of_shape _ _ (by simp) (row_length_map_rows f a)

theorem positions_plane_map_idx (g : Nat → Nat → Nat → Nat) (a : Plane) :
    positions (plane_map_idx g a) = positions a :=
  positions_eq_of_shape _ _ (length_plane_map_idx g a) (row_length_plane_map_idx g a)

theorem mem_positions_iff (a : Plane) (x : Nat × Nat) :
    x ∈ positions a ↔ x.1 < a.length ∧ x.2 < (a.getD x.1 []).length := by
  unfold positions
  rw [positions_blocks a, List.mem_flatten]
  constructor
  · rintro ⟨blk, hblk, hmem⟩
    obtain ⟨rrow, hrr, hbeq⟩ := List.mem_map.1 hblk
    rw [← hbeq] at hmem
    obtain ⟨c, hc, hxeq⟩ := List.mem_map.1 hmem
    rw [List.mem_enum_iff_getElem?] at hrr
    have hr : rrow.1 < a.length := (List.getElem?_eq_some.1 hrr).1
    have hrow : a.getD rrow.1 [] = rrow.2 := by
      rw [List.getD_eq_getElem?_getD, hrr]
      rfl
    rw [← hxeq]
    refine ⟨hr, ?_⟩
    rw [hrow]
    exact List.mem_range.1 hc
  · rintro ⟨h1, h2⟩
    refine ⟨(List.range (a.getD x.1 []).length).map (fun c => (x.1, c)), ?_, ?_⟩
    · apply List.mem_map.2
      refine ⟨(x.1, a.getD x.1 []), ?_, rfl⟩
      rw [List.mem_enum_iff_getElem?]
      exact getD_getElem?_of_lt a x.1 [] h1
    · exact List.mem_map.2 ⟨x.2, List.mem_range.2 h2, rfl⟩

theorem beq_congr (a b c d : Nat) (h : (a = b) ↔ (c = d)) : (a == b) = (c == d) := by
  by_cases h2 : c = d
  · have h3 : a = b := h.2 h2
    simp [h2, h3]
  · have h3 : ¬ a = b := fun hab => h2 (h.1 hab)
    simp [h2, h3]

theorem closure_congr_ok (ok ok2 : Nat × Nat → Bool) (pos : List (Nat × Nat))
    (v : Nat × Nat) (h : ∀ u, ok u = ok2 u) :
    closure ok pos v = closure ok2 pos v := by
  have heq : ok = ok2 := funext h
  rw [heq]

theorem plane_map_idx_eq_self (g : Nat → Nat → Nat → Nat) (a : Plane)
    (h : ∀ r c, r < a.length → c < (a.getD r []).length →
      g r c (pget a r c) = pget a r c) :
    plane_map_idx g a = a := by
  apply List.ext_getElem?
  intro r
  unfold plane_map_idx
  rw [List.getElem?_map, List.getElem?_enum]
  cases hr : a[r]? with
  | none => simp
  | some row =>
    simp only [Option.map_some', Option.some_inj]
    apply List.ext_getElem?
    intro c
    rw [List.getElem?_map, List.getElem?_enum]
    cases hc : row[c]? with
    | none => simp
    | some x =>
      simp only [Option.map_some', Option.some_inj]
      have hrlt : r < a.length := (List.getElem?_eq_some.1 hr).1
      have hrow : a.getD r [] = row := by
        rw [List.getD_eq_getElem?_getD, hr]
        rfl
      have hclt : c < (a.getD r []).length := by
        rw [hrow]
        exact (List.getElem?_eq_some.1 hc).1
      have hcell : pget a r c = x := by
        rw [pget_eq_getElem?, hr, Option.getD_some, hc]
        rfl
      show g r c x = x
      rw [← hcell]
      exact h r c hrlt hclt

theorem pget_zero_or_mem_ids (a : Plane) (r c : Nat) :
    pget a r c = 0 ∨ pget a r c ∈ first_appearance a.flatten := by
  by_cases h : pget a r c = 0
  · exact Or.inl h
  · exact Or.inr ((mem_first_appearance _ _).2 ⟨pget_mem_ravel a r c h, h⟩)

/-- Relabeling a plane with `rfo_map` of its own first-appearance list
does not change equal-valued components: the computed closure lists are
identical. -/
theorem comp_of_relabel (a : Plane) (v : Nat × Nat) :
    comp_of (a.map (List.map (rfo_map (first_appearance a.flatten)))) v = comp_of a v := by
  unfold comp_of
  rw [positions_map_rows]
  apply closure_congr_ok
  intro u
  apply beq_congr
  rw [pget_map_rows _ rfl, pget_map_rows _ rfl]
  constructor
  · intro h
    exact rfo_map_inj _ _ _ (pget_zero_or_mem_ids a u.1 u.2)
      (pget_zero_or_mem_ids a v.1 v.2) h
  · intro h
    rw [h]

end Gala

namespace Gala

/-! ### Equal-value components and small-component removal -/

theorem positions_remove_small (a : Plane) (ms : Nat) :
    positions (remove_small_connected_components a ms) = positions a := by
  unfold remove_small_connected_components
  exact positions_plane_map_idx _ a

theorem comp_value_of_mem (a : Plane) (v u : Nat × Nat) (hu : u ∈ comp_of a v) :
    pget a u.1 u.2 = pget a v.1 v.2 := by
  unfold comp_of at hu
  rcases reach_endpoint _ _ _ _ ((mem_closure_iff _ _ _ _).1 hu) with heq | ⟨hpos, hok⟩
  · rw [heq]
  · exact beq_iff_eq.1 hok

theorem comp_of_mem_comm (a : Plane) (v u : Nat × Nat) (hv : v ∈ positions a)
    (hu : u ∈ comp_of a v) : ∀ x, x ∈ comp_of a u ↔ x ∈ comp_of a v := by
  intro x
  have hval : pget a u.1 u.2 = pget a v.1 v.2 := comp_value_of_mem a v u hu
  unfold comp_of
  rw [closure_congr_ok (fun w => pget a w.1 w.2 == pget a u.1 u.2)
    (fun w => pget a w.1 w.2 == pget a v.1 v.2) (positions a) u
    (fun w => by rw [hval])]
  exact mem_closure_of_reach_mem _ _ v u x hv (by simp)
    ((mem_closure_iff _ _ _ _).1 hu)

theorem comp_size_of_mem (a : Plane) (v u : Nat × Nat) (hv : v ∈ positions a)
    (hu : u ∈ comp_of a v) : comp_size a u = comp_size a v := by
  unfold comp_size comp_of
  exact length_eq_of_nodup_mem_iff _ _
    (nodup_closure _ _ _ (nodup_positions a)) (nodup_closure _ _ _ (nodup_positions a))
    (comp_of_mem_comm a v u hv hu)

theorem pget_remove_small_ne_zero_iff (a : Plane) (ms r c : Nat) :
    pget (remove_small_connected_components a ms) r c ≠ 0 ↔
      (pget a r c ≠ 0 ∧ ms ≤ comp_size a (r, c)) := by
  rw [pget_remove_small]
  by_cases h1 : pget a r c = 0
  · simp [h1]
  · by_cases h2 : comp_size a (r, c) < ms
    · rw [if_pos ⟨h1, h2⟩]
      constructor
      · intro h
        exact absurd rfl h
      · rintro ⟨_, hge⟩
        omega
    · rw [if_neg (fun hcon => h2 hcon.2)]
      constructor
      · intro _
        exact ⟨h1, by omega⟩
      · rintro ⟨hne, _⟩
        exact hne

theorem pget_remove_small_survivor (a : Plane) (ms r c : Nat)
    (h : pget (remove_small_connected_components a ms) r c ≠ 0) :
    pget (remove_small_connected_components a ms) r c = pget a r c := by
  rw [pget_remove_small] at h ⊢
  by_cases hcond : pget a r c ≠ 0 ∧ comp_size a (r, c) < ms
  · rw [if_pos hcond] at h
    exact absurd rfl h
  · rw [if_neg hcond]

theorem survivor_comp_value (a : Plane) (ms : Nat) (v : Nat × Nat) (r c : Nat)
    (hv : v ∈ positions a) (hsize : ms ≤ comp_size a v)
    (hu : (r, c) ∈ comp_of a v) :
    pget (remove_small_connected_components a ms) r c = pget a r c := by
  rw [pget_remove_small]
  by_cases h0 : pget a r c = 0
  · rw [if_neg (by simp [h0])]
  · have hsz : comp_size a (r, c) = comp_size a v := comp_size_of_mem a v (r, c) hv hu
    rw [if_neg (by
      push_neg
      intro _
      omega)]

theorem comp_of_remove_small (a : Plane) (ms : Nat) (v : Nat × Nat)
    (hv : v ∈ positions a)
    (hnz : pget (remove_small_connected_components a ms) v.1 v.2 ≠ 0) :
    ∀ x, (x ∈ comp_of (remove_small_connected_components a ms) v ↔ x ∈ comp_of a v) := by
  intro x
  have hchar := (pget_remove_small_ne_zero_iff a ms v.1 v.2).1 hnz
  have hval : pget (remove_small_connected_components a ms) v.1 v.2 = pget a v.1 v.2 :=
    pget_remove_small_survivor a ms v.1 v.2 hnz
  unfold comp_of
  rw [positions_remove_small, mem_closure_iff, mem_closure_iff]
  constructor
  · intro h
    induction h with
    | refl => exact Relation.ReflTransGen.refl
    | @tail b u hr hstep ih =>
      obtain ⟨hadj, hupos, hok⟩ := hstep
      have huval : pget (remove_small_connected_components a ms) u.1 u.2 =
          pget (remove_small_connected_components a ms) v.1 v.2 := beq_iff_eq.1 hok
      have hune : pget (remove_small_connected_components a ms) u.1 u.2 ≠ 0 := by
        rw [huval, hval]
        exact hchar.1
      have huval2 : pget a u.1 u.2 = pget a v.1 v.2 := by
        rw [← pget_remove_small_survivor a ms u.1 u.2 hune, huval, hval]
      exact Relation.ReflTransGen.tail ih ⟨hadj, hupos, beq_iff_eq.2 huval2⟩
  · intro h
    induction h with
    | refl => exact Relation.ReflTransGen.refl
    | @tail b u hr hstep ih =>
      obtain ⟨hadj, hupos, hok⟩ := hstep
      have huval : pget a u.1 u.2 = pget a v.1 v.2 := beq_iff_eq.1 hok
      have humem : u ∈ comp_of a v := by
        unfold comp_of
        rw [mem_closure_iff]
        exact Relation.ReflTransGen.tail hr ⟨hadj, hupos, hok⟩
      have hsurv : pget (remove_small_connected_components a ms) u.1 u.2 =
          pget a u.1 u.2 :=
        survivor_comp_value a ms v u.1 u.2 hv hchar.2 humem
      refine Relation.ReflTransGen.tail ih ⟨hadj, hupos, beq_iff_eq.2 ?_⟩
      rw [hsurv, huval, hval]

theorem comp_size_remove_small (a : Plane) (ms : Nat) (v : Nat × Nat)
    (hv : v ∈ positions a)
    (hnz : pget (remove_small_connected_components a ms) v.1 v.2 ≠ 0) :
    comp_size (remove_small_connected_components a ms) v = comp_size a v := by
  unfold comp_size comp_of
  rw [positions_remove_small]
  refine length_eq_of_nodup_mem_iff _ _
    (nodup_closure _ _ _ (nodup_positions a)) (nodup_closure _ _ _ (nodup_positions a)) ?_
  intro x
  have h := comp_of_remove_small a ms v hv hnz x
  unfold comp_of at h
  rw [positions_remove_small] at h
  exact h

end Gala

namespace Gala

/-! ### Idempotence of the compaction relabeling -/

theorem nodup_first_appearance (l : List Nat) : (first_appearance l).Nodup := by
  suffices h : ∀ acc : List Nat, acc.Nodup →
      (l.foldl (fun acc x => if x ≠ 0 ∧ x ∉ acc then acc ++ [x] else acc) acc).Nodup from
    h [] List.nodup_nil
  induction l with
  | nil => intro acc hacc; exact hacc
  | cons x xs ih =>
    intro acc hacc
    rw [List.foldl_cons]
    by_cases hx : x ≠ 0 ∧ x ∉ acc
    · rw [if_pos hx]
      refine ih _ ?_
      rw [List.nodup_append]
      exact ⟨hacc, List.nodup_singleton x, by
        intro a ha hs
        rw [List.mem_singleton] at hs
        exact hx.2 (hs ▸ ha)⟩
    · rw [if_neg hx]
      exact ih _ hacc

theorem first_appearance_map (l : List Nat) (f : Nat → Nat)
    (hf0 : f 0 = 0) (hfz : ∀ x, f x = 0 → x = 0)
    (hinj : ∀ x y, x ∈ l → y ∈ l → f x = f y → x = y) :
    first_appearance (l.map f) = (first_appearance l).map f := by
  suffices h : ∀ (l2 acc : List Nat), (∀ x ∈ l2, x ∈ l) → (∀ y ∈ acc, y ∈ l) →
      ((l2.map f).foldl (fun acc x => if x ≠ 0 ∧ x ∉ acc then acc ++ [x] else acc)
        (acc.map f)) =
      (l2.foldl (fun acc x => if x ≠ 0 ∧ x ∉ acc then acc ++ [x] else acc) acc).map f by
    have h2 := h l [] (fun x hx => hx) (by simp)
    unfold first_appearance
    simpa using h2
  intro l2
  induction l2 with
  | nil => intro acc _ _; rfl
  | cons x xs ih =>
    intro acc hl2 hacc
    rw [List.map_cons, List.foldl_cons, List.foldl_cons]
    have hxl : x ∈ l := hl2 x (List.mem_cons_self _ _)
    have hcond : (f x ≠ 0 ∧ f x ∉ acc.map f) ↔ (x ≠ 0 ∧ x ∉ acc) := by
      constructor
      · rintro ⟨h1, h2⟩
        refine ⟨fun hx0 => h1 (hx0 ▸ hf0), fun hmem => h2 (List.mem_map.2 ⟨x, hmem, rfl⟩)⟩
      · rintro ⟨h1, h2⟩
        refine ⟨fun hfx => h1 (hfz x hfx), fun hmem => ?_⟩
        obtain ⟨y, hy, hyx⟩ := List.mem_map.1 hmem
        exact h2 ((hinj y x (hacc y hy) hxl hyx) ▸ hy)
    by_cases hx : x ≠ 0 ∧ x ∉ acc
    · rw [if_pos hx, if_pos (hcond.2 hx)]
      rw [show List.map f acc ++ [f x] = List.map f (acc ++ [x]) by
        rw [List.map_append]
        rfl]
      exact ih _ (fun z hz => hl2 z (List.mem_cons_of_mem _ hz))
        (fun y hy => by
          rcases List.mem_append.1 hy with h | h
          · exact hacc y h
          · rw [List.mem_singleton] at h
            exact h ▸ hxl)
    · rw [if_neg hx, if_neg (fun hcon => hx (hcond.1 hcon))]
      exact ih _ (fun z hz => hl2 z (List.mem_cons_of_mem _ hz)) hacc

theorem plane_map_id_of_mem (a : Plane) (f : Nat → Nat)
    (h : ∀ y ∈ a.flatten, f y = y) : a.map (List.map f) = a := by
  have hrow : ∀ row ∈ a, row.map f = row := by
    intro row hrow
    have h2 : ∀ y ∈ row, f y = id y := fun y hy =>
      h y (List.mem_flatten.2 ⟨row, hrow, hy⟩)
    calc row.map f = row.map id := List.map_congr_left h2
      _ = row := List.map_id row
  have h3 : ∀ row ∈ a, List.map f row = id row := fun row hr => hrow row hr
  calc a.map (List.map f) = a.map id := List.map_congr_left h3
    _ = a := List.map_id a

theorem rfo_map_ne_zero (ids : List Nat) (x : Nat) (h : x ≠ 0) :
    rfo_map ids x = ids.indexOf x + 1 := by
  unfold rfo_map
  rw [if_neg h]

theorem relabel_from_one_idem (b : Plane) :
    (relabel_from_one (relabel_from_one b).1).1 = (relabel_from_one b).1 := by
  set ids := first_appearance b.flatten with hids
  have hnodup : ids.Nodup := nodup_first_appearance _
  have hinj : ∀ x y, x ∈ b.flatten → y ∈ b.flatten →
      rfo_map ids x = rfo_map ids y → x = y := by
    intro x y hx hy heq
    have hmx : x = 0 ∨ x ∈ ids := by
      by_cases h : x = 0
      · exact Or.inl h
      · exact Or.inr ((mem_first_appearance _ _).2 ⟨hx, h⟩)
    have hmy : y = 0 ∨ y ∈ ids := by
      by_cases h : y = 0
      · exact Or.inl h
      · exact Or.inr ((mem_first_appearance _ _).2 ⟨hy, h⟩)
    exact rfo_map_inj ids x y hmx hmy heq
  have hq : (relabel_from_one b).1 = b.map (List.map (rfo_map ids)) := rfl
  have hfl : ((relabel_from_one b).1).flatten = b.flatten.map (rfo_map ids) := by
    rw [hq, ← List.map_flatten]
  have hids2 : first_appearance ((relabel_from_one b).1).flatten =
      ids.map (rfo_map ids) := by
    rw [hfl, first_appearance_map b.flatten (rfo_map ids) (rfo_map_zero ids)
      (fun x hx => (rfo_map_eq_zero_iff ids x).1 hx) hinj]
  have hpt : ∀ y ∈ ((relabel_from_one b).1).flatten,
      rfo_map (first_appearance ((relabel_from_one b).1).flatten) y = y := by
    intro y hy
    rw [hfl] at hy
    obtain ⟨x, hx, hxy⟩ := List.mem_map.1 hy
    rw [hids2]
    by_cases hx0 : x = 0
    · rw [← hxy, hx0, rfo_map_zero, rfo_map_zero]
    · have hxi : x ∈ ids := (mem_first_appearance _ _).2 ⟨hx, hx0⟩
      have hidx : ids.indexOf x < ids.length := List.indexOf_lt_length.2 hxi
      have hy1 : y = ids.indexOf x + 1 := by
        rw [← hxy]
        unfold rfo_map
        rw [if_neg hx0]
      have hgx : ids[ids.indexOf x] = x := List.getElem_indexOf hidx
      have hidx2 : ids.indexOf x < (ids.map (rfo_map ids)).length := by
        rw [List.length_map]
        exact hidx
      have hmapel : (ids.map (rfo_map ids))[ids.indexOf x] = y := by
        rw [List.getElem_map, hgx, ← hxy]
      have hnodup2 : (ids.map (rfo_map ids)).Nodup := by
        refine List.Nodup.map_on ?_ hnodup
        intro x1 hx1 x2 hx2 heq
        exact rfo_map_inj ids x1 x2 (Or.inr hx1) (Or.inr hx2) heq
      have hyidx : (ids.map (rfo_map ids)).indexOf y = ids.indexOf x := by
        rw [← hmapel]
        exact List.indexOf_getElem hnodup2 _ _
      rw [rfo_map_ne_zero _ _ (by rw [hy1]; omega), hyidx]
      omega
  show ((relabel_from_one b).1).map
    (List.map (rfo_map (first_appearance ((relabel_from_one b).1).flatten))) = _
  exact plane_map_id_of_mem _ _ hpt

end Gala

namespace Gala

/-! ### Mask components and connected-component labeling -/

theorem positions_cc_raw (a : Plane) : positions (cc_raw a) = positions a := by
  unfold cc_raw
  exact positions_plane_map_idx _ a

theorem contains_congr {l1 l2 : List (Nat × Nat)} (h : ∀ x, x ∈ l1 ↔ x ∈ l2)
    (x : Nat × Nat) : l1.contains x = l2.contains x := by
  by_cases hx : x ∈ l2
  · rw [(contains_iff l1 x).2 ((h x).2 hx), (contains_iff l2 x).2 hx]
  · rw [(contains_false_iff l1 x).2 (fun hc => hx ((h x).1 hc)),
      (contains_false_iff l2 x).2 hx]

theorem pget_cc_raw_pair (a : Plane) (u : Nat × Nat) :
    pget (cc_raw a) u.1 u.2 = if pget a u.1 u.2 = 0 then 0
      else (positions a).findIdx (fun w => (mask_comp a u).contains w) + 1 := by
  obtain ⟨r, c⟩ := u
  exact pget_cc_raw a r c

theorem mask_comp_mem_comm (a : Plane) (v u : Nat × Nat) (hv : v ∈ positions a)
    (hnz : pget a v.1 v.2 ≠ 0) (hu : u ∈ mask_comp a v) :
    ∀ x, x ∈ mask_comp a u ↔ x ∈ mask_comp a v := by
  intro x
  unfold mask_comp
  exact mem_closure_of_reach_mem _ _ v u x hv (by simpa using hnz)
    ((mem_closure_iff _ _ _ _).1 hu)

theorem cc_raw_findIdx_eq (a : Plane) (v u : Nat × Nat) (hv : v ∈ positions a)
    (hnz : pget a v.1 v.2 ≠ 0) (hu : u ∈ mask_comp a v) :
    (positions a).findIdx (fun w => (mask_comp a u).contains w) =
      (positions a).findIdx (fun w => (mask_comp a v).contains w) := by
  congr 1
  funext w
  exact contains_congr (mask_comp_mem_comm a v u hv hnz hu) w

theorem comp_of_cc_raw_eq_mask (b : Plane) (v : Nat × Nat)
    (hv : v ∈ positions b) (hnz : pget b v.1 v.2 ≠ 0) :
    ∀ x, (x ∈ comp_of (cc_raw b) v ↔ x ∈ mask_comp b v) := by
  intro x
  have hcrv : pget (cc_raw b) v.1 v.2 =
      (positions b).findIdx (fun w => (mask_comp b v).contains w) + 1 := by
    rw [pget_cc_raw_pair, if_neg hnz]
  unfold comp_of mask_comp
  rw [positions_cc_raw, mem_closure_iff, mem_closure_iff]
  constructor
  · intro h
    induction h with
    | refl => exact Relation.ReflTransGen.refl
    | @tail b2 u2 hr hstep ih =>
      obtain ⟨hadj, hupos, hok⟩ := hstep
      have hval := beq_iff_eq.1 hok
      have hune : pget b u2.1 u2.2 ≠ 0 := by
        intro h0
        rw [pget_cc_raw_pair, if_pos h0] at hval
        rw [hcrv] at hval
        omega
      exact Relation.ReflTransGen.tail ih ⟨hadj, hupos, by simpa using hune⟩
  · intro h
    induction h with
    | refl => exact Relation.ReflTransGen.refl
    | @tail b2 u2 hr hstep ih =>
      obtain ⟨hadj, hupos, hok⟩ := hstep
      have hune : pget b u2.1 u2.2 ≠ 0 := by simpa using hok
      have humem : u2 ∈ mask_comp b v := by
        unfold mask_comp
        rw [mem_closure_iff]
        exact Relation.ReflTransGen.tail hr ⟨hadj, hupos, hok⟩
      have hcru : pget (cc_raw b) u2.1 u2.2 =
          (positions b).findIdx (fun w => (mask_comp b u2).contains w) + 1 := by
        rw [pget_cc_raw_pair, if_neg hune]
      refine Relation.ReflTransGen.tail ih ⟨hadj, hupos, beq_iff_eq.2 ?_⟩
      rw [hcru, hcrv, cc_raw_findIdx_eq b v u2 hv hnz humem]

theorem comp_size_cc_raw (b : Plane) (v : Nat × Nat)
    (hv : v ∈ positions b) (hnz : pget b v.1 v.2 ≠ 0) :
    comp_size (cc_raw b) v = (mask_comp b v).length := by
  unfold comp_size comp_of
  rw [positions_cc_raw]
  refine length_eq_of_nodup_mem_iff _ _
    (nodup_closure _ _ _ (nodup_positions b)) (nodup_closure _ _ _ (nodup_positions b)) ?_
  intro x
  have h := comp_of_cc_raw_eq_mask b v hv hnz x
  unfold comp_of mask_comp at h
  rw [positions_cc_raw] at h
  exact h

theorem value_comp_subset_mask (b : Plane) (ms : Nat) (v : Nat × Nat)
    (hv : v ∈ positions b)
    (hnz : pget (remove_small_connected_components b ms) v.1 v.2 ≠ 0) :
    ∀ x ∈ comp_of b v, x ∈ mask_comp (remove_small_connected_components b ms) v := by
  intro x hx
  have hchar := (pget_remove_small_ne_zero_iff b ms v.1 v.2).1 hnz
  unfold mask_comp
  rw [positions_remove_small, mem_closure_iff]
  unfold comp_of at hx
  have hr := (mem_closure_iff _ _ _ _).1 hx
  clear hx
  induction hr with
  | refl => exact Relation.ReflTransGen.refl
  | @tail b2 u2 hr2 hstep ih =>
    obtain ⟨hadj, hupos, hok⟩ := hstep
    have hval : pget b u2.1 u2.2 = pget b v.1 v.2 := beq_iff_eq.1 hok
    have humem : u2 ∈ comp_of b v := by
      unfold comp_of
      rw [mem_closure_iff]
      exact Relation.ReflTransGen.tail hr2 ⟨hadj, hupos, hok⟩
    have hsurv : pget (remove_small_connected_components b ms) u2.1 u2.2 =
        pget b u2.1 u2.2 :=
      survivor_comp_value b ms v u2.1 u2.2 hv hchar.2 humem
    have hune : pget (remove_small_connected_components b ms) u2.1 u2.2 ≠ 0 := by
      rw [hsurv, hval]
      exact hchar.1
    exact Relation.ReflTransGen.tail ih ⟨hadj, hupos, by simpa using hune⟩

end Gala

namespace Gala

/-! ### cc_raw depends only on the shape and the zero pattern -/

theorem bne_zero_congr (a b : Nat) (h : a = 0 ↔ b = 0) : (a != 0) = (b != 0) := by
  by_cases h2 : b = 0
  · have h3 : a = 0 := h.2 h2
    rw [h2, h3]
  · have h3 : ¬ a = 0 := fun ha => h2 (h.1 ha)
    have ha : (a != 0) = true := by simpa using h3
    have hb : (b != 0) = true := by simpa using h2
    rw [ha, hb]

theorem mask_comp_congr (p1 p2 : Plane) (hlen : p1.length = p2.length)
    (hrows : ∀ r, (p1.getD r []).length = (p2.getD r []).length)
    (hmask : ∀ r c, pget p1 r c = 0 ↔ pget p2 r c = 0) (u : Nat × Nat) :
    mask_comp p1 u = mask_comp p2 u := by
  unfold mask_comp
  rw [positions_eq_of_shape p1 p2 hlen hrows]
  exact closure_congr_ok _ _ _ u
    (fun w => bne_zero_congr _ _ (hmask w.1 w.2))

theorem cc_raw_eq_of_mask (p1 p2 : Plane) (hlen : p1.length = p2.length)
    (hrows : ∀ r, (p1.getD r []).length = (p2.getD r []).length)
    (hmask : ∀ r c, pget p1 r c = 0 ↔ pget p2 r c = 0) :
    cc_raw p1 = cc_raw p2 := by
  have hpos : positions p1 = positions p2 := positions_eq_of_shape p1 p2 hlen hrows
  have hmc : ∀ u, mask_comp p1 u = mask_comp p2 u :=
    mask_comp_congr p1 p2 hlen hrows hmask
  unfold cc_raw plane_map_idx
  apply List.ext_getElem?
  intro r
  rw [List.getElem?_map, List.getElem?_map, List.getElem?_enum, List.getElem?_enum]
  cases h1 : p1[r]? with
  | none =>
    cases h2 : p2[r]? with
    | none => rfl
    | some row2 =>
      have := List.getElem?_eq_none_iff.1 h1
      have := (List.getElem?_eq_some.1 h2).1
      omega
  | some row1 =>
    cases h2 : p2[r]? with
    | none =>
      have := (List.getElem?_eq_some.1 h1).1
      have := List.getElem?_eq_none_iff.1 h2
      omega
    | some row2 =>
      simp only [Option.map_some', Option.some_inj]
      have hrown : row1.length = row2.length := by
        have h3 := hrows r
        rw [List.getD_eq_getElem?_getD, List.getD_eq_getElem?_getD, h1, h2] at h3
        exact h3
      apply List.ext_getElem?
      intro c
      rw [List.getElem?_map, List.getElem?_map, List.getElem?_enum, List.getElem?_enum]
      cases hc1 : row1[c]? with
      | none =>
        cases hc2 : row2[c]? with
        | none => rfl
        | some x2 =>
          have := List.getElem?_eq_none_iff.1 hc1
          have := (List.getElem?_eq_some.1 hc2).1
          omega
      | some x1 =>
        cases hc2 : row2[c]? with
        | none =>
          have := (List.getElem?_eq_some.1 hc1).1
          have := List.getElem?_eq_none_iff.1 hc2
          omega
        | some x2 =>
          simp only [Option.map_some', Option.some_inj]
          have hx1 : pget p1 r c = x1 := by
            rw [pget_eq_getElem?, h1, Option.getD_some, hc1]
            rfl
          have hx2 : pget p2 r c = x2 := by
            rw [pget_eq_getElem?, h2, Option.getD_some, hc2]
            rfl
          have hiff : x1 = 0 ↔ x2 = 0 := by
            rw [← hx1, ← hx2]
            exact hmask r c
          show (if x1 = 0 then 0
              else (positions p1).findIdx (fun w => (mask_comp p1 (r, c)).contains w) + 1) =
            (if x2 = 0 then 0
              else (positions p2).findIdx (fun w => (mask_comp p2 (r, c)).contains w) + 1)
          by_cases h0 : x1 = 0
          · rw [if_pos h0, if_pos (hiff.1 h0)]
          · rw [if_neg h0, if_neg (fun h2 => h0 (hiff.2 h2)), hpos, hmc (r, c)]

end Gala

namespace Gala

/-! ### Idempotence of the Plane Relabeler with `globally_unique_ids=False` -/

theorem label_fct_false (a : Plane) : label_fct false a = relabel_from_one a := by
  unfold label_fct
  rw [if_neg (by simp)]

theorem label_fct_true (a : Plane) : label_fct true a = relabel_from_one (cc_raw a) := by
  unfold label_fct
  rw [if_pos rfl]
  rfl

theorem length_cc_raw (a : Plane) : (cc_raw a).length = a.length := by
  unfold cc_raw
  exact length_plane_map_idx _ a

theorem row_length_cc_raw (a : Plane) (r : Nat) :
    ((cc_raw a).getD r []).length = (a.getD r []).length := by
  unfold cc_raw
  exact row_length_plane_map_idx _ a r

/-- A plane all of whose nonzero voxels live in components of size at least
`min_size` passes through `remove_small_connected_components` unchanged. -/
theorem remove_small_eq_self_of_large (q : Plane) (ms : Nat)
    (h : ∀ r c, r < q.length → c < (q.getD r []).length →
      pget q r c ≠ 0 → ms ≤ comp_size q (r, c)) :
    remove_small_connected_components q ms = q := by
  unfold remove_small_connected_components
  apply plane_map_idx_eq_self
  intro r c hr hc
  by_cases h0 : pget q r c = 0
  · rw [if_neg (by simp [h0])]
  · have hle := h r c hr hc h0
    rw [if_neg (by
      push_neg
      intro _
      omega)]

/-- Every nonzero voxel of the per-plane relabeling output lives in a
component of size at least `min_size`: the relabeling preserves the
component structure of the already-filtered plane. -/
theorem label_comp_size_large (cc : Bool) (ms : Nat) (pl : Plane) (r c : Nat)
    (h0 : pget (label_fct cc (remove_small_connected_components pl ms)).1 r c ≠ 0)
    (hr : r < pl.length) (hc : c < (pl.getD r []).length) :
    ms ≤ comp_size (label_fct cc (remove_small_connected_components pl ms)).1 (r, c) := by
  have hnzb : pget (remove_small_connected_components pl ms) r c ≠ 0 := by
    intro hz
    exact h0 ((pget_label_fct_eq_zero_iff cc _ r c).2 hz)
  have hchar := (pget_remove_small_ne_zero_iff pl ms r c).1 hnzb
  have hvpl : (r, c) ∈ positions pl := (mem_positions_iff pl (r, c)).2 ⟨hr, hc⟩
  have hvb : (r, c) ∈ positions (remove_small_connected_components pl ms) := by
    rw [positions_remove_small]
    exact hvpl
  cases cc with
  | false =>
    have hq : (label_fct false (remove_small_connected_components pl ms)).1 =
        (remove_small_connected_components pl ms).map
          (List.map (rfo_map (first_appearance
            (remove_small_connected_components pl ms).flatten))) := by
      rw [label_fct_false]
      rfl
    have hsz : comp_size (label_fct false (remove_small_connected_components pl ms)).1 (r, c) =
        comp_size (remove_small_connected_components pl ms) (r, c) := by
      unfold comp_size
      rw [hq, comp_of_relabel _ (r, c)]
    rw [hsz, comp_size_remove_small pl ms (r, c) hvpl hnzb]
    exact hchar.2
  | true =>
    have hq : (label_fct true (remove_small_connected_components pl ms)).1 =
        (cc_raw (remove_small_connected_components pl ms)).map
          (List.map (rfo_map (first_appearance
            (cc_raw (remove_small_connected_components pl ms)).flatten))) := by
      rw [label_fct_true]
      rfl
    have hsz : comp_size (label_fct true (remove_small_connected_components pl ms)).1 (r, c) =
        (mask_comp (remove_small_connected_components pl ms) (r, c)).length := by
      unfold comp_size
      rw [hq, comp_of_relabel _ (r, c)]
      exact comp_size_cc_raw _ (r, c) hvb hnzb
    have hsub : ∀ x ∈ comp_of pl (r, c),
        x ∈ mask_comp (remove_small_connected_components pl ms) (r, c) :=
      value_comp_subset_mask pl ms (r, c) hvpl hnzb
    have hnd : (comp_of pl (r, c)).Nodup :=
      nodup_closure _ _ _ (nodup_positions pl)
    have hlen := length_le_of_nodup_subset _ _ hnd hsub
    rw [hsz]
    calc ms ≤ comp_size pl (r, c) := hchar.2
      _ = (comp_of pl (r, c)).length := rfl
      _ ≤ _ := hlen

theorem remove_small_label_eq (cc : Bool) (ms : Nat) (pl : Plane) :
    remove_small_connected_components
        ((label_fct cc (remove_small_connected_components pl ms)).1) ms =
      (label_fct cc (remove_small_connected_components pl ms)).1 := by
  apply remove_small_eq_self_of_large
  intro r c hr hc h0
  have hr2 : r < pl.length := by
    rw [length_label_fct, length_remove_small] at hr
    exact hr
  have hc2 : c < (pl.getD r []).length := by
    rw [row_length_label_fct, row_length_remove_small] at hc
    exact hc
  exact label_comp_size_large cc ms pl r c h0 hr2 hc2

theorem label_fct_idem (cc : Bool) (ms : Nat) (pl : Plane) :
    (label_fct cc ((label_fct cc (remove_small_connected_components pl ms)).1)).1 =
      (label_fct cc (remove_small_connected_components pl ms)).1 := by
  cases cc with
  | false =>
    simp only [label_fct_false]
    exact relabel_from_one_idem _
  | true =>
    simp only [label_fct_true]
    have hcr : cc_raw ((relabel_from_one
          (cc_raw (remove_small_connected_components pl ms))).1) =
        cc_raw (remove_small_connected_components pl ms) := by
      apply cc_raw_eq_of_mask
      · rw [length_relabel_from_one, length_cc_raw]
      · intro r
        rw [row_length_relabel_from_one, row_length_cc_raw]
      · intro r c
        rw [pget_relabel_from_one, rfo_map_eq_zero_iff, pget_cc_raw_eq_zero_iff]
    rw [hcr]

end Gala

namespace Gala

/-- C8 amended: with `globally_unique_ids=False`, re-running
`serial_section_map` on its own output with the same `min_size` and
`do_connected_components` is a no-op: the per-plane ids are already
compact and every surviving component already has size at least
`min_size`.  With `globally_unique_ids=True` the claim fails: the
broadcast `relabeled_plane + start_id` (imio.py line 643) gives the
ex-background voxels of later planes the plane offset, a second run
counts those voxels as foreground and shifts the offsets, as the
counterexample shows. -/
theorem c8_theorem (nd : Vol) (ms : Nat) (cc : Bool) :
    serial_section_map (serial_section_map nd ms cc false) ms cc false =
      serial_section_map nd ms cc false := by
  have hlen : (serial_section_map nd ms cc false).length = nd.length :=
    length_serial_section_map nd ms cc false
  have hlen2 : (serial_section_map (serial_section_map nd ms cc false) ms cc false).length =
      nd.length := by
    rw [length_serial_section_map, hlen]
  apply List.ext_getElem?
  intro p
  by_cases hp : p < nd.length
  · have hp1 : p < (serial_section_map nd ms cc false).length := by omega
    have hp2 : p < (serial_section_map (serial_section_map nd ms cc false) ms cc
        false).length := by omega
    rw [getD_getElem?_of_lt _ p [] hp2, getD_getElem?_of_lt _ p [] hp1]
    rw [ssm_false_plane (serial_section_map nd ms cc false) ms cc p hp1]
    rw [ssm_plane_label_eq (serial_section_map nd ms cc false) ms cc p hp1]
    rw [ssm_false_plane nd ms cc p hp]
    rw [ssm_plane_label_eq nd ms cc p hp]
    rw [remove_small_label_eq cc ms (nd.getD p [])]
    rw [label_fct_idem cc ms (nd.getD p [])]
  · have h1 : (serial_section_map (serial_section_map nd ms cc false) ms cc
        false)[p]? = none :=
      List.getElem?_eq_none_iff.2 (by omega)
    have h2 : (serial_section_map nd ms cc false)[p]? = none :=
      List.getElem?_eq_none_iff.2 (by omega)
    rw [h1, h2]

end Gala

namespace Gala

/-! ### Utilities for the round-trip development -/

theorem getD_mem {α : Type} (l : List α) (i : Nat) (d : α) (h : i < l.length) :
    l.getD i d ∈ l := by
  rw [List.getD_eq_getElem?_getD]
  cases hg : l[i]? with
  | none => exact absurd (List.getElem?_eq_none_iff.1 hg) (by omega)
  | some x =>
    rw [Option.getD_some]
    obtain ⟨hlt, he⟩ := List.getElem?_eq_some.1 hg
    exact he ▸ List.getElem_mem hlt

theorem remove_small_zero (a : Plane) : remove_small_connected_components a 0 = a := by
  unfold remove_small_connected_components
  apply plane_map_idx_eq_self
  intro r c _ _
  rw [if_neg (by rintro ⟨h1, h2⟩; omega)]

theorem vget_mem_ravel3 (v : Vol) (p r c : Nat) (hp : p < v.length)
    (hr : r < (v.getD p []).length) (hc : c < ((v.getD p []).getD r []).length) :
    vget v p r c ∈ ravel3 v := by
  unfold ravel3
  apply List.mem_flatten.2
  refine ⟨ravel (v.getD p []), ?_, pget_mem_ravel_of_lt _ r c hr hc⟩
  exact List.mem_map.2 ⟨v.getD p [], getD_mem v p [] hp, rfl⟩

theorem all_nonzero_vget (v : Vol) (hnz : all_nonzero v = true) (p r c : Nat)
    (hp : p < v.length) (hr : r < (v.getD p []).length)
    (hc : c < ((v.getD p []).getD r []).length) :
    vget v p r c ≠ 0 := by
  have h := List.all_eq_true.1 hnz _ (vget_mem_ravel3 v p r c hp hr hc)
  simpa using h

theorem mem_ravel3_exists (v : Vol) (x : Nat) (hx : x ∈ ravel3 v) :
    ∃ p r c, p < v.length ∧ r < (v.getD p []).length ∧
      c < ((v.getD p []).getD r []).length ∧ vget v p r c = x := by
  unfold ravel3 at hx
  obtain ⟨blk, hblk, hxblk⟩ := List.mem_flatten.1 hx
  obtain ⟨pl, hpl, hbe⟩ := List.mem_map.1 hblk
  obtain ⟨p, hp⟩ := List.getElem?_of_mem hpl
  rw [← hbe] at hxblk
  obtain ⟨row, hrow, hxrow⟩ := List.mem_flatten.1 hxblk
  obtain ⟨r, hrg⟩ := List.getElem?_of_mem hrow
  obtain ⟨c, hcg⟩ := List.getElem?_of_mem hxrow
  have hplt : p < v.length := (List.getElem?_eq_some.1 hp).1
  have hpd : v.getD p [] = pl := by rw [List.getD_eq_getElem?_getD, hp]; rfl
  have hrlt : r < pl.length := (List.getElem?_eq_some.1 hrg).1
  have hrd : pl.getD r [] = row := by rw [List.getD_eq_getElem?_getD, hrg]; rfl
  have hclt : c < row.length := (List.getElem?_eq_some.1 hcg).1
  have hcd : row.getD c 0 = x := by rw [List.getD_eq_getElem?_getD, hcg]; rfl
  refine ⟨p, r, c, hplt, ?_, ?_, ?_⟩
  · rw [hpd]; exact hrlt
  · rw [hpd, hrd]; exact hclt
  · unfold vget pget
    rw [hpd, hrd, hcd]

theorem nat_contains_iff (l : List Nat) (a : Nat) : l.contains a = true ↔ a ∈ l := by
  simp [List.contains_eq_any_beq, List.any_eq_true]

theorem any_zero_false_of_nonzero (v : Vol) (h : ∀ x ∈ ravel3 v, x ≠ 0) :
    any_zero v = false := by
  unfold any_zero
  cases h2 : (ravel3 v).contains 0 with
  | false => rfl
  | true => exact absurd ((nat_contains_iff _ 0).1 h2) (fun hm => h 0 hm rfl)

theorem hasShape_plane_len (v : Vol) (n R C : Nat) (h : HasShape v n R C) (p : Nat)
    (hp : p < n) : (v.getD p []).length = R := by
  obtain ⟨h1, h2⟩ := h
  exact (h2 _ (getD_mem v p [] (by omega))).1

theorem hasShape_row_len (v : Vol) (n R C : Nat) (h : HasShape v n R C) (p r : Nat)
    (hp : p < n) (hr : r < R) : ((v.getD p []).getD r []).length = C := by
  have hRlen : (v.getD p []).length = R := hasShape_plane_len v n R C h p hp
  obtain ⟨h1, h2⟩ := h
  obtain ⟨_, hrow⟩ := h2 _ (getD_mem v p [] (by omega))
  exact hrow _ (getD_mem _ r [] (by omega))

theorem foldl_min_init (l : List Nat) (b : Nat) : l.foldl Nat.min b ≤ b := by
  induction l generalizing b with
  | nil => exact Nat.le_refl b
  | cons x xs ih =>
    rw [List.foldl_cons]
    exact le_trans (ih _) (Nat.min_le_left b x)

theorem mem_foldl_min_le (l : List Nat) (x : Nat) :
    ∀ b, x ∈ l → l.foldl Nat.min b ≤ x := by
  induction l with
  | nil => intro b h; simp at h
  | cons y ys ih =>
    intro b h
    rw [List.foldl_cons]
    rcases List.mem_cons.1 h with h | h
    · rw [h]
      exact le_trans (foldl_min_init ys _) (Nat.min_le_right b y)
    · exact ih _ h

theorem list_min_zero_of_mem (l : List Nat) (h : (0 : Nat) ∈ l) : list_min l = 0 := by
  cases l with
  | nil => simp at h
  | cons x xs =>
    show xs.foldl Nat.min x = 0
    rcases List.mem_cons.1 h with h0 | h0
    · rw [← h0]
      exact Nat.le_zero.1 (foldl_min_init xs 0)
    · exact Nat.le_zero.1 (mem_foldl_min_le xs 0 x h0)

theorem dict_find_set_eq (d : List (Nat × List Nat)) (z : Nat) (arr : List Nat) :
    dict_find (dict_set d z arr) z = some arr := by
  induction d with
  | nil => simp [dict_set, dict_find]
  | cons pr rest ih =>
    obtain ⟨k, a⟩ := pr
    show dict_find (if k = z then (k, arr) :: rest else (k, a) :: dict_set rest z arr) z =
      some arr
    by_cases hk : k = z
    · rw [if_pos hk]
      show (if k = z then some arr else dict_find rest z) = some arr
      rw [if_pos hk]
    · rw [if_neg hk]
      show (if k = z then some a else dict_find (dict_set rest z arr) z) = some arr
      rw [if_neg hk]
      exact ih

theorem dict_find_set_ne (d : List (Nat × List Nat)) (z z2 : Nat) (arr : List Nat)
    (h : z2 ≠ z) : dict_find (dict_set d z arr) z2 = dict_find d z2 := by
  induction d with
  | nil =>
    show dict_find [(z, arr)] z2 = none
    show (if z = z2 then some arr else dict_find [] z2) = none
    rw [if_neg (fun he => h he.symm)]
    rfl
  | cons pr rest ih =>
    obtain ⟨k, a⟩ := pr
    show dict_find (if k = z then (k, arr) :: rest else (k, a) :: dict_set rest z arr) z2 =
      dict_find ((k, a) :: rest) z2
    by_cases hk : k = z
    · rw [if_pos hk]
      show (if k = z2 then some arr else dict_find rest z2) =
        (if k = z2 then some a else dict_find rest z2)
      rw [if_neg (fun he => h (hk ▸ he).symm), if_neg (fun he => h (hk ▸ he).symm)]
    · rw [if_neg hk]
      show (if k = z2 then some a else dict_find (dict_set rest z arr) z2) =
        (if k = z2 then some a else dict_find rest z2)
      by_cases hkz : k = z2
      · rw [if_pos hkz, if_pos hkz]
      · rw [if_neg hkz, if_neg hkz]
        exact ih

theorem pget_set_corner_ne (pl : Plane) (x r c : Nat) (h : ¬(r = 0 ∧ c = 0)) :
    pget (set_corner pl x) r c = pget pl r c := by
  cases pl with
  | nil => rfl
  | cons row rest =>
    show pget (row.set 0 x :: rest) r c = pget (row :: rest) r c
    cases r with
    | zero =>
      have hc : c ≠ 0 := fun he => h ⟨rfl, he⟩
      rw [pget_cons_zero, pget_cons_zero, List.getD_eq_getElem?_getD,
        List.getD_eq_getElem?_getD, List.getElem?_set_ne (fun he => hc he.symm)]
    | succ r2 =>
      rw [pget_cons_succ, pget_cons_succ]

theorem getD_zipWith_set_corner (out : Vol) (repl : List Nat) (p : Nat)
    (hp : p < out.length) (hlen : repl.length = out.length) :
    (List.zipWith set_corner out repl).getD p [] =
      set_corner (out.getD p []) (repl.getD p 0) := by
  rw [List.getD_eq_getElem?_getD, List.getElem?_zipWith',
    getD_getElem?_of_lt out p [] hp, getD_getElem?_of_lt repl p 0 (by omega)]
  rfl

end Gala

namespace Gala

/-! ### The reader's per-plane dense maps `build_sp2seg` -/

theorem build_sp2seg_eq_foldl (m : Nat) (rows : List (Nat × Nat × Nat)) :
    build_sp2seg m rows = rows.foldl (sp2seg_step m) [] := rfl

theorem sp2seg_fold_invariant (m : Nat) (rows_all : List (Nat × Nat × Nat))
    (huniq : ∀ z s g g2, (z, s, g) ∈ rows_all → (z, s, g2) ∈ rows_all → g = g2)
    (hbound : ∀ z s g, (z, s, g) ∈ rows_all → s ≤ m) :
    ∀ (suf seen : List (Nat × Nat × Nat)) (d : List (Nat × List Nat)),
      (∀ x ∈ seen, x ∈ rows_all) → (∀ x ∈ suf, x ∈ rows_all) →
      (∀ z, dict_find d z ≠ none ↔ z ∈ seen.map (fun x => x.1)) →
      (∀ z arr, dict_find d z = some arr → arr.length = m + 1) →
      (∀ z arr s g, dict_find d z = some arr → (z, s, g) ∈ seen → arr[s]? = some g) →
      (∀ z arr s, dict_find d z = some arr → s ≤ m → (∀ g, (z, s, g) ∉ seen) →
        arr[s]? = some 0) →
      ((∀ z, dict_find (suf.foldl (sp2seg_step m) d) z ≠ none ↔
          z ∈ (seen ++ suf).map (fun x => x.1)) ∧
       (∀ z arr, dict_find (suf.foldl (sp2seg_step m) d) z = some arr →
          arr.length = m + 1) ∧
       (∀ z arr s g, dict_find (suf.foldl (sp2seg_step m) d) z = some arr →
          (z, s, g) ∈ seen ++ suf → arr[s]? = some g) ∧
       (∀ z arr s, dict_find (suf.foldl (sp2seg_step m) d) z = some arr → s ≤ m →
          (∀ g, (z, s, g) ∉ seen ++ suf) → arr[s]? = some 0)) := by
  intro suf
  induction suf with
  | nil =>
    intro seen d hseen _ hK hL hV hZ
    simp only [List.foldl_nil, List.append_nil]
    exact ⟨hK, hL, hV, hZ⟩
  | cons r suf2 ih =>
    intro seen d hseen hsuf hK hL hV hZ
    rw [List.foldl_cons]
    have hr_all : r ∈ rows_all := hsuf r (List.mem_cons_self r suf2)
    obtain ⟨z0, s0, g0⟩ := r
    have hs0m : s0 ≤ m := hbound z0 s0 g0 hr_all
    have harrOld_len :
        ((dict_find d z0).getD (List.replicate (m + 1) 0)).length = m + 1 := by
      cases hdz : dict_find d z0 with
      | none => simp
      | some a =>
        rw [Option.getD_some]
        exact hL z0 a hdz
    have hstep : sp2seg_step m d (z0, s0, g0) =
        dict_set d z0 (((dict_find d z0).getD (List.replicate (m + 1) 0)).set s0 g0) := rfl
    have hd'_eq : dict_find (sp2seg_step m d (z0, s0, g0)) z0 =
        some (((dict_find d z0).getD (List.replicate (m + 1) 0)).set s0 g0) := by
      rw [hstep]
      exact dict_find_set_eq _ _ _
    have hd'_ne : ∀ z, z ≠ z0 →
        dict_find (sp2seg_step m d (z0, s0, g0)) z = dict_find d z := by
      intro z hz
      rw [hstep]
      exact dict_find_set_ne _ _ _ _ hz
    have hseen' : ∀ x ∈ seen ++ [(z0, s0, g0)], x ∈ rows_all := by
      intro x hx
      rcases List.mem_append.1 hx with h | h
      · exact hseen x h
      · rw [List.mem_singleton.1 h]
        exact hr_all
    have hsuf' : ∀ x ∈ suf2, x ∈ rows_all :=
      fun x hx => hsuf x (List.mem_cons_of_mem _ hx)
    have hK' : ∀ z, dict_find (sp2seg_step m d (z0, s0, g0)) z ≠ none ↔
        z ∈ (seen ++ [(z0, s0, g0)]).map (fun x => x.1) := by
      intro z
      rw [List.map_append, List.mem_append]
      by_cases hz : z = z0
      · subst hz
        rw [hd'_eq]
        constructor
        · intro _
          exact Or.inr (by simp)
        · intro _
          exact fun hcon => Option.noConfusion hcon
      · rw [hd'_ne z hz]
        rw [hK z]
        constructor
        · intro h
          exact Or.inl h
        · rintro (h | h)
          · exact h
          · simp at h
            exact absurd h hz
    have hL' : ∀ z arr, dict_find (sp2seg_step m d (z0, s0, g0)) z = some arr →
        arr.length = m + 1 := by
      intro z arr harr
      by_cases hz : z = z0
      · subst hz
        rw [hd'_eq] at harr
        injection harr with he
        rw [← he, List.length_set]
        exact harrOld_len
      · rw [hd'_ne z hz] at harr
        exact hL z arr harr
    have hV' : ∀ z arr s g, dict_find (sp2seg_step m d (z0, s0, g0)) z = some arr →
        (z, s, g) ∈ seen ++ [(z0, s0, g0)] → arr[s]? = some g := by
      intro z arr s g harr hmem
      by_cases hz : z = z0
      · subst hz
        rw [hd'_eq] at harr
        injection harr with he
        rcases List.mem_append.1 hmem with hin | hin
        · have hne0 : dict_find d z ≠ none := (hK z).2
            (List.mem_map.2 ⟨(z, s, g), hin, rfl⟩)
          cases hdz : dict_find d z with
          | none => exact absurd hdz hne0
          | some aOld =>
            rw [← he]
            rw [hdz, Option.getD_some]
            by_cases hs : s = s0
            · subst hs
              have hg : g = g0 := huniq z s g g0 (hseen _ hin) hr_all
              rw [hg]
              exact List.getElem?_set_eq_of_lt g0 (by
                have h9 := hL z aOld hdz
                omega)
            · rw [List.getElem?_set_ne (fun hcon => hs hcon.symm)]
              exact hV z aOld s g hdz hin
        · have hxyz : ((z : Nat), (s : Nat), (g : Nat)) = (z, s0, g0) :=
            List.mem_singleton.1 hin
          injection hxyz with h1 h2
          injection h2 with h2 h3
          subst h2
          subst h3
          rw [← he]
          exact List.getElem?_set_eq_of_lt g (by omega)
      · rw [hd'_ne z hz] at harr
        rcases List.mem_append.1 hmem with hin | hin
        · exact hV z arr s g harr hin
        · have hxyz : ((z : Nat), (s : Nat), (g : Nat)) = (z0, s0, g0) :=
            List.mem_singleton.1 hin
          injection hxyz with h1 _
          exact absurd h1 hz
    have hZ' : ∀ z arr s, dict_find (sp2seg_step m d (z0, s0, g0)) z = some arr →
        s ≤ m → (∀ g, (z, s, g) ∉ seen ++ [(z0, s0, g0)]) → arr[s]? = some 0 := by
      intro z arr s harr hsm hnot
      have hnot_seen : ∀ g, (z, s, g) ∉ seen := by
        intro g hcon
        exact hnot g (List.mem_append_left _ hcon)
      by_cases hz : z = z0
      · subst hz
        rw [hd'_eq] at harr
        injection harr with he
        have hss0 : s ≠ s0 := by
          intro hcon
          subst hcon
          exact hnot g0 (List.mem_append_right _ (by simp))
        cases hdz : dict_find d z with
        | none =>
          rw [hdz] at he
          rw [← he, List.getElem?_set_ne (fun hcon => hss0 hcon.symm), Option.getD_none]
          exact List.getElem?_replicate_of_lt (by omega)
        | some aOld =>
          rw [hdz] at he
          rw [← he, List.getElem?_set_ne (fun hcon => hss0 hcon.symm), Option.getD_some]
          exact hZ z aOld s hdz hsm hnot_seen
      · rw [hd'_ne z hz] at harr
        exact hZ z arr s harr hsm hnot_seen
    have happ : seen ++ (z0, s0, g0) :: suf2 = (seen ++ [(z0, s0, g0)]) ++ suf2 := by
      simp
    rw [happ]
    exact ih (seen ++ [(z0, s0, g0)]) (sp2seg_step m d (z0, s0, g0))
      hseen' hsuf' hK' hL' hV' hZ'

theorem build_sp2seg_spec (m : Nat) (rows : List (Nat × Nat × Nat))
    (huniq : ∀ z s g g2, (z, s, g) ∈ rows → (z, s, g2) ∈ rows → g = g2)
    (hbound : ∀ z s g, (z, s, g) ∈ rows → s ≤ m) :
    (∀ z, dict_find (build_sp2seg m rows) z ≠ none ↔ z ∈ rows.map (fun x => x.1)) ∧
    (∀ z arr, dict_find (build_sp2seg m rows) z = some arr → arr.length = m + 1) ∧
    (∀ z arr s g, dict_find (build_sp2seg m rows) z = some arr → (z, s, g) ∈ rows →
      arr[s]? = some g) ∧
    (∀ z arr s, dict_find (build_sp2seg m rows) z = some arr → s ≤ m →
      (∀ g, (z, s, g) ∉ rows) → arr[s]? = some 0) := by
  rw [build_sp2seg_eq_foldl]
  have h := sp2seg_fold_invariant m rows huniq hbound rows [] []
    (by intro x hx; simp at hx) (fun x hx => hx)
    (by
      intro z
      constructor
      · intro hne
        exact absurd rfl hne
      · intro hz
        simp at hz)
    (by intro z arr h2; exact Option.noConfusion h2)
    (by intro z arr s g h2 _; exact Option.noConfusion h2)
    (by intro z arr s h2 _ _; exact Option.noConfusion h2)
  simpa using h

end Gala

namespace Gala

/-! ### The relabeled volumes on all-nonzero rectangular input -/

theorem ssm_plane_label_zero_false (v : Vol) (p r c : Nat) (hp : p < v.length) :
    pget (ssm_plane_label v 0 false p) r c =
      rfo_map (first_appearance (v.getD p []).flatten) (pget (v.getD p []) r c) := by
  rw [pget_ssm_plane_label v 0 false p r c hp, remove_small_zero, label_fct_false,
    pget_relabel_from_one]

theorem ssm_nonzero_all (v : Vol) (n R C : Nat) (gu : Bool)
    (hsh : HasShape v n R C) (hnz : all_nonzero v = true) :
    ∀ x ∈ ravel3 (serial_section_map v 0 false gu), x ≠ 0 := by
  intro x hx
  obtain ⟨p, r, c, hp, hr, hc, hvx⟩ := mem_ravel3_exists _ x hx
  have hshm : SameShape (serial_section_map v 0 false gu) v :=
    sameShape_serial_section_map v 0 false gu
  have hpv : p < v.length := by
    have h1 := hshm.1
    omega
  have hrv : r < (v.getD p []).length := by
    have h1 := (hshm.2 p hp).1
    omega
  have hcv : c < ((v.getD p []).getD r []).length := by
    have h1 := (hshm.2 p hp).2 r hr
    omega
  rw [← hvx, vget_serial_section_map v 0 false gu p r c hpv hrv hcv]
  have hlabel : pget (ssm_plane_label v 0 false p) r c ≠ 0 := by
    rw [ssm_plane_label_zero_false v p r c hpv]
    intro hcon
    exact all_nonzero_vget v hnz p r c hpv hrv hcv ((rfo_map_eq_zero_iff _ _).1 hcon)
  omega

theorem rssm_map_set_corner (v : Vol) (n R C : Nat) (gu : Bool)
    (hsh : HasShape v n R C) (hnz : all_nonzero v = true) :
    raveler_serial_section_map v 0 false gu =
      (serial_section_map v 0 false gu).map (fun pl => set_corner pl 0) := by
  have hz : any_zero (serial_section_map v 0 false gu) = false :=
    any_zero_false_of_nonzero _ (ssm_nonzero_all v n R C gu hsh hnz)
  rw [show raveler_serial_section_map v 0 false gu =
    (if any_zero (serial_section_map v 0 false gu) = true
     then serial_section_map v 0 false gu
     else (serial_section_map v 0 false gu).map (fun pl => set_corner pl 0)) from rfl, hz]
  simp

theorem rssm_vget_corner (v : Vol) (n R C : Nat) (gu : Bool)
    (hsh : HasShape v n R C) (hnz : all_nonzero v = true)
    (p : Nat) (hp : p < n) (hR : 1 ≤ R) (hC : 1 ≤ C) :
    vget (raveler_serial_section_map v 0 false gu) p 0 0 = 0 := by
  have hpv : p < v.length := by
    have h1 := hsh.1
    omega
  have hshm : SameShape (serial_section_map v 0 false gu) v :=
    sameShape_serial_section_map v 0 false gu
  rw [rssm_map_set_corner v n R C gu hsh hnz]
  unfold vget
  rw [getD_map_plane _ _ p (by rw [length_serial_section_map]; omega)]
  apply pget_set_corner
  · have h1 := (hshm.2 p (by rw [length_serial_section_map]; omega)).1
    have h2 := hasShape_plane_len v n R C hsh p hp
    omega
  · have h1 := (hshm.2 p (by rw [length_serial_section_map]; omega)).1
    have h2 := (hshm.2 p (by rw [length_serial_section_map]; omega)).2 0 (by
      have h3 := hasShape_plane_len v n R C hsh p hp
      omega)
    have h4 := hasShape_row_len v n R C hsh p 0 hp (by omega)
    omega

theorem rssm_vget_noncorner (v : Vol) (n R C : Nat) (gu : Bool)
    (hsh : HasShape v n R C) (hnz : all_nonzero v = true)
    (p r c : Nat) (hp : p < n) (hr : r < R) (hc : c < C) (hnc : ¬(r = 0 ∧ c = 0)) :
    vget (raveler_serial_section_map v 0 false gu) p r c =
      rfo_map (first_appearance (v.getD p []).flatten) (vget v p r c) +
        (ssm_start_ids v 0 false gu).getD p 0 := by
  have hpv : p < v.length := by
    have h1 := hsh.1
    omega
  have hrv : r < (v.getD p []).length := by
    have h1 := hasShape_plane_len v n R C hsh p hp
    omega
  have hcv : c < ((v.getD p []).getD r []).length := by
    have h1 := hasShape_row_len v n R C hsh p r hp hr
    omega
  rw [rssm_map_set_corner v n R C gu hsh hnz]
  unfold vget
  rw [getD_map_plane _ _ p (by rw [length_serial_section_map]; omega)]
  rw [pget_set_corner_ne _ _ _ _ hnc]
  show vget (serial_section_map v 0 false gu) p r c = _
  rw [vget_serial_section_map v 0 false gu p r c hpv hrv hcv,
    ssm_plane_label_zero_false v p r c hpv]

theorem rssm_vget_noncorner_pos (v : Vol) (n R C : Nat) (gu : Bool)
    (hsh : HasShape v n R C) (hnz : all_nonzero v = true)
    (p r c : Nat) (hp : p < n) (hr : r < R) (hc : c < C) (hnc : ¬(r = 0 ∧ c = 0)) :
    1 ≤ rfo_map (first_appearance (v.getD p []).flatten) (vget v p r c) := by
  have hpv : p < v.length := by
    have h1 := hsh.1
    omega
  have hrv : r < (v.getD p []).length := by
    have h1 := hasShape_plane_len v n R C hsh p hp
    omega
  have hcv : c < ((v.getD p []).getD r []).length := by
    have h1 := hasShape_row_len v n R C hsh p r hp hr
    omega
  have h0 : vget v p r c ≠ 0 := all_nonzero_vget v hnz p r c hpv hrv hcv
  have h1 := rfo_map_pos (first_appearance (v.getD p []).flatten) _ h0
  omega

theorem rssm_vget_bounds (v : Vol) (n R C : Nat)
    (hsh : HasShape v n R C) (hnz : all_nonzero v = true)
    (p r c : Nat) (hp : p < n) (hr : r < R) (hc : c < C) (hnc : ¬(r = 0 ∧ c = 0)) :
    (ssm_start_ids v 0 false true).getD p 0 <
        vget (raveler_serial_section_map v 0 false true) p r c ∧
      vget (raveler_serial_section_map v 0 false true) p r c ≤
        (ssm_start_ids v 0 false true).getD p 0 + (ssm_counts v 0 false).getD p 0 := by
  have hpv : p < v.length := by
    have h1 := hsh.1
    omega
  rw [rssm_vget_noncorner v n R C true hsh hnz p r c hp hr hc hnc]
  have hlab : rfo_map (first_appearance (v.getD p []).flatten) (vget v p r c) =
      pget (ssm_plane_label v 0 false p) r c :=
    (ssm_plane_label_zero_false v p r c hpv).symm
  have hpos := rssm_vget_noncorner_pos v n R C true hsh hnz p r c hp hr hc hnc
  have hbd := ssm_plane_label_bounds v 0 false p r c hpv (by
    rw [← hlab]
    omega)
  rw [hlab]
  omega

theorem rssm_true_plane_of_eq (v : Vol) (n R C : Nat)
    (hsh : HasShape v n R C) (hnz : all_nonzero v = true)
    (p q r c r2 c2 : Nat) (hp : p < n) (hq : q < n)
    (hr : r < R) (hc : c < C) (hr2 : r2 < R) (hc2 : c2 < C)
    (hnc1 : ¬(r = 0 ∧ c = 0)) (hnc2 : ¬(r2 = 0 ∧ c2 = 0))
    (heq : vget (raveler_serial_section_map v 0 false true) p r c =
           vget (raveler_serial_section_map v 0 false true) q r2 c2) :
    p = q := by
  have hb1 := rssm_vget_bounds v n R C hsh hnz p r c hp hr hc hnc1
  have hb2 := rssm_vget_bounds v n R C hsh hnz q r2 c2 hq hr2 hc2 hnc2
  by_contra hne
  have hvlen : p < v.length ∧ q < v.length := by
    have h1 := hsh.1
    omega
  rcases Nat.lt_or_ge p q with hlt | hge
  · have hoff := ssm_offset_succ_le v 0 false p q hlt hvlen.2
    omega
  · have hlt2 : q < p := by omega
    have hoff := ssm_offset_succ_le v 0 false q p hlt2 hvlen.1
    omega

end Gala

namespace Gala

/-! ### Injectivity and consistency transfer across the relabelings -/

theorem rfo_plane_inj (v : Vol) (p r c r2 c2 : Nat)
    (heq : rfo_map (first_appearance (v.getD p []).flatten) (vget v p r c) =
           rfo_map (first_appearance (v.getD p []).flatten) (vget v p r2 c2)) :
    vget v p r c = vget v p r2 c2 :=
  rfo_map_inj _ _ _ (pget_zero_or_mem_ids (v.getD p []) r c)
    (pget_zero_or_mem_ids (v.getD p []) r2 c2) heq

theorem hasShape_sameShape (A B : Vol) (n R C : Nat) (h1 : HasShape A n R C)
    (h2 : HasShape B n R C) : SameShape A B := by
  refine ⟨by rw [h1.1, h2.1], fun p hp => ?_⟩
  have hpn : p < n := by
    have h3 := h1.1
    omega
  have hA := hasShape_plane_len A n R C h1 p hpn
  have hB := hasShape_plane_len B n R C h2 p hpn
  refine ⟨by omega, fun r hr => ?_⟩
  have hrR : r < R := by omega
  have hA2 := hasShape_row_len A n R C h1 p r hpn hrR
  have hB2 := hasShape_row_len B n R C h2 p r hpn hrR
  omega

theorem consistent_transfer (sps bodies : Vol) (n R C : Nat)
    (hsh1 : HasShape sps n R C) (hsh2 : HasShape bodies n R C)
    (hcons : sp_body_consistent sps bodies = true)
    (p r c p2 r2 c2 : Nat)
    (hp : p < n) (hr : r < R) (hc : c < C)
    (hp2 : p2 < n) (hr2 : r2 < R) (hc2 : c2 < C)
    (heq : vget sps p r c = vget sps p2 r2 c2) :
    vget bodies p r c = vget bodies p2 r2 c2 := by
  have hzs := hasShape_sameShape sps bodies n R C hsh1 hsh2
  have hmem1 : (vget sps p r c, vget bodies p r c) ∈
      (ravel3 sps).zip (ravel3 bodies) := by
    rw [mem_zip_ravel3 sps bodies hzs.1 (fun q hq => hzs.2 q hq)]
    refine ⟨p, r, c, ?_, ?_, ?_, rfl, rfl⟩
    · have h3 := hsh1.1
      omega
    · rw [hasShape_plane_len sps n R C hsh1 p hp]
      exact hr
    · rw [hasShape_row_len sps n R C hsh1 p r hp hr]
      exact hc
  have hmem2 : (vget sps p2 r2 c2, vget bodies p2 r2 c2) ∈
      (ravel3 sps).zip (ravel3 bodies) := by
    rw [mem_zip_ravel3 sps bodies hzs.1 (fun q hq => hzs.2 q hq)]
    refine ⟨p2, r2, c2, ?_, ?_, ?_, rfl, rfl⟩
    · have h3 := hsh1.1
      omega
    · rw [hasShape_plane_len sps n R C hsh1 p2 hp2]
      exact hr2
    · rw [hasShape_row_len sps n R C hsh1 p2 r2 hp2 hr2]
      exact hc2
  have hall := List.all_eq_true.1 hcons _ hmem1
  have hpair := List.all_eq_true.1 hall _ hmem2
  simp only [Bool.or_eq_true, bne_iff_ne, ne_eq, beq_iff_eq] at hpair
  rcases hpair with h | h
  · exact absurd heq h
  · exact h

theorem pget_mask_plane (sp seg : Plane) (r c : Nat) (hr : r < sp.length)
    (hc : c < (sp.getD r []).length) (hl : sp.length = seg.length)
    (hrow : (sp.getD r []).length = (seg.getD r []).length) :
    pget (mask_plane sp seg) r c =
      if pget sp r c = 0 then 0 else pget seg r c := by
  show (List.getD ((mask_plane sp seg).getD r []) c 0) = _
  rw [mask_plane_getD sp seg r hr hl]
  rw [List.getD_eq_getElem?_getD, List.getElem?_zipWith',
    getD_getElem?_of_lt (sp.getD r []) c 0 hc,
    getD_getElem?_of_lt (seg.getD r []) c 0 (by omega)]
  rfl

end Gala

namespace Gala

/-! ### Shapes and values of the builder's two relabeled volumes -/

theorem rssm_plane_len (v : Vol) (n R C : Nat) (ms : Nat) (cc gu : Bool)
    (hsh : HasShape v n R C) (p : Nat) (hp : p < n) :
    ((raveler_serial_section_map v ms cc gu).getD p []).length = R := by
  have hs := sameShape_raveler_serial_section_map v ms cc gu
  have hpv : p < v.length := by
    have h1 := hsh.1
    omega
  have h2 := (hs.2 p (by rw [hs.1]; omega)).1
  rw [hasShape_plane_len v n R C hsh p hp] at h2
  exact h2

theorem rssm_row_len (v : Vol) (n R C : Nat) (ms : Nat) (cc gu : Bool)
    (hsh : HasShape v n R C) (p r : Nat) (hp : p < n) (hr : r < R) :
    (((raveler_serial_section_map v ms cc gu).getD p []).getD r []).length = C := by
  have hs := sameShape_raveler_serial_section_map v ms cc gu
  have hpv : p < v.length := by
    have h1 := hsh.1
    omega
  have hplen := rssm_plane_len v n R C ms cc gu hsh p hp
  have h2 := (hs.2 p (by rw [hs.1]; omega)).2 r (by omega)
  rw [hasShape_row_len v n R C hsh p r hp hr] at h2
  exact h2

theorem rssm_vget_noncorner_ne_zero (v : Vol) (n R C : Nat) (gu : Bool)
    (hsh : HasShape v n R C) (hnz : all_nonzero v = true)
    (p r c : Nat) (hp : p < n) (hr : r < R) (hc : c < C) (hnc : ¬(r = 0 ∧ c = 0)) :
    vget (raveler_serial_section_map v 0 false gu) p r c ≠ 0 := by
  rw [rssm_vget_noncorner v n R C gu hsh hnz p r c hp hr hc hnc]
  have h1 := rssm_vget_noncorner_pos v n R C gu hsh hnz p r c hp hr hc hnc
  omega

theorem st_mem_iff (sps bodies : Vol) (n R C : Nat)
    (hR : 1 ≤ R) (hC : 1 ≤ C)
    (hsh1 : HasShape sps n R C) (hsh2 : HasShape bodies n R C)
    (hnz1 : all_nonzero sps = true) (hnz2 : all_nonzero bodies = true)
    (z s g : Nat) :
    (z, s, g) ∈ (segs_to_raveler sps bodies 0 false none).2.1 ↔
      (z < n ∧ ((s = 0 ∧ g = 0) ∨
        ∃ r c, r < R ∧ c < C ∧ ¬(r = 0 ∧ c = 0) ∧
          s = vget (raveler_serial_section_map sps 0 false false) z r c ∧
          g = vget (raveler_serial_section_map bodies 0 false true) z r c)) := by
  have hspout : segs_to_raveler_sps_out sps 0 false none =
      raveler_serial_section_map sps 0 false false := rfl
  have hsegmap : segs_to_raveler_segment_map bodies 0 false =
      raveler_serial_section_map bodies 0 false true := rfl
  have hshSP : SameShape (segs_to_raveler_sps_out sps 0 false none) sps := by
    rw [hspout]
    exact sameShape_raveler_serial_section_map sps 0 false false
  have hshSPb : SameShape (segs_to_raveler_sps_out sps 0 false none) bodies :=
    sameShape_trans hshSP (hasShape_sameShape sps bodies n R C hsh1 hsh2)
  rw [mem_sp_to_segment sps bodies 0 false none hshSPb z s g]
  have hblen : bodies.length = n := hsh2.1
  have hSPplane : ∀ p, p < n →
      ((segs_to_raveler_sps_out sps 0 false none).getD p []).length = R := by
    intro p hp
    rw [hspout]
    exact rssm_plane_len sps n R C 0 false false hsh1 p hp
  have hSProw : ∀ p r, p < n → r < R →
      (((segs_to_raveler_sps_out sps 0 false none).getD p []).getD r []).length = C := by
    intro p r hp hr
    rw [hspout]
    exact rssm_row_len sps n R C 0 false false hsh1 p r hp hr
  have hSGplane : ∀ p, p < n →
      ((segs_to_raveler_segment_map bodies 0 false).getD p []).length = R := by
    intro p hp
    rw [hsegmap]
    exact rssm_plane_len bodies n R C 0 false true hsh2 p hp
  have hSGrow : ∀ p r, p < n → r < R →
      (((segs_to_raveler_segment_map bodies 0 false).getD p []).getD r []).length = C := by
    intro p r hp hr
    rw [hsegmap]
    exact rssm_row_len bodies n R C 0 false true hsh2 p r hp hr
  constructor
  · rintro ⟨hz0, r, c, hrlen, hclen, hpgets, hpgetm, hvalid⟩
    have hz : z < n := by omega
    have hrR : r < R := by
      have h1 := hSPplane z hz
      omega
    have hcC : c < C := by
      have h1 := hSProw z r hz hrR
      omega
    have hmaskval : pget (mask_plane ((segs_to_raveler_sps_out sps 0 false none).getD z [])
        ((segs_to_raveler_segment_map bodies 0 false).getD z [])) r c =
        if pget ((segs_to_raveler_sps_out sps 0 false none).getD z []) r c = 0 then 0
        else pget ((segs_to_raveler_segment_map bodies 0 false).getD z []) r c := by
      apply pget_mask_plane
      · exact hrlen
      · exact hclen
      · rw [hSPplane z hz, hSGplane z hz]
      · rw [hSProw z r hz hrR, hSGrow z r hz hrR]
    refine ⟨hz, ?_⟩
    by_cases hcorner : r = 0 ∧ c = 0
    · left
      obtain ⟨hr0, hc0⟩ := hcorner
      subst hr0
      subst hc0
      have hsp0 : pget ((segs_to_raveler_sps_out sps 0 false none).getD z []) 0 0 = 0 := by
        show vget (segs_to_raveler_sps_out sps 0 false none) z 0 0 = 0
        rw [hspout]
        exact rssm_vget_corner sps n R C false hsh1 hnz1 z hz hR hC
      rw [hmaskval, if_pos hsp0] at hpgetm
      rw [hsp0] at hpgets
      exact ⟨hpgets.symm, hpgetm.symm⟩
    · right
      have hspne : pget ((segs_to_raveler_sps_out sps 0 false none).getD z []) r c ≠ 0 := by
        show vget (segs_to_raveler_sps_out sps 0 false none) z r c ≠ 0
        rw [hspout]
        exact rssm_vget_noncorner_ne_zero sps n R C false hsh1 hnz1 z r c hz hrR hcC hcorner
      rw [hmaskval, if_neg hspne] at hpgetm
      refine ⟨r, c, hrR, hcC, hcorner, ?_, ?_⟩
      · rw [← hspout]
        exact hpgets.symm
      · rw [← hsegmap]
        exact hpgetm.symm
  · rintro ⟨hz, hcase⟩
    refine ⟨by omega, ?_⟩
    rcases hcase with ⟨hs0, hg0⟩ | ⟨r, c, hrR, hcC, hnc, hs, hg⟩
    · refine ⟨0, 0, ?_, ?_, ?_, ?_⟩
      · rw [hSPplane z hz]
        omega
      · rw [hSProw z 0 hz (by omega)]
        omega
      · show vget (segs_to_raveler_sps_out sps 0 false none) z 0 0 = s
        rw [hspout, rssm_vget_corner sps n R C false hsh1 hnz1 z hz hR hC, hs0]
      · have hsp0 : pget ((segs_to_raveler_sps_out sps 0 false none).getD z []) 0 0 = 0 := by
          show vget (segs_to_raveler_sps_out sps 0 false none) z 0 0 = 0
          rw [hspout]
          exact rssm_vget_corner sps n R C false hsh1 hnz1 z hz hR hC
        constructor
        · rw [pget_mask_plane _ _ 0 0 (by rw [hSPplane z hz]; omega)
            (by rw [hSProw z 0 hz (by omega)]; omega)
            (by rw [hSPplane z hz, hSGplane z hz])
            (by rw [hSProw z 0 hz (by omega), hSGrow z 0 hz (by omega)]),
            if_pos hsp0, hg0]
        · exact Or.inr hg0
    · refine ⟨r, c, ?_, ?_, ?_, ?_⟩
      · rw [hSPplane z hz]
        omega
      · rw [hSProw z r hz hrR]
        omega
      · show vget (segs_to_raveler_sps_out sps 0 false none) z r c = s
        rw [hspout]
        exact hs.symm
      · have hspne : pget ((segs_to_raveler_sps_out sps 0 false none).getD z []) r c ≠ 0 := by
          show vget (segs_to_raveler_sps_out sps 0 false none) z r c ≠ 0
          rw [hspout]
          exact rssm_vget_noncorner_ne_zero sps n R C false hsh1 hnz1 z r c hz hrR hcC hnc
        constructor
        · rw [pget_mask_plane _ _ r c (by rw [hSPplane z hz]; omega)
            (by rw [hSProw z r hz hrR]; omega)
            (by rw [hSPplane z hz, hSGplane z hz])
            (by rw [hSProw z r hz hrR, hSGrow z r hz hrR]),
            if_neg hspne]
          show vget (segs_to_raveler_segment_map bodies 0 false) z r c = g
          rw [hsegmap]
          exact hg.symm
        · left
          rw [hs]
          exact rssm_vget_noncorner_ne_zero sps n R C false hsh1 hnz1 z r c hz hrR hcC hnc

end Gala

namespace Gala

theorem sb_mem_iff (sps bodies : Vol) (n R C : Nat)
    (hsh2 : HasShape bodies n R C) (hnz2 : all_nonzero bodies = true)
    (s b : Nat) :
    (s, b) ∈ (segs_to_raveler sps bodies 0 false none).2.2 ↔
      (s = 0 ∧ b = 0) ∨
      (∃ p r c, p < n ∧ r < R ∧ c < C ∧ ¬(r = 0 ∧ c = 0) ∧
        s = vget (raveler_serial_section_map bodies 0 false true) p r c ∧
        b = vget bodies p r c) := by
  have hsegmap : segs_to_raveler_segment_map bodies 0 false =
      raveler_serial_section_map bodies 0 false true := rfl
  have hshA : SameShape (segs_to_raveler_segment_map bodies 0 false) bodies :=
    sameShape_raveler_serial_section_map bodies 0 false true
  have hmem : (s, b) ∈ (segs_to_raveler sps bodies 0 false none).2.2 ↔
      (s, b) = ((0 : Nat), (0 : Nat)) ∨
      ((s, b) ∈ unique_pairs ((ravel3 (segs_to_raveler_segment_map bodies 0 false)).zip
        (ravel3 bodies)) ∧ s ≠ 0) := by
    show (s, b) ∈ (0, 0) ::
      (unique_pairs ((ravel3 (segs_to_raveler_segment_map bodies 0 false)).zip
        (ravel3 bodies))).filter (fun pr => pr.1 ≠ 0) ↔ _
    rw [List.mem_cons, List.mem_filter]
    simp only [decide_eq_true_eq]
  rw [hmem, mem_unique_pairs, mem_zip_ravel3 _ bodies hshA.1 (fun p hp => hshA.2 p hp)]
  have hAlen : (segs_to_raveler_segment_map bodies 0 false).length = bodies.length := hshA.1
  have hblen : bodies.length = n := hsh2.1
  constructor
  · rintro (heq | ⟨⟨p, r, c, hp, hr, hc, hsA, hbB⟩, hsne⟩)
    · injection heq with e1 e2
      exact Or.inl ⟨e1, e2⟩
    · have hpn : p < n := by omega
      have hrR : r < R := by
        have h1 : ((segs_to_raveler_segment_map bodies 0 false).getD p []).length = R := by
          rw [hsegmap]
          exact rssm_plane_len bodies n R C 0 false true hsh2 p hpn
        omega
      have hcC : c < C := by
        have h1 : (((segs_to_raveler_segment_map bodies 0 false).getD p []).getD r
            []).length = C := by
          rw [hsegmap]
          exact rssm_row_len bodies n R C 0 false true hsh2 p r hpn hrR
        omega
      by_cases hcorner : r = 0 ∧ c = 0
      · obtain ⟨hr0, hc0⟩ := hcorner
        subst hr0
        subst hc0
        have h0 : vget (segs_to_raveler_segment_map bodies 0 false) p 0 0 = 0 := by
          rw [hsegmap]
          exact rssm_vget_corner bodies n R C true hsh2 hnz2 p hpn (by omega) (by omega)
        rw [h0] at hsA
        exact absurd hsA.symm hsne
      · refine Or.inr ⟨p, r, c, hpn, hrR, hcC, hcorner, ?_, hbB.symm⟩
        rw [← hsegmap]
        exact hsA.symm
  · rintro (⟨hs0, hb0⟩ | ⟨p, r, c, hpn, hrR, hcC, hnc, hs, hb⟩)
    · left
      rw [hs0, hb0]
    · refine Or.inr ⟨⟨p, r, c, by omega, ?_, ?_, ?_, hb.symm⟩, ?_⟩
      · rw [show (segs_to_raveler_segment_map bodies 0 false) =
          raveler_serial_section_map bodies 0 false true from rfl,
          rssm_plane_len bodies n R C 0 false true hsh2 p hpn]
        omega
      · rw [show (segs_to_raveler_segment_map bodies 0 false) =
          raveler_serial_section_map bodies 0 false true from rfl,
          rssm_row_len bodies n R C 0 false true hsh2 p r hpn hrR]
        omega
      · rw [← hsegmap] at hs
        exact hs.symm
      · rw [hs]
        exact rssm_vget_noncorner_ne_zero bodies n R C true hsh2 hnz2 p r c hpn hrR hcC hnc

end Gala

namespace Gala

/-! ### Key-functionality of the two tables under the builder precondition -/

theorem st_functional (sps bodies : Vol) (n R C : Nat)
    (hR : 1 ≤ R) (hC : 1 ≤ C)
    (hsh1 : HasShape sps n R C) (hsh2 : HasShape bodies n R C)
    (hnz1 : all_nonzero sps = true) (hnz2 : all_nonzero bodies = true)
    (hcons : sp_body_consistent sps bodies = true) :
    ∀ z s g g2, (z, s, g) ∈ (segs_to_raveler sps bodies 0 false none).2.1 →
      (z, s, g2) ∈ (segs_to_raveler sps bodies 0 false none).2.1 → g = g2 := by
  intro z s g g2 h1 h2
  rw [st_mem_iff sps bodies n R C hR hC hsh1 hsh2 hnz1 hnz2] at h1 h2
  obtain ⟨hz, hc1⟩ := h1
  obtain ⟨_, hc2⟩ := h2
  rcases hc1 with ⟨hs0, hg0⟩ | ⟨r, c, hrR, hcC, hnc, hs, hg⟩
  · rcases hc2 with ⟨_, hg20⟩ | ⟨r2, c2, hrR2, hcC2, hnc2, hs2, hg2⟩
    · rw [hg0, hg20]
    · exfalso
      rw [hs0] at hs2
      exact rssm_vget_noncorner_ne_zero sps n R C false hsh1 hnz1 z r2 c2 hz hrR2 hcC2 hnc2
        hs2.symm
  · rcases hc2 with ⟨hs0, _⟩ | ⟨r2, c2, hrR2, hcC2, hnc2, hs2, hg2⟩
    · exfalso
      rw [hs0] at hs
      exact rssm_vget_noncorner_ne_zero sps n R C false hsh1 hnz1 z r c hz hrR hcC hnc hs.symm
    · have hsp_eq : vget (raveler_serial_section_map sps 0 false false) z r c =
          vget (raveler_serial_section_map sps 0 false false) z r2 c2 := by
        rw [← hs, ← hs2]
      have h1v := rssm_vget_noncorner sps n R C false hsh1 hnz1 z r c hz hrR hcC hnc
      have h2v := rssm_vget_noncorner sps n R C false hsh1 hnz1 z r2 c2 hz hrR2 hcC2 hnc2
      rw [ssm_start_ids_false] at h1v h2v
      have hrfo : rfo_map (first_appearance (sps.getD z []).flatten) (vget sps z r c) =
          rfo_map (first_appearance (sps.getD z []).flatten) (vget sps z r2 c2) := by
        rw [h1v, h2v] at hsp_eq
        omega
      have hspv : vget sps z r c = vget sps z r2 c2 := rfo_plane_inj sps z r c r2 c2 hrfo
      have hbod : vget bodies z r c = vget bodies z r2 c2 :=
        consistent_transfer sps bodies n R C hsh1 hsh2 hcons z r c z r2 c2 hz hrR hcC hz
          hrR2 hcC2 hspv
      have h1g := rssm_vget_noncorner bodies n R C true hsh2 hnz2 z r c hz hrR hcC hnc
      have h2g := rssm_vget_noncorner bodies n R C true hsh2 hnz2 z r2 c2 hz hrR2 hcC2 hnc2
      rw [hg, hg2, h1g, h2g, hbod]

theorem sb_functional (sps bodies : Vol) (n R C : Nat)
    (hsh2 : HasShape bodies n R C) (hnz2 : all_nonzero bodies = true) :
    ∀ s b b2, (s, b) ∈ (segs_to_raveler sps bodies 0 false none).2.2 →
      (s, b2) ∈ (segs_to_raveler sps bodies 0 false none).2.2 → b = b2 := by
  intro s b b2 h1 h2
  rw [sb_mem_iff sps bodies n R C hsh2 hnz2] at h1 h2
  rcases h1 with ⟨hs0, hb0⟩ | ⟨p, r, c, hp, hr, hc, hnc, hsv, hbv⟩
  · rcases h2 with ⟨_, hb20⟩ | ⟨p2, r2, c2, hp2, hr2, hc2, hnc2, hsv2, hbv2⟩
    · rw [hb0, hb20]
    · exfalso
      rw [hs0] at hsv2
      exact rssm_vget_noncorner_ne_zero bodies n R C true hsh2 hnz2 p2 r2 c2 hp2 hr2 hc2
        hnc2 hsv2.symm
  · rcases h2 with ⟨hs0, _⟩ | ⟨p2, r2, c2, hp2, hr2, hc2, hnc2, hsv2, hbv2⟩
    · exfalso
      rw [hs0] at hsv
      exact rssm_vget_noncorner_ne_zero bodies n R C true hsh2 hnz2 p r c hp hr hc hnc
        hsv.symm
    · have hseq : vget (raveler_serial_section_map bodies 0 false true) p r c =
          vget (raveler_serial_section_map bodies 0 false true) p2 r2 c2 := by
        rw [← hsv, ← hsv2]
      have hpp : p = p2 := rssm_true_plane_of_eq bodies n R C hsh2 hnz2 p p2 r c r2 c2
        hp hp2 hr hc hr2 hc2 hnc hnc2 hseq
      rw [← hpp] at hsv2 hbv2 hseq
      have h1v := rssm_vget_noncorner bodies n R C true hsh2 hnz2 p r c hp hr hc hnc
      have h2v := rssm_vget_noncorner bodies n R C true hsh2 hnz2 p r2 c2 hp hr2 hc2 hnc2
      have hrfo : rfo_map (first_appearance (bodies.getD p []).flatten)
          (vget bodies p r c) =
          rfo_map (first_appearance (bodies.getD p []).flatten) (vget bodies p r2 c2) := by
        rw [h1v, h2v] at hseq
        omega
      have hbeq : vget bodies p r c = vget bodies p r2 c2 :=
        rfo_plane_inj bodies p r c r2 c2 hrfo
      rw [hbv, hbv2, hbeq]

end Gala

namespace Gala

/-! ### Reader-side helpers -/

theorem mem_ravel_exists (a : Plane) (x : Nat) (hx : x ∈ a.flatten) :
    ∃ r c, r < a.length ∧ c < (a.getD r []).length ∧ pget a r c = x := by
  obtain ⟨row, hrow, hxrow⟩ := List.mem_flatten.1 hx
  obtain ⟨r, hrg⟩ := List.getElem?_of_mem hrow
  obtain ⟨c, hcg⟩ := List.getElem?_of_mem hxrow
  have hrlt : r < a.length := (List.getElem?_eq_some.1 hrg).1
  have hrd : a.getD r [] = row := by rw [List.getD_eq_getElem?_getD, hrg]; rfl
  have hclt : c < row.length := (List.getElem?_eq_some.1 hcg).1
  have hcd : row.getD c 0 = x := by rw [List.getD_eq_getElem?_getD, hcg]; rfl
  refine ⟨r, c, hrlt, by rw [hrd]; exact hclt, ?_⟩
  unfold pget
  rw [hrd, hcd]

theorem count_zero_rows_zero (q : Plane)
    (hall : ∀ r c, r < q.length → c < (q.getD r []).length → pget q r c ≠ 0) :
    (ravel q).count 0 = 0 := by
  rw [List.count_eq_zero]
  intro hcon
  obtain ⟨r, c, hr, hc, hval⟩ := mem_ravel_exists q 0 hcon
  exact hall r c hr hc hval

theorem count_zero_ravel_one (q : Plane) (hq : q ≠ [])
    (hhead0 : (q.getD 0 []) ≠ [])
    (hcorner : pget q 0 0 = 0)
    (hnc : ∀ r c, r < q.length → c < (q.getD r []).length → ¬(r = 0 ∧ c = 0) →
      pget q r c ≠ 0) :
    (ravel q).count 0 = 1 := by
  cases q with
  | nil => exact absurd rfl hq
  | cons row0 rest =>
    show ((row0 :: rest).flatten).count 0 = 1
    rw [List.flatten_cons, List.count_append]
    have hrest : (rest.flatten).count 0 = 0 := by
      apply count_zero_rows_zero
      intro r c hr hc
      have h2 := hnc (r + 1) c (by simpa using hr) (by simpa using hc) (by simp)
      rw [pget_cons_succ] at h2
      exact h2
    rw [hrest, Nat.add_zero]
    cases row0 with
    | nil => exact absurd rfl hhead0
    | cons x xs =>
      have hx : x = 0 := by
        have h3 := hcorner
        rw [pget_cons_zero] at h3
        exact h3
      subst hx
      have hxs : xs.count 0 = 0 := by
        rw [List.count_eq_zero]
        intro hcon
        obtain ⟨c, hcg⟩ := List.getElem?_of_mem hcon
        have hclt : c < xs.length := (List.getElem?_eq_some.1 hcg).1
        have hval : pget ((0 :: xs) :: rest) 0 (c + 1) = 0 := by
          rw [pget_cons_zero]
          show ((0 : Nat) :: xs).getD (c + 1) 0 = 0
          rw [List.getD_cons_succ, List.getD_eq_getElem?_getD, hcg]
          rfl
        exact hnc 0 (c + 1) (by simp)
          (by simp only [List.getD_cons_zero, List.length_cons]; omega)
          (by simp) hval
      show List.count 0 (0 :: xs) = 1
      rw [List.count_cons, hxs]
      simp

theorem sum_counts_eq_length (v : Vol)
    (hone : ∀ pl ∈ v, (ravel pl).count 0 = 1) :
    (v.map (fun pl => (ravel pl).count 0)).sum = v.length := by
  induction v with
  | nil => rfl
  | cons pl rest ih =>
    rw [List.map_cons, List.sum_cons, List.length_cons,
      hone pl (List.mem_cons_self _ _),
      ih (fun q hq => hone q (List.mem_cons_of_mem _ hq))]
    omega

theorem count_zeros_eq_planes (v : Vol)
    (hone : ∀ pl ∈ v, (ravel pl).count 0 = 1) :
    count_zeros v = v.length := by
  unfold count_zeros ravel3
  rw [List.count_flatten, List.map_map]
  exact sum_counts_eq_length v hone

theorem omap_plane_lookup (pl : Plane) (f : Nat → Option Nat) (g : Nat → Nat)
    (h : ∀ m ∈ pl.flatten, f m = some (g m)) :
    omap pl (fun row => omap row f) = some (pl.map (List.map g)) := by
  apply omap_eq_some_of_forall
  intro row hrow
  exact omap_eq_some_of_forall row f g
    (fun m hm => h m (List.mem_flatten.2 ⟨row, hrow, hm⟩))

theorem rtlv_eq (spmap : Vol) (rows : List (Nat × Nat × Nat)) (prs : List (Nat × Nat))
    (h1 : rows ≠ []) (h2 : prs ≠ []) :
    raveler_to_labeled_volume spmap rows prs =
      (match omap spmap.enum (fun ipl =>
          match dict_find (build_sp2seg (list_max (rows.map (fun r => r.2.1))) rows)
              (list_min (rows.map (fun r => r.1)) + ipl.1) with
          | none => none
          | some arr => omap ipl.2 (fun row => omap row (fun m =>
              match arr.get? m with
              | none => none
              | some s => (scatter (List.replicate (list_max (prs.map (·.1)) + 1) 0)
                  prs).get? s))) with
      | none => none
      | some out =>
        match omap out (fun pl => (pl.get? 0).bind (fun r => r.get? 0)) with
        | none => none
        | some corners =>
          if corners.all (· = 0) then
            if count_zeros out = out.length then
              match omap out (fun pl => (pl.get? 0).bind (fun r => r.get? 1)) with
              | none => none
              | some repl => some (List.zipWith set_corner out repl)
            else some out
          else some out) := by
  cases rows with
  | nil => exact absurd rfl h1
  | cons a as =>
    cases prs with
    | nil => exact absurd rfl h2
    | cons b bs => rfl

end Gala

namespace Gala

/-- The reader's gather phase succeeds plane by plane when every voxel
value has a dense-map entry and the resulting segment has a body entry. -/
theorem reader_gather (spmap : Vol) (rows : List (Nat × Nat × Nat))
    (prs : List (Nat × Nat)) (sk lk : Nat → Nat → Nat)
    (hdict : ∀ p pl, spmap[p]? = some pl →
      ∃ arr, dict_find (build_sp2seg (list_max (rows.map (fun r => r.2.1))) rows)
          (list_min (rows.map (fun r => r.1)) + p) = some arr ∧
        ∀ m ∈ pl.flatten, arr.get? m = some (sk p m) ∧
          (scatter (List.replicate (list_max (prs.map (·.1)) + 1) 0) prs).get? (sk p m) =
            some (lk p m)) :
    omap spmap.enum (fun ipl =>
        match dict_find (build_sp2seg (list_max (rows.map (fun r => r.2.1))) rows)
            (list_min (rows.map (fun r => r.1)) + ipl.1) with
        | none => none
        | some arr => omap ipl.2 (fun row => omap row (fun m =>
            match arr.get? m with
            | none => none
            | some s => (scatter (List.replicate (list_max (prs.map (·.1)) + 1) 0)
                prs).get? s))) =
      some (spmap.enum.map (fun ipl => ipl.2.map (List.map (lk ipl.1)))) := by
  apply omap_eq_some_of_forall
  rintro ⟨p, pl⟩ hmem
  rw [List.mem_enum_iff_getElem?] at hmem
  obtain ⟨arr, harr, hcell⟩ := hdict p pl hmem
  simp only [harr]
  apply omap_plane_lookup
  intro m hm
  obtain ⟨h1, h2⟩ := hcell m hm
  simp only [h1]
  exact h2

end Gala

namespace Gala

/-- Value of the reconstructed volume before corner repair. -/
theorem out_vget (spmap : Vol) (lk : Nat → Nat → Nat) (p r c : Nat)
    (hp : p < spmap.length) (hr : r < (spmap.getD p []).length)
    (hc : c < ((spmap.getD p []).getD r []).length) :
    vget (spmap.enum.map (fun ipl => ipl.2.map (List.map (lk ipl.1)))) p r c =
      lk p (vget spmap p r c) := by
  unfold vget
  have hgetD : (spmap.enum.map (fun ipl => ipl.2.map (List.map (lk ipl.1)))).getD p [] =
      (spmap.getD p []).map (List.map (lk p)) := by
    rw [List.getD_eq_getElem?_getD, List.getElem?_map, List.getElem?_enum]
    cases h : spmap[p]? with
    | none => exact absurd (List.getElem?_eq_none_iff.1 h) (by omega)
    | some pl =>
      show ((pl.map (List.map (lk p))) : Plane) = (spmap.getD p []).map (List.map (lk p))
      rw [List.getD_eq_getElem?_getD, h]
      rfl
  rw [hgetD]
  exact pget_map_rows_in (lk p) _ r c hr hc

/-- The reader succeeds end to end - including the corner-repair branch -
when the dense maps resolve every voxel, the decoded corners are
background, and decoded non-corner voxels are foreground. -/
theorem reader_success (spmap : Vol) (rows : List (Nat × Nat × Nat))
    (prs : List (Nat × Nat)) (sk lk : Nat → Nat → Nat)
    (hrows : rows ≠ []) (hprs : prs ≠ [])
    (hshape : ∀ (p : Nat) (pl : Plane), spmap[p]? = some pl →
      0 < pl.length ∧ 1 < (pl.getD 0 []).length)
    (hcorner : ∀ p pl, spmap[p]? = some pl → lk p (pget pl 0 0) = 0)
    (hnzero : ∀ p pl, spmap[p]? = some pl → ∀ r c, r < pl.length →
      c < (pl.getD r []).length → ¬(r = 0 ∧ c = 0) → lk p (pget pl r c) ≠ 0)
    (hdict : ∀ p pl, spmap[p]? = some pl →
      ∃ arr, dict_find (build_sp2seg (list_max (rows.map (fun r => r.2.1))) rows)
          (list_min (rows.map (fun r => r.1)) + p) = some arr ∧
        ∀ m ∈ pl.flatten, arr.get? m = some (sk p m) ∧
          (scatter (List.replicate (list_max (prs.map (·.1)) + 1) 0) prs).get? (sk p m) =
            some (lk p m)) :
    raveler_to_labeled_volume spmap rows prs =
      some (List.zipWith set_corner
        (spmap.enum.map (fun ipl => ipl.2.map (List.map (lk ipl.1))))
        ((spmap.enum.map (fun ipl => ipl.2.map (List.map (lk ipl.1)))).map
          (fun pl => pget pl 0 1))) := by
  have homap := reader_gather spmap rows prs sk lk hdict
  have hmemOUT : ∀ pl2 ∈ spmap.enum.map (fun ipl => ipl.2.map (List.map (lk ipl.1))),
      ∃ (p : Nat) (pl : Plane), spmap[p]? = some pl ∧ pl2 = pl.map (List.map (lk p)) := by
    intro pl2 hpl2
    obtain ⟨ipl, hipl, hpe⟩ := List.mem_map.1 hpl2
    obtain ⟨p, pl⟩ := ipl
    rw [List.mem_enum_iff_getElem?] at hipl
    exact ⟨p, pl, hipl, hpe.symm⟩
  have hplane_facts : ∀ (p : Nat) (pl : Plane), spmap[p]? = some pl →
      pget (pl.map (List.map (lk p))) 0 0 = 0 ∧
      (pl.map (List.map (lk p))) ≠ [] ∧
      ((pl.map (List.map (lk p))).getD 0 []) ≠ [] ∧
      1 < ((pl.map (List.map (lk p))).getD 0 []).length := by
    intro p pl hp
    obtain ⟨hlen, hrow⟩ := hshape p pl hp
    have hrowlen : ∀ r, ((pl.map (List.map (lk p))).getD r []).length =
        (pl.getD r []).length := row_length_map_rows _ pl
    have hc0 : pget (pl.map (List.map (lk p))) 0 0 = lk p (pget pl 0 0) :=
      pget_map_rows_in _ pl 0 0 hlen (by omega)
    refine ⟨by rw [hc0]; exact hcorner p pl hp, ?_, ?_, ?_⟩
    · intro hcon
      have h2 : (pl.map (List.map (lk p))).length = 0 := by
        rw [hcon]
        rfl
      rw [List.length_map] at h2
      omega
    · intro hcon
      have h2 := hrowlen 0
      rw [hcon] at h2
      have h3 : (pl.getD 0 []).length = 0 := by
        rw [← h2]
        rfl
      omega
    · rw [hrowlen 0]
      exact hrow
  have hcorners : omap (spmap.enum.map (fun ipl => ipl.2.map (List.map (lk ipl.1))))
      (fun pl => (pl.get? 0).bind (fun r => r.get? 0)) =
      some ((spmap.enum.map (fun ipl => ipl.2.map (List.map (lk ipl.1)))).map
        (fun _ => (0 : Nat))) := by
    apply omap_eq_some_of_forall
    intro pl2 hpl2
    obtain ⟨p, pl, hp, hpe⟩ := hmemOUT pl2 hpl2
    obtain ⟨hc00, hne, hrne, hrlen⟩ := hplane_facts p pl hp
    rw [hpe]
    have h1 : (pl.map (List.map (lk p))).get? 0 =
        some ((pl.map (List.map (lk p))).getD 0 []) := by
      rw [List.get?_eq_getElem?]
      exact getD_getElem?_of_lt _ 0 [] (List.length_pos.2 hne)
    rw [h1]
    show ((pl.map (List.map (lk p))).getD 0 []).get? 0 = some 0
    have h2 : ((pl.map (List.map (lk p))).getD 0 []).get? 0 =
        some (((pl.map (List.map (lk p))).getD 0 []).getD 0 0) := by
      rw [List.get?_eq_getElem?]
      exact getD_getElem?_of_lt _ 0 0 (by omega)
    rw [h2]
    show some (pget (pl.map (List.map (lk p))) 0 0) = some 0
    rw [hc00]
  have hallzero : (((spmap.enum.map (fun ipl => ipl.2.map (List.map (lk ipl.1)))).map
      (fun _ => (0 : Nat))).all (· = 0)) = true := by
    rw [List.all_eq_true]
    intro x hx
    obtain ⟨y, hy, hxe⟩ := List.mem_map.1 hx
    rw [← hxe]
    rfl
  have hcount : count_zeros (spmap.enum.map (fun ipl => ipl.2.map (List.map (lk ipl.1)))) =
      (spmap.enum.map (fun ipl => ipl.2.map (List.map (lk ipl.1)))).length := by
    apply count_zeros_eq_planes
    intro pl2 hpl2
    obtain ⟨p, pl, hp, hpe⟩ := hmemOUT pl2 hpl2
    obtain ⟨hc00, hne, hrne, hrlen⟩ := hplane_facts p pl hp
    rw [hpe]
    apply count_zero_ravel_one _ hne hrne hc00
    intro r c hr hc hnc
    have hrlen2 : r < pl.length := by
      have h3 := List.length_map pl (List.map (lk p))
      omega
    have hclen2 : c < (pl.getD r []).length := by
      have h4 := row_length_map_rows (lk p) pl r
      omega
    rw [pget_map_rows_in _ pl r c hrlen2 hclen2]
    exact hnzero p pl hp r c hrlen2 hclen2 hnc
  have hrepl : omap (spmap.enum.map (fun ipl => ipl.2.map (List.map (lk ipl.1))))
      (fun pl => (pl.get? 0).bind (fun r => r.get? 1)) =
      some ((spmap.enum.map (fun ipl => ipl.2.map (List.map (lk ipl.1)))).map
        (fun pl => pget pl 0 1)) := by
    apply omap_eq_some_of_forall
    intro pl2 hpl2
    obtain ⟨p, pl, hp, hpe⟩ := hmemOUT pl2 hpl2
    obtain ⟨hc00, hne, hrne, hrlen⟩ := hplane_facts p pl hp
    have h1 : pl2.get? 0 = some (pl2.getD 0 []) := by
      rw [List.get?_eq_getElem?]
      apply getD_getElem?_of_lt
      rw [hpe]
      exact List.length_pos.2 hne
    rw [h1]
    show (pl2.getD 0 []).get? 1 = some (pget pl2 0 1)
    show (pl2.getD 0 []).get? 1 = some ((pl2.getD 0 []).getD 1 0)
    rw [List.get?_eq_getElem?]
    apply getD_getElem?_of_lt
    rw [hpe]
    omega
  rw [rtlv_eq spmap rows prs hrows hprs]
  simp only [homap]
  simp only [hcorners]
  rw [if_pos hallzero, if_pos hcount]
  simp only [hrepl]

end Gala

namespace Gala

/-- C3 amended: the round trip holds away from the reserved corners under
the builder's documented preconditions.  On rectangular volumes with at
least one plane, at least one row and at least two columns, with every
voxel of both volumes nonzero, with each superpixel id mapping to a
single body id, and with `min_size=0`, `do_connected_components=False`
and no precomputed superpixel map, decoding the builder's triple with
`raveler_to_labeled_volume` succeeds and returns the original body volume
at every voxel other than (row 0, col 0) of each plane.  (Without the
corner restriction the claim fails: on the counterexample's volumes the
reconstruction disagrees with the body volume even at a non-corner voxel,
because background voxels of later planes absorb the plane offset added
at line 643 of imio.py and decode to an earlier plane's body.) -/
theorem c3_theorem (sps bodies : Vol) (n R C : Nat)
    (hn : 1 ≤ n) (hR : 1 ≤ R) (hC : 2 ≤ C)
    (hsh1 : HasShape sps n R C) (hsh2 : HasShape bodies n R C)
    (hnz1 : all_nonzero sps = true) (hnz2 : all_nonzero bodies = true)
    (hcons : sp_body_consistent sps bodies = true) :
    ∃ out : Vol,
      raveler_to_labeled_volume (segs_to_raveler sps bodies 0 false none).1 (segs_to_raveler sps bodies 0 false none).2.1 (segs_to_raveler sps bodies 0 false none).2.2 = some out ∧
      ∀ p r c, p < n → r < R → c < C → ¬(r = 0 ∧ c = 0) →
        vget out p r c = vget bodies p r c := by
  have hC1 : 1 ≤ C := by omega
  have hspv : (segs_to_raveler sps bodies 0 false none).1 = raveler_serial_section_map sps 0 false false := rfl
  have hsplen : ((segs_to_raveler sps bodies 0 false none).1).length = n := by
    rw [hspv]
    have h1 := (sameShape_raveler_serial_section_map sps 0 false false).1
    rw [hsh1.1] at h1
    exact h1
  have hspplane : ∀ p, p < n → (((segs_to_raveler sps bodies 0 false none).1).getD p []).length = R := by
    intro p hp
    rw [hspv]
    exact rssm_plane_len sps n R C 0 false false hsh1 p hp
  have hsprow : ∀ p r, p < n → r < R →
      ((((segs_to_raveler sps bodies 0 false none).1).getD p []).getD r []).length = C := by
    intro p r hp hr
    rw [hspv]
    exact rssm_row_len sps n R C 0 false false hsh1 p r hp hr
  have hcorner_mem : ∀ p, p < n → ((p : Nat), (0 : Nat), (0 : Nat)) ∈ (segs_to_raveler sps bodies 0 false none).2.1 := by
    intro p hp
    rw [st_mem_iff sps bodies n R C hR hC1 hsh1 hsh2 hnz1 hnz2]
    exact ⟨hp, Or.inl ⟨rfl, rfl⟩⟩
  have hST_ne : (segs_to_raveler sps bodies 0 false none).2.1 ≠ [] := by
    intro hcon
    have h0 := hcorner_mem 0 (by omega)
    rw [hcon] at h0
    simp at h0
  have hSB00 : ((0 : Nat), (0 : Nat)) ∈ (segs_to_raveler sps bodies 0 false none).2.2 := by
    rw [sb_mem_iff sps bodies n R C hsh2 hnz2]
    exact Or.inl ⟨rfl, rfl⟩
  have hSB_ne : (segs_to_raveler sps bodies 0 false none).2.2 ≠ [] := by
    intro hcon
    rw [hcon] at hSB00
    simp at hSB00
  have hstart : list_min ((segs_to_raveler sps bodies 0 false none).2.1.map (fun r => r.1)) = 0 :=
    list_min_zero_of_mem _ (List.mem_map.2 ⟨(0, 0, 0), hcorner_mem 0 (by omega), rfl⟩)
  have hhb : ∀ z s g, (z, s, g) ∈ (segs_to_raveler sps bodies 0 false none).2.1 → s ≤ list_max ((segs_to_raveler sps bodies 0 false none).2.1.map (fun r => r.2.1)) :=
    fun z s g h => le_list_max _ _ (List.mem_map.2 ⟨(z, s, g), h, rfl⟩)
  obtain ⟨hK, hL, hV, hZ⟩ := build_sp2seg_spec (list_max ((segs_to_raveler sps bodies 0 false none).2.1.map (fun r => r.2.1))) (segs_to_raveler sps bodies 0 false none).2.1
    (st_functional sps bodies n R C hR hC1 hsh1 hsh2 hnz1 hnz2 hcons) hhb
  have hEElen : (scatter (List.replicate (list_max ((segs_to_raveler sps bodies 0 false none).2.2.map (·.1)) + 1) 0) (segs_to_raveler sps bodies 0 false none).2.2).length = list_max ((segs_to_raveler sps bodies 0 false none).2.2.map (·.1)) + 1 := by
    rw [scatter_length, List.length_replicate]
  have hE0 : (scatter (List.replicate (list_max ((segs_to_raveler sps bodies 0 false none).2.2.map (·.1)) + 1) 0) (segs_to_raveler sps bodies 0 false none).2.2).getD 0 0 = 0 := by
    apply scatter_getD_mem (segs_to_raveler sps bodies 0 false none).2.2 _ 0 0 hSB00
    · intro v2 hv2
      exact sb_functional sps bodies n R C hsh2 hnz2 0 v2 0 hv2 hSB00
    · rw [List.length_replicate]
      omega
  have hST_voxel : ∀ p r c, p < n → r < R → c < C → ¬(r = 0 ∧ c = 0) →
      ((p : Nat), vget (segs_to_raveler sps bodies 0 false none).1 p r c, vget (raveler_serial_section_map bodies 0 false true) p r c) ∈ (segs_to_raveler sps bodies 0 false none).2.1 := by
    intro p r c hp hr hc hnc
    rw [st_mem_iff sps bodies n R C hR hC1 hsh1 hsh2 hnz1 hnz2]
    refine ⟨hp, Or.inr ⟨r, c, hr, hc, hnc, ?_, rfl⟩⟩
    rw [hspv]
  have hSB_voxel : ∀ p r c, p < n → r < R → c < C → ¬(r = 0 ∧ c = 0) →
      (vget (raveler_serial_section_map bodies 0 false true) p r c, vget bodies p r c) ∈ (segs_to_raveler sps bodies 0 false none).2.2 := by
    intro p r c hp hr hc hnc
    rw [sb_mem_iff sps bodies n R C hsh2 hnz2]
    exact Or.inr ⟨p, r, c, hp, hr, hc, hnc, rfl, rfl⟩
  have hEG : ∀ p r c, p < n → r < R → c < C → ¬(r = 0 ∧ c = 0) →
      (scatter (List.replicate (list_max ((segs_to_raveler sps bodies 0 false none).2.2.map (·.1)) + 1) 0) (segs_to_raveler sps bodies 0 false none).2.2).getD (vget (raveler_serial_section_map bodies 0 false true) p r c) 0 = vget bodies p r c ∧
      vget (raveler_serial_section_map bodies 0 false true) p r c < (scatter (List.replicate (list_max ((segs_to_raveler sps bodies 0 false none).2.2.map (·.1)) + 1) 0) (segs_to_raveler sps bodies 0 false none).2.2).length := by
    intro p r c hp hr hc hnc
    have hmem := hSB_voxel p r c hp hr hc hnc
    have hbd : vget (raveler_serial_section_map bodies 0 false true) p r c ≤ list_max ((segs_to_raveler sps bodies 0 false none).2.2.map (·.1)) :=
      le_list_max _ _ (List.mem_map.2 ⟨(vget (raveler_serial_section_map bodies 0 false true) p r c, vget bodies p r c), hmem, rfl⟩)
    refine ⟨?_, by omega⟩
    apply scatter_getD_mem (segs_to_raveler sps bodies 0 false none).2.2 _ _ _ hmem
    · intro v2 hv2
      exact sb_functional sps bodies n R C hsh2 hnz2 _ v2 _ hv2 hmem
    · rw [List.length_replicate]
      omega
  have hdictfull : ∀ p, p < n → ∃ arr, dict_find (build_sp2seg (list_max ((segs_to_raveler sps bodies 0 false none).2.1.map (fun r => r.2.1))) (segs_to_raveler sps bodies 0 false none).2.1) (list_min ((segs_to_raveler sps bodies 0 false none).2.1.map (fun r => r.1)) + p) = some arr ∧
      arr.length = list_max ((segs_to_raveler sps bodies 0 false none).2.1.map (fun r => r.2.1)) + 1 ∧
      arr[(0 : Nat)]? = some 0 ∧
      (∀ r c, r < R → c < C → ¬(r = 0 ∧ c = 0) →
        arr[vget (segs_to_raveler sps bodies 0 false none).1 p r c]? = some (vget (raveler_serial_section_map bodies 0 false true) p r c)) := by
    intro p hp
    have hne := (hK p).2 (List.mem_map.2 ⟨(p, 0, 0), hcorner_mem p hp, rfl⟩)
    cases hdg : dict_find (build_sp2seg (list_max ((segs_to_raveler sps bodies 0 false none).2.1.map (fun r => r.2.1))) (segs_to_raveler sps bodies 0 false none).2.1) p with
    | none => exact absurd hdg hne
    | some arr =>
      refine ⟨arr, by rw [hstart, Nat.zero_add]; exact hdg, hL p arr hdg, ?_, ?_⟩
      · exact hV p arr 0 0 hdg (hcorner_mem p hp)
      · intro r c hr hc hnc
        exact hV p arr _ _ hdg (hST_voxel p r c hp hr hc hnc)
  have hSK0 : ∀ p, p < n → (((dict_find (build_sp2seg (list_max ((segs_to_raveler sps bodies 0 false none).2.1.map (fun r => r.2.1))) (segs_to_raveler sps bodies 0 false none).2.1) (list_min ((segs_to_raveler sps bodies 0 false none).2.1.map (fun r => r.1)) + p)).getD []).getD (0) 0) = 0 ∧ ((scatter (List.replicate (list_max ((segs_to_raveler sps bodies 0 false none).2.2.map (·.1)) + 1) 0) (segs_to_raveler sps bodies 0 false none).2.2).getD (((dict_find (build_sp2seg (list_max ((segs_to_raveler sps bodies 0 false none).2.1.map (fun r => r.2.1))) (segs_to_raveler sps bodies 0 false none).2.1) (list_min ((segs_to_raveler sps bodies 0 false none).2.1.map (fun r => r.1)) + p)).getD []).getD (0) 0) 0) = 0 := by
    intro p hp
    obtain ⟨arr, hdg, hlen, h0, hvx⟩ := hdictfull p hp
    have hsk : (((dict_find (build_sp2seg (list_max ((segs_to_raveler sps bodies 0 false none).2.1.map (fun r => r.2.1))) (segs_to_raveler sps bodies 0 false none).2.1) (list_min ((segs_to_raveler sps bodies 0 false none).2.1.map (fun r => r.1)) + p)).getD []).getD (0) 0) = 0 := by
      rw [hdg]
      show arr.getD 0 0 = 0
      rw [List.getD_eq_getElem?_getD, h0]
      rfl
    refine ⟨hsk, ?_⟩
    rw [hsk]
    exact hE0
  have hSKv : ∀ p r c, p < n → r < R → c < C → ¬(r = 0 ∧ c = 0) →
      (((dict_find (build_sp2seg (list_max ((segs_to_raveler sps bodies 0 false none).2.1.map (fun r => r.2.1))) (segs_to_raveler sps bodies 0 false none).2.1) (list_min ((segs_to_raveler sps bodies 0 false none).2.1.map (fun r => r.1)) + p)).getD []).getD (vget (segs_to_raveler sps bodies 0 false none).1 p r c) 0) = vget (raveler_serial_section_map bodies 0 false true) p r c ∧
      ((scatter (List.replicate (list_max ((segs_to_raveler sps bodies 0 false none).2.2.map (·.1)) + 1) 0) (segs_to_raveler sps bodies 0 false none).2.2).getD (((dict_find (build_sp2seg (list_max ((segs_to_raveler sps bodies 0 false none).2.1.map (fun r => r.2.1))) (segs_to_raveler sps bodies 0 false none).2.1) (list_min ((segs_to_raveler sps bodies 0 false none).2.1.map (fun r => r.1)) + p)).getD []).getD (vget (segs_to_raveler sps bodies 0 false none).1 p r c) 0) 0) = vget bodies p r c := by
    intro p r c hp hr hc hnc
    obtain ⟨arr, hdg, hlen, h0, hvx⟩ := hdictfull p hp
    have hsk : (((dict_find (build_sp2seg (list_max ((segs_to_raveler sps bodies 0 false none).2.1.map (fun r => r.2.1))) (segs_to_raveler sps bodies 0 false none).2.1) (list_min ((segs_to_raveler sps bodies 0 false none).2.1.map (fun r => r.1)) + p)).getD []).getD (vget (segs_to_raveler sps bodies 0 false none).1 p r c) 0) = vget (raveler_serial_section_map bodies 0 false true) p r c := by
      rw [hdg]
      show arr.getD (vget (segs_to_raveler sps bodies 0 false none).1 p r c) 0 = _
      rw [List.getD_eq_getElem?_getD, hvx r c hr hc hnc]
      rfl
    refine ⟨hsk, ?_⟩
    rw [hsk]
    exact (hEG p r c hp hr hc hnc).1
  have hshp : ∀ (p : Nat) (pl : Plane), ((segs_to_raveler sps bodies 0 false none).1)[p]? = some pl →
      0 < pl.length ∧ 1 < (pl.getD 0 []).length := by
    intro p pl hp
    have hpn : p < n := by
      have h1 := (List.getElem?_eq_some.1 hp).1
      omega
    have hpl : pl = ((segs_to_raveler sps bodies 0 false none).1).getD p [] := by
      rw [List.getD_eq_getElem?_getD, hp]
      rfl
    constructor
    · rw [hpl, hspplane p hpn]
      omega
    · rw [hpl, hsprow p 0 hpn (by omega)]
      omega
  have hcor : ∀ (p : Nat) (pl : Plane), ((segs_to_raveler sps bodies 0 false none).1)[p]? = some pl →
      (fun p2 m2 => (scatter (List.replicate (list_max ((segs_to_raveler sps bodies 0 false none).2.2.map (·.1)) + 1) 0) (segs_to_raveler sps bodies 0 false none).2.2).getD (((dict_find (build_sp2seg (list_max ((segs_to_raveler sps bodies 0 false none).2.1.map (fun r => r.2.1))) (segs_to_raveler sps bodies 0 false none).2.1) (list_min ((segs_to_raveler sps bodies 0 false none).2.1.map (fun r => r.1)) + p2)).getD []).getD (m2) 0) 0) p (pget pl 0 0) = 0 := by
    intro p pl hp
    have hpn : p < n := by
      have h1 := (List.getElem?_eq_some.1 hp).1
      omega
    have hpl : pl = ((segs_to_raveler sps bodies 0 false none).1).getD p [] := by
      rw [List.getD_eq_getElem?_getD, hp]
      rfl
    have hc0 : pget pl 0 0 = 0 := by
      rw [hpl]
      show vget (segs_to_raveler sps bodies 0 false none).1 p 0 0 = 0
      rw [hspv]
      exact rssm_vget_corner sps n R C false hsh1 hnz1 p hpn hR hC1
    show ((scatter (List.replicate (list_max ((segs_to_raveler sps bodies 0 false none).2.2.map (·.1)) + 1) 0) (segs_to_raveler sps bodies 0 false none).2.2).getD (((dict_find (build_sp2seg (list_max ((segs_to_raveler sps bodies 0 false none).2.1.map (fun r => r.2.1))) (segs_to_raveler sps bodies 0 false none).2.1) (list_min ((segs_to_raveler sps bodies 0 false none).2.1.map (fun r => r.1)) + p)).getD []).getD (pget pl 0 0) 0) 0) = 0
    rw [hc0]
    exact (hSK0 p hpn).2
  have hnz : ∀ (p : Nat) (pl : Plane), ((segs_to_raveler sps bodies 0 false none).1)[p]? = some pl → ∀ r c, r < pl.length →
      c < (pl.getD r []).length → ¬(r = 0 ∧ c = 0) →
      (fun p2 m2 => (scatter (List.replicate (list_max ((segs_to_raveler sps bodies 0 false none).2.2.map (·.1)) + 1) 0) (segs_to_raveler sps bodies 0 false none).2.2).getD (((dict_find (build_sp2seg (list_max ((segs_to_raveler sps bodies 0 false none).2.1.map (fun r => r.2.1))) (segs_to_raveler sps bodies 0 false none).2.1) (list_min ((segs_to_raveler sps bodies 0 false none).2.1.map (fun r => r.1)) + p2)).getD []).getD (m2) 0) 0) p (pget pl r c) ≠ 0 := by
    intro p pl hp r c hr hc hnc
    have hpn : p < n := by
      have h1 := (List.getElem?_eq_some.1 hp).1
      omega
    have hpl : pl = ((segs_to_raveler sps bodies 0 false none).1).getD p [] := by
      rw [List.getD_eq_getElem?_getD, hp]
      rfl
    have hrR : r < R := by
      rw [hpl] at hr
      have h1 := hspplane p hpn
      omega
    have hcC : c < C := by
      rw [hpl] at hc
      have h1 := hsprow p r hpn hrR
      omega
    have hpv : pget pl r c = vget (segs_to_raveler sps bodies 0 false none).1 p r c := by
      rw [hpl]
      rfl
    show ((scatter (List.replicate (list_max ((segs_to_raveler sps bodies 0 false none).2.2.map (·.1)) + 1) 0) (segs_to_raveler sps bodies 0 false none).2.2).getD (((dict_find (build_sp2seg (list_max ((segs_to_raveler sps bodies 0 false none).2.1.map (fun r => r.2.1))) (segs_to_raveler sps bodies 0 false none).2.1) (list_min ((segs_to_raveler sps bodies 0 false none).2.1.map (fun r => r.1)) + p)).getD []).getD (pget pl r c) 0) 0) ≠ 0
    rw [hpv, (hSKv p r c hpn hrR hcC hnc).2]
    apply all_nonzero_vget bodies hnz2 p r c
    · have h1 := hsh2.1
      omega
    · rw [hasShape_plane_len bodies n R C hsh2 p hpn]
      exact hrR
    · rw [hasShape_row_len bodies n R C hsh2 p r hpn hrR]
      exact hcC
  have hd : ∀ (p : Nat) (pl : Plane), ((segs_to_raveler sps bodies 0 false none).1)[p]? = some pl →
      ∃ arr, dict_find (build_sp2seg (list_max (((segs_to_raveler sps bodies 0 false none).2.1).map (fun r => r.2.1))) (segs_to_raveler sps bodies 0 false none).2.1)
          (list_min (((segs_to_raveler sps bodies 0 false none).2.1).map (fun r => r.1)) + p) = some arr ∧
        ∀ m ∈ pl.flatten, arr.get? m = some ((fun p2 m2 => ((dict_find (build_sp2seg (list_max ((segs_to_raveler sps bodies 0 false none).2.1.map (fun r => r.2.1))) (segs_to_raveler sps bodies 0 false none).2.1) (list_min ((segs_to_raveler sps bodies 0 false none).2.1.map (fun r => r.1)) + p2)).getD []).getD (m2) 0) p m) ∧
          (scatter (List.replicate (list_max (((segs_to_raveler sps bodies 0 false none).2.2).map (·.1)) + 1) 0) (segs_to_raveler sps bodies 0 false none).2.2).get?
            ((fun p2 m2 => ((dict_find (build_sp2seg (list_max ((segs_to_raveler sps bodies 0 false none).2.1.map (fun r => r.2.1))) (segs_to_raveler sps bodies 0 false none).2.1) (list_min ((segs_to_raveler sps bodies 0 false none).2.1.map (fun r => r.1)) + p2)).getD []).getD (m2) 0) p m) = some ((fun p2 m2 => (scatter (List.replicate (list_max ((segs_to_raveler sps bodies 0 false none).2.2.map (·.1)) + 1) 0) (segs_to_raveler sps bodies 0 false none).2.2).getD (((dict_find (build_sp2seg (list_max ((segs_to_raveler sps bodies 0 false none).2.1.map (fun r => r.2.1))) (segs_to_raveler sps bodies 0 false none).2.1) (list_min ((segs_to_raveler sps bodies 0 false none).2.1.map (fun r => r.1)) + p2)).getD []).getD (m2) 0) 0) p m) := by
    intro p pl hp
    have hpn : p < n := by
      have h1 := (List.getElem?_eq_some.1 hp).1
      omega
    have hpl : pl = ((segs_to_raveler sps bodies 0 false none).1).getD p [] := by
      rw [List.getD_eq_getElem?_getD, hp]
      rfl
    obtain ⟨arr, hdg, hlen, h0, hvx⟩ := hdictfull p hpn
    refine ⟨arr, hdg, ?_⟩
    intro m hm
    obtain ⟨r, c, hrl, hcl, hval⟩ := mem_ravel_exists pl m hm
    have hrR : r < R := by
      rw [hpl] at hrl
      have h1 := hspplane p hpn
      omega
    have hcC : c < C := by
      rw [hpl] at hcl
      have h1 := hsprow p r hpn hrR
      omega
    have hmv : vget (segs_to_raveler sps bodies 0 false none).1 p r c = m := by
      rw [← hval, hpl]
      rfl
    by_cases hnc : r = 0 ∧ c = 0
    · have hm0 : m = 0 := by
        rw [← hmv]
        obtain ⟨hr0, hc0⟩ := hnc
        subst hr0
        subst hc0
        rw [hspv]
        exact rssm_vget_corner sps n R C false hsh1 hnz1 p hpn hR hC1
      subst hm0
      constructor
      · show arr.get? 0 = some (((dict_find (build_sp2seg (list_max ((segs_to_raveler sps bodies 0 false none).2.1.map (fun r => r.2.1))) (segs_to_raveler sps bodies 0 false none).2.1) (list_min ((segs_to_raveler sps bodies 0 false none).2.1.map (fun r => r.1)) + p)).getD []).getD (0) 0)
        rw [List.get?_eq_getElem?, h0, (hSK0 p hpn).1]
      · show (scatter (List.replicate (list_max ((segs_to_raveler sps bodies 0 false none).2.2.map (·.1)) + 1) 0) (segs_to_raveler sps bodies 0 false none).2.2).get? (((dict_find (build_sp2seg (list_max ((segs_to_raveler sps bodies 0 false none).2.1.map (fun r => r.2.1))) (segs_to_raveler sps bodies 0 false none).2.1) (list_min ((segs_to_raveler sps bodies 0 false none).2.1.map (fun r => r.1)) + p)).getD []).getD (0) 0) = some ((scatter (List.replicate (list_max ((segs_to_raveler sps bodies 0 false none).2.2.map (·.1)) + 1) 0) (segs_to_raveler sps bodies 0 false none).2.2).getD (((dict_find (build_sp2seg (list_max ((segs_to_raveler sps bodies 0 false none).2.1.map (fun r => r.2.1))) (segs_to_raveler sps bodies 0 false none).2.1) (list_min ((segs_to_raveler sps bodies 0 false none).2.1.map (fun r => r.1)) + p)).getD []).getD (0) 0) 0)
        rw [(hSK0 p hpn).1, List.get?_eq_getElem?,
          getD_getElem?_of_lt (scatter (List.replicate (list_max ((segs_to_raveler sps bodies 0 false none).2.2.map (·.1)) + 1) 0) (segs_to_raveler sps bodies 0 false none).2.2) 0 0 (by omega), hE0]
    · have hskv := hSKv p r c hpn hrR hcC hnc
      constructor
      · show arr.get? m = some (((dict_find (build_sp2seg (list_max ((segs_to_raveler sps bodies 0 false none).2.1.map (fun r => r.2.1))) (segs_to_raveler sps bodies 0 false none).2.1) (list_min ((segs_to_raveler sps bodies 0 false none).2.1.map (fun r => r.1)) + p)).getD []).getD (m) 0)
        rw [List.get?_eq_getElem?, ← hmv, hvx r c hrR hcC hnc, hskv.1]
      · show (scatter (List.replicate (list_max ((segs_to_raveler sps bodies 0 false none).2.2.map (·.1)) + 1) 0) (segs_to_raveler sps bodies 0 false none).2.2).get? (((dict_find (build_sp2seg (list_max ((segs_to_raveler sps bodies 0 false none).2.1.map (fun r => r.2.1))) (segs_to_raveler sps bodies 0 false none).2.1) (list_min ((segs_to_raveler sps bodies 0 false none).2.1.map (fun r => r.1)) + p)).getD []).getD (m) 0) = some ((scatter (List.replicate (list_max ((segs_to_raveler sps bodies 0 false none).2.2.map (·.1)) + 1) 0) (segs_to_raveler sps bodies 0 false none).2.2).getD (((dict_find (build_sp2seg (list_max ((segs_to_raveler sps bodies 0 false none).2.1.map (fun r => r.2.1))) (segs_to_raveler sps bodies 0 false none).2.1) (list_min ((segs_to_raveler sps bodies 0 false none).2.1.map (fun r => r.1)) + p)).getD []).getD (m) 0) 0)
        rw [← hmv, hskv.1, List.get?_eq_getElem?,
          getD_getElem?_of_lt (scatter (List.replicate (list_max ((segs_to_raveler sps bodies 0 false none).2.2.map (·.1)) + 1) 0) (segs_to_raveler sps bodies 0 false none).2.2) _ 0 (hEG p r c hpn hrR hcC hnc).2]
  have hreader := reader_success (segs_to_raveler sps bodies 0 false none).1 (segs_to_raveler sps bodies 0 false none).2.1 (segs_to_raveler sps bodies 0 false none).2.2 (fun p2 m2 => ((dict_find (build_sp2seg (list_max ((segs_to_raveler sps bodies 0 false none).2.1.map (fun r => r.2.1))) (segs_to_raveler sps bodies 0 false none).2.1) (list_min ((segs_to_raveler sps bodies 0 false none).2.1.map (fun r => r.1)) + p2)).getD []).getD (m2) 0) (fun p2 m2 => (scatter (List.replicate (list_max ((segs_to_raveler sps bodies 0 false none).2.2.map (·.1)) + 1) 0) (segs_to_raveler sps bodies 0 false none).2.2).getD (((dict_find (build_sp2seg (list_max ((segs_to_raveler sps bodies 0 false none).2.1.map (fun r => r.2.1))) (segs_to_raveler sps bodies 0 false none).2.1) (list_min ((segs_to_raveler sps bodies 0 false none).2.1.map (fun r => r.1)) + p2)).getD []).getD (m2) 0) 0)
    hST_ne hSB_ne hshp hcor hnz hd
  refine ⟨_, hreader, ?_⟩
  intro p r c hp hr hc hnc
  have hL1 : vget (List.zipWith set_corner
      (((segs_to_raveler sps bodies 0 false none).1).enum.map (fun ipl => ipl.2.map (List.map ((fun p2 m2 => (scatter (List.replicate (list_max ((segs_to_raveler sps bodies 0 false none).2.2.map (·.1)) + 1) 0) (segs_to_raveler sps bodies 0 false none).2.2).getD (((dict_find (build_sp2seg (list_max ((segs_to_raveler sps bodies 0 false none).2.1.map (fun r => r.2.1))) (segs_to_raveler sps bodies 0 false none).2.1) (list_min ((segs_to_raveler sps bodies 0 false none).2.1.map (fun r => r.1)) + p2)).getD []).getD (m2) 0) 0) ipl.1))))
      ((((segs_to_raveler sps bodies 0 false none).1).enum.map (fun ipl => ipl.2.map (List.map ((fun p2 m2 => (scatter (List.replicate (list_max ((segs_to_raveler sps bodies 0 false none).2.2.map (·.1)) + 1) 0) (segs_to_raveler sps bodies 0 false none).2.2).getD (((dict_find (build_sp2seg (list_max ((segs_to_raveler sps bodies 0 false none).2.1.map (fun r => r.2.1))) (segs_to_raveler sps bodies 0 false none).2.1) (list_min ((segs_to_raveler sps bodies 0 false none).2.1.map (fun r => r.1)) + p2)).getD []).getD (m2) 0) 0) ipl.1)))).map
        (fun pl => pget pl 0 1))) p r c =
      vget (((segs_to_raveler sps bodies 0 false none).1).enum.map (fun ipl => ipl.2.map (List.map ((fun p2 m2 => (scatter (List.replicate (list_max ((segs_to_raveler sps bodies 0 false none).2.2.map (·.1)) + 1) 0) (segs_to_raveler sps bodies 0 false none).2.2).getD (((dict_find (build_sp2seg (list_max ((segs_to_raveler sps bodies 0 false none).2.1.map (fun r => r.2.1))) (segs_to_raveler sps bodies 0 false none).2.1) (list_min ((segs_to_raveler sps bodies 0 false none).2.1.map (fun r => r.1)) + p2)).getD []).getD (m2) 0) 0) ipl.1)))) p r c := by
    have hOUTlen : ((((segs_to_raveler sps bodies 0 false none).1).enum.map (fun ipl =>
        ipl.2.map (List.map ((fun p2 m2 => (scatter (List.replicate (list_max ((segs_to_raveler sps bodies 0 false none).2.2.map (·.1)) + 1) 0) (segs_to_raveler sps bodies 0 false none).2.2).getD (((dict_find (build_sp2seg (list_max ((segs_to_raveler sps bodies 0 false none).2.1.map (fun r => r.2.1))) (segs_to_raveler sps bodies 0 false none).2.1) (list_min ((segs_to_raveler sps bodies 0 false none).2.1.map (fun r => r.1)) + p2)).getD []).getD (m2) 0) 0) ipl.1))))).length = n := by
      rw [List.length_map, List.enum_length]
      exact hsplen
    show pget ((List.zipWith set_corner _ _).getD p []) r c = _
    rw [getD_zipWith_set_corner _ _ p (by rw [hOUTlen]; omega) (by rw [List.length_map])]
    exact pget_set_corner_ne _ _ r c hnc
  have hL2 : vget (((segs_to_raveler sps bodies 0 false none).1).enum.map (fun ipl =>
      ipl.2.map (List.map ((fun p2 m2 => (scatter (List.replicate (list_max ((segs_to_raveler sps bodies 0 false none).2.2.map (·.1)) + 1) 0) (segs_to_raveler sps bodies 0 false none).2.2).getD (((dict_find (build_sp2seg (list_max ((segs_to_raveler sps bodies 0 false none).2.1.map (fun r => r.2.1))) (segs_to_raveler sps bodies 0 false none).2.1) (list_min ((segs_to_raveler sps bodies 0 false none).2.1.map (fun r => r.1)) + p2)).getD []).getD (m2) 0) 0) ipl.1)))) p r c = ((scatter (List.replicate (list_max ((segs_to_raveler sps bodies 0 false none).2.2.map (·.1)) + 1) 0) (segs_to_raveler sps bodies 0 false none).2.2).getD (((dict_find (build_sp2seg (list_max ((segs_to_raveler sps bodies 0 false none).2.1.map (fun r => r.2.1))) (segs_to_raveler sps bodies 0 false none).2.1) (list_min ((segs_to_raveler sps bodies 0 false none).2.1.map (fun r => r.1)) + p)).getD []).getD (vget (segs_to_raveler sps bodies 0 false none).1 p r c) 0) 0) :=
    out_vget ((segs_to_raveler sps bodies 0 false none).1) (fun p2 m2 => (scatter (List.replicate (list_max ((segs_to_raveler sps bodies 0 false none).2.2.map (·.1)) + 1) 0) (segs_to_raveler sps bodies 0 false none).2.2).getD (((dict_find (build_sp2seg (list_max ((segs_to_raveler sps bodies 0 false none).2.1.map (fun r => r.2.1))) (segs_to_raveler sps bodies 0 false none).2.1) (list_min ((segs_to_raveler sps bodies 0 false none).2.1.map (fun r => r.1)) + p2)).getD []).getD (m2) 0) 0) p r c (by omega)
      (by rw [hspplane p hp]; omega) (by rw [hsprow p r hp hr]; omega)
  have hL3 : ((scatter (List.replicate (list_max ((segs_to_raveler sps bodies 0 false none).2.2.map (·.1)) + 1) 0) (segs_to_raveler sps bodies 0 false none).2.2).getD (((dict_find (build_sp2seg (list_max ((segs_to_raveler sps bodies 0 false none).2.1.map (fun r => r.2.1))) (segs_to_raveler sps bodies 0 false none).2.1) (list_min ((segs_to_raveler sps bodies 0 false none).2.1.map (fun r => r.1)) + p)).getD []).getD (vget (segs_to_raveler sps bodies 0 false none).1 p r c) 0) 0) = vget bodies p r c := (hSKv p r c hp hr hc hnc).2
  exact hL1.trans (hL2.trans hL3)

end Gala

namespace Gala

/-- Witness for C3 amended: on the single-plane volumes `sps=[[[1,2]]]`,
`bodies=[[[5,5]]]` the hypotheses hold, the reader succeeds, and the
decoded volume is exactly `[[[5,5]]]` - it agrees with `bodies` at every
non-corner voxel. -/
theorem c3_witness :
    (∃ out : Vol,
      raveler_to_labeled_volume (segs_to_raveler [[[1,2]]] [[[5,5]]] 0 false none).1
          (segs_to_raveler [[[1,2]]] [[[5,5]]] 0 false none).2.1
          (segs_to_raveler [[[1,2]]] [[[5,5]]] 0 false none).2.2 = some out ∧
      ∀ p r c, p < 1 → r < 1 → c < 2 → ¬(r = 0 ∧ c = 0) →
        vget out p r c = vget [[[5,5]]] p r c) ∧
    raveler_to_labeled_volume (segs_to_raveler [[[1,2]]] [[[5,5]]] 0 false none).1
        (segs_to_raveler [[[1,2]]] [[[5,5]]] 0 false none).2.1
        (segs_to_raveler [[[1,2]]] [[[5,5]]] 0 false none).2.2 = some [[[5,5]]] :=
  ⟨c3_theorem [[[1,2]]] [[[5,5]]] 1 1 2 (by decide) (by decide) (by decide)
      (by unfold HasShape; decide) (by unfold HasShape; decide)
      (by decide) (by decide) (by decide),
   by decide⟩

end Gala
